import Mathlib

/-!
# Verification of the imnode-graph node-graph widget

Shallow embedding of the connection / object-pool / camera logic of the
imnode-graph immediate-mode node-graph editor (`src/imnode_graph.cpp`,
`src/imnode_graph_internal.h` and the pool header in `src/unnamed/part_003`).

Machine integers (`ImGuiID` = `unsigned int`, slot indices = `int`) are
modelled as `Nat` / `Int`; `ImVector<T>` as `List T`; `ImGuiStorage` as an
association list from keys to `Int` values.  Rendering, layout and ImGui
widget calls are external collaborators of the system under specification
and are not modelled; only the data-structure effects of each operation
are.  Floating-point coordinates are modelled by exact rationals.
-/

namespace ImNodeGraphModel

/-- `ImGuiID` (an `unsigned int` key). -/
abbrev ImGuiID := Nat

/-- The sentinel index `ImObjectPool<T>::nullidx = -1`. -/
def nullidx : Int := -1

/-! ## ImGuiStorage (key → int map with a default) -/

/-- Model of `ImGuiStorage` restricted to its `GetInt`/`SetInt` interface:
an association list of `(key, value)` pairs.  The real container keeps the
pairs sorted by key; lookup semantics are unaffected. -/
abbrev ImGuiStorage := List (Nat × Int)

/-- `ImGuiStorage::GetInt(key, default)`. -/
def storageGetInt (s : ImGuiStorage) (k : Nat) (d : Int) : Int :=
  match s.find? (fun kv => kv.1 = k) with
  | some kv => kv.2
  | none => d

/-- `ImGuiStorage::SetInt(key, val)`: overwrite the value stored for `key`,
or insert the pair if the key is absent. -/
def storageSetInt (s : ImGuiStorage) (k : Nat) (v : Int) : ImGuiStorage :=
  if s.any (fun kv => kv.1 = k) then
    s.map (fun kv => if kv.1 = k then (k, v) else kv)
  else
    s ++ [(k, v)]

/-! ## ImVector helpers -/

/-- `ImVector<T>::find_erase_unsorted(v)`: locate the first occurrence of
`v`; if found, overwrite it with the last element and pop the back
(`erase_unsorted`).  Returns the vector unchanged if `v` is absent. -/
def findEraseUnsorted {α : Type} [DecidableEq α] (l : List α) (x : α) : List α :=
  match l.findIdx? (fun y => y = x) with
  | none => l
  | some i => (l.set i (l.getLastD x)).dropLast

/-- The loop body of `ImObjectPool<T>::PushToTop`: starting from the front
of the suffix, repeatedly `ImSwap(Order[i], Order[i+1])`, migrating the
first element of the suffix to its end. -/
def moveHeadToEnd : List Nat → List Nat
  | [] => []
  | [a] => [a]
  | a :: b :: r => b :: moveHeadToEnd (a :: r)
  termination_by l => l.length

/-! ## ImObjectPool -/

/-- `ImObjectPool<T>` (pool header, `src/unnamed/part_003` lines 477-568):
stable-identity pool with a side hash table `IDToIdx`, per-slot `Active`
flags, a free list and an independent iteration `Order`. -/
structure ImObjectPool (T : Type) where
  Data : List T
  Active : List Bool
  IdxToID : List ImGuiID
  Freed : List Nat
  Order : List Nat
  IDToIdx : ImGuiStorage
  deriving Repr

namespace ImObjectPool

variable {T : Type} [Inhabited T]

/-- `ImObjectPool<T>::_PushBack(id)`. -/
def pushBackSlot (p : ImObjectPool T) (id : ImGuiID) : ImObjectPool T :=
  { p with Data := p.Data ++ [default]
         , Active := p.Active ++ [true]
         , IdxToID := p.IdxToID ++ [id] }

/-- `ImObjectPool<T>::_GetNextIndex(id)`: pop a freed slot (resetting its
value) or push a fresh one, then record `id ↦ idx` in the hash table. -/
def getNextIndex (p : ImObjectPool T) (id : ImGuiID) : ImObjectPool T × Nat :=
  match p.Freed.getLast? with
  | some idx =>
    let p1 : ImObjectPool T :=
      { p with Freed := p.Freed.dropLast
             , Data := p.Data.set idx default
             , Active := p.Active.set idx true
             , IdxToID := p.IdxToID.set idx id }
    ({ p1 with IDToIdx := storageSetInt p1.IDToIdx id (Int.ofNat idx) }, idx)
  | none =>
    let idx := p.Data.length
    let p1 := p.pushBackSlot id
    ({ p1 with IDToIdx := storageSetInt p1.IDToIdx id (Int.ofNat idx) }, idx)

/-- `ImObjectPool<T>::operator[](ImGuiID)`: look the id up in the hash
table, allocating a fresh slot (appended to `Order`) when unmapped; mark
the slot active.  Returns the pool together with the slot index the C++
reference points at. -/
def getById (p : ImObjectPool T) (id : ImGuiID) : ImObjectPool T × Nat :=
  let idx0 := storageGetInt p.IDToIdx id nullidx
  if idx0 = nullidx then
    let (p1, idx) := p.getNextIndex id
    let p2 := { p1 with Order := p1.Order ++ [idx] }
    ({ p2 with Active := p2.Active.set idx true }, idx)
  else
    let idx := idx0.toNat
    ({ p with Active := p.Active.set idx true }, idx)

/-- `ImObjectPool<T>::operator()(ImGuiID)`: id is mapped and its slot is
active. -/
def contains (p : ImObjectPool T) (id : ImGuiID) : Bool :=
  let idx := storageGetInt p.IDToIdx id nullidx
  idx ≠ nullidx && p.Active.getD idx.toNat false

/-- `ImObjectPool<T>::Reset()`: clear every active flag. -/
def Reset (p : ImObjectPool T) : ImObjectPool T :=
  { p with Active := List.replicate p.Active.length false }

/-- One iteration of the `Cleanup` scan (the loop body of
`ImObjectPool<T>::Cleanup()` for slot `i`): skip active slots; push an
inactive slot's index onto the free list, drop it from `Order`, evict its
id from the hash table and zero its reverse id. -/
def cleanupStep (q : ImObjectPool T) (i : Nat) : ImObjectPool T :=
  if q.Active.getD i false then q
  else
    { q with Freed := q.Freed ++ [i]
           , Order := q.Order.erase i
           , IDToIdx := storageSetInt q.IDToIdx (q.IdxToID.getD i 0) nullidx
           , IdxToID := q.IdxToID.set i 0 }

/-- `ImObjectPool<T>::Cleanup()`: empty the free list, then run the scan
over every slot index.  Returns the number of freed slots at the end
minus the number previously on the free list. -/
def Cleanup (p : ImObjectPool T) : ImObjectPool T × Int :=
  let cnt := p.Freed.length
  let p0 : ImObjectPool T := { p with Freed := [] }
  let q := (List.range p0.Active.length).foldl cleanupStep p0
  (q, (q.Freed.length : Int) - (cnt : Int))

/-- `ImObjectPool<T>::PushToTop(id)`: move the slot's entry in `Order` to
the back by adjacent swaps; no-op when the id is unmapped.  (`find_index`
positions past the end when the index is missing from `Order`, so the swap
loop then does nothing.) -/
def PushToTop (p : ImObjectPool T) (id : ImGuiID) : ImObjectPool T :=
  let idx0 := storageGetInt p.IDToIdx id nullidx
  if idx0 = nullidx then p
  else
    let idx := idx0.toNat
    let i := p.Order.findIdx (fun y => y = idx)
    { p with Order := p.Order.take i ++ moveHeadToEnd (p.Order.drop i) }

end ImObjectPool

/-! ## ImObjectList -/

/-- `ImObjectList<T>` (pool header lines 416-471): pool with generated
ids (slot index = id), used for the graph's connection list. -/
structure ImObjectList (T : Type) where
  Data : List T
  Active : List Bool
  Freed : List ImGuiID
  deriving Repr

namespace ImObjectList

variable {T : Type} [Inhabited T]

/-- `ImObjectList<T>::Insert(v)`: reuse the last freed id or append. -/
def Insert (l : ImObjectList T) (v : T) : ImObjectList T × ImGuiID :=
  match l.Freed.getLast? with
  | none =>
    ({ l with Data := l.Data ++ [v], Active := l.Active ++ [true] }, l.Data.length)
  | some id =>
    ({ l with Freed := l.Freed.dropLast
            , Data := l.Data.set id v
            , Active := l.Active.set id true }, id)

/-- `ImObjectList<T>::Erase(id)`: deactivate, push onto the free list and
reset the value. -/
def Erase (l : ImObjectList T) (id : ImGuiID) : ImObjectList T :=
  { l with Active := l.Active.set id false
         , Freed := l.Freed ++ [id]
         , Data := l.Data.set id default }

/-- `ImObjectList<T>::operator[](id)` (value read). -/
def get (l : ImObjectList T) (id : ImGuiID) : T :=
  l.Data.getD id default

/-- `ImObjectList<T>::operator()(id)`: the slot is active. -/
def isActive (l : ImObjectList T) (id : ImGuiID) : Bool :=
  l.Active.getD id false

end ImObjectList

/-! ## Coordinate transform and camera (`src/imnode_graph.cpp` lines 449-499, 274-303)

`ImVec2`/`float` coordinates are modelled by exact rationals. -/

/-- `ImVec2` with exact rational components. -/
structure Vec2 where
  x : Rat
  y : Rat
  deriving DecidableEq, Repr

namespace Vec2

def add (a b : Vec2) : Vec2 := ⟨a.x + b.x, a.y + b.y⟩

def sub (a b : Vec2) : Vec2 := ⟨a.x - b.x, a.y - b.y⟩

/-- Componentwise scaling by a scalar (ImGui's `ImVec2 * float`). -/
def smul (a : Vec2) (s : Rat) : Vec2 := ⟨a.x * s, a.y * s⟩

/-- Componentwise division by a scalar (ImGui's `ImVec2 / float`). -/
def sdiv (a : Vec2) (s : Rat) : Vec2 := ⟨a.x / s, a.y / s⟩

end Vec2

/-- `ImGraphCamera`: position + scale (default `{0,0}`, `1`). -/
structure ImGraphCamera where
  Position : Vec2
  Scale : Rat
  deriving DecidableEq, Repr

/-- `ImNodeGraph::GridToScreen(pos)`:
`(pos - Camera.Position) * Camera.Scale + Graph.GetCenter()`.
The graph centre `Graph.GetCenter() = Pos + Size * 0.5` is passed in as
`center`. -/
def GridToScreen (camera : ImGraphCamera) (center : Vec2) (pos : Vec2) : Vec2 :=
  Vec2.add (Vec2.smul (Vec2.sub pos camera.Position) camera.Scale) center

/-- `ImNodeGraph::ScreenToGrid(pos)`:
`Camera.Position + (pos - Graph.GetCenter()) / Camera.Scale`. -/
def ScreenToGrid (camera : ImGraphCamera) (center : Vec2) (pos : Vec2) : Vec2 :=
  Vec2.add camera.Position (Vec2.sdiv (Vec2.sub pos center) camera.Scale)

/-- `ImClamp(v, mn, mx)` (imgui): `(v < mn) ? mn : (v > mx) ? mx : v`. -/
def ImClamp (v mn mx : Rat) : Rat :=
  if v < mn then mn else if v > mx then mx else v

/-- `ImLerp(a, b, t)` (imgui): `a + (b - a) * t`. -/
def ImLerp (a b t : Rat) : Rat := a + (b - a) * t

/-- The zoom-relevant settings of `ImNodeGraphSettings` (defaults:
rate 0.1, smoothing 8, bounds (0.6, 2.5)). -/
structure ImNodeGraphSettings where
  ZoomRate : Rat
  ZoomSmoothing : Rat
  ZoomBoundsX : Rat
  ZoomBoundsY : Rat
  deriving DecidableEq, Repr

/-- The effect of `ImNodeGraph::GraphBehaviour` (lines 274-303) on
`Graph.TargetZoom` and `Camera.Scale`.  The function mirrors the code up
to and including the zoom block: the early return when the window is
unfocused or a pin-drag connection is pending (lines 286-295) leaves the
camera untouched; otherwise, if the grid area is hovered the target zoom
is bumped by `MouseWheel * ZoomRate * Scale`, the target is clamped to the
zoom bounds and the scale is lerped toward it by
`DeltaTime * ZoomSmoothing`.  `isPanning` is the graph's pan flag: the
zoom block never reads it, and it is included here only so that
independence from the pan state is statable.  Returns
`(TargetZoom', Scale')`. -/
def GraphBehaviourZoom (windowFocused newConnectionPending isPanning hovered : Bool)
    (mouseWheel deltaTime : Rat) (settings : ImNodeGraphSettings)
    (targetZoom scale : Rat) : Rat × Rat :=
  if !windowFocused || newConnectionPending then (targetZoom, scale)
  else
    let _ := isPanning
    let tz0 := if hovered then targetZoom + mouseWheel * settings.ZoomRate * scale
               else targetZoom
    let tz := ImClamp tz0 settings.ZoomBoundsX settings.ZoomBoundsY
    (tz, ImLerp scale tz (deltaTime * settings.ZoomSmoothing))

/-! ## Pins, nodes, connections (`src/imnode_graph_internal.h`) -/

/-- `ImPinDirection = bool`, `ImPinDirection_Input = false`. -/
def ImPinDirection_Input : Bool := false

/-- `ImPinDirection_Output = true`. -/
def ImPinDirection_Output : Bool := true

/-- `ImPinPtr`: (owning node id, pin id, direction). -/
structure ImPinPtr where
  Node : ImGuiID
  Pin : ImGuiID
  Direction : Bool
  deriving DecidableEq, Repr

instance : Inhabited ImPinPtr := ⟨⟨0, 0, false⟩⟩

/-- `ImPinConnection`: an unordered pair of pin references. -/
structure ImPinConnection where
  A : ImPinPtr
  B : ImPinPtr
  deriving DecidableEq, Repr

instance : Inhabited ImPinConnection := ⟨⟨default, default⟩⟩

/-- `ImPinData` (internal header lines 171-196), restricted to the fields
the connection logic reads or writes.  The geometry fields (`Pos`,
`Center`, `ScreenBounds`), the `UserID` and the `Hovered` input flag feed
only the unmodelled layout/render passes and are omitted.  The `Type`
field is named `PinType` (`Type` is reserved in Lean).  The default
constructor zeroes the ids, type, direction and flags; the two `B…` frame
flags are modelled as starting `false`. -/
structure ImPinData where
  Node : ImGuiID
  ID : ImGuiID
  PinType : Nat
  Direction : Bool
  Flags : Nat
  Connections : List ImGuiID
  NewConnections : List ImPinPtr
  ErasedConnections : List ImPinPtr
  BNewConnections : Bool
  BErasedConnections : Bool
  deriving DecidableEq, Repr

instance : Inhabited ImPinData := ⟨⟨0, 0, 0, ImPinDirection_Input, 0, [], [], [], false, false⟩⟩

/-- `ImPinData::operator ImPinPtr()`: `{ Node, ID, Direction }`. -/
def ImPinData.toPtr (p : ImPinData) : ImPinPtr := ⟨p.Node, p.ID, p.Direction⟩

/-- `ImNodeData` (internal header lines 143-166), restricted to the fields
the connection logic touches: the id and the two pin pools.  The retained
root position, screen bounds, draw-channel indices, hover/active flags and
header record feed only the unmodelled layout/render/interaction passes
and are omitted. -/
structure ImNodeData where
  ID : ImGuiID
  InputPins : ImObjectPool ImPinData
  OutputPins : ImObjectPool ImPinData
  deriving Repr

instance : Inhabited ImNodeData := ⟨⟨0, ⟨[], [], [], [], [], []⟩, ⟨[], [], [], [], [], []⟩⟩⟩

/-- `ImNodeGraphData` (internal header lines 79-125), restricted to the
node pool, the connection list and the user validation callback
(`ImConnectionValidation = bool(*)(ImPinPtr, ImPinPtr)`, `none` = null).
Style, camera, selection and per-frame interaction state feed the parts
of the frame not modelled here. -/
structure ImNodeGraphData where
  Nodes : ImObjectPool ImNodeData
  Connections : ImObjectList ImPinConnection
  Validation : Option (ImPinPtr → ImPinPtr → Bool)

/-- Address of the slot a C++ `ImPinData&` refers to: node slot index,
pin-pool side, pin slot index. -/
structure PinAddr where
  node : Nat
  dir : Bool
  pin : Nat
  deriving DecidableEq, Repr

/-- The pin pool of `node` selected by a direction:
`pin.Direction ? Node.OutputPins : Node.InputPins`. -/
def pinPoolOf (node : ImNodeData) (dir : Bool) : ImObjectPool ImPinData :=
  if dir then node.OutputPins else node.InputPins

/-- Store a pin pool back into the side of `node` selected by `dir`. -/
def setPinPool (node : ImNodeData) (dir : Bool) (pool : ImObjectPool ImPinData) : ImNodeData :=
  if dir then { node with OutputPins := pool } else { node with InputPins := pool }

/-- Read the pin value a `PinAddr` refers to. -/
def readPin (g : ImNodeGraphData) (a : PinAddr) : ImPinData :=
  (pinPoolOf (g.Nodes.Data.getD a.node default) a.dir).Data.getD a.pin default

/-- Mutate the pin value a `PinAddr` refers to (a C++ write through an
`ImPinData&`). -/
def modifyPin (g : ImNodeGraphData) (a : PinAddr) (f : ImPinData → ImPinData) : ImNodeGraphData :=
  let node := g.Nodes.Data.getD a.node default
  let pool := pinPoolOf node a.dir
  let pool1 := { pool with Data := pool.Data.set a.pin (f (pool.Data.getD a.pin default)) }
  { g with Nodes := { g.Nodes with Data := g.Nodes.Data.set a.node (setPinPool node a.dir pool1) } }

/-- `ImNodeGraphData::FindPin(pin)` (`src/imnode_graph.cpp` lines
157-162): `Nodes[pin.Node]`, then the pin pool picked by `pin.Direction`,
then `Pins[pin.Pin]` — both lookups auto-create and mark active.  Returns
the threaded state and the address of the resulting `ImPinData&`. -/
def ImNodeGraphData.FindPin (g : ImNodeGraphData) (ptr : ImPinPtr) : ImNodeGraphData × PinAddr :=
  let (nodes1, ni) := g.Nodes.getById ptr.Node
  let node := nodes1.Data.getD ni default
  let (pins1, pi) := (pinPoolOf node ptr.Direction).getById ptr.Pin
  let node1 := setPinPool node ptr.Direction pins1
  ({ g with Nodes := { nodes1 with Data := nodes1.Data.set ni node1 } }, ⟨ni, ptr.Direction, pi⟩)

/-- The loop body of `BreakConnections` for connection `id`: remove the
record, find the other endpoint, record the erasure on both pins (setting
their per-frame erased flags), drop the matching pending new-connection
entries on both sides, and remove the id from the other pin's
back-reference list.  `ptr`/`addr` are the pin being disconnected and the
slot address of the C++ `Pin` reference. -/
def breakStep (ptr : ImPinPtr) (addr : PinAddr) (g : ImNodeGraphData) (id : ImGuiID) :
    ImNodeGraphData :=
  let connection := g.Connections.get id
  let g := { g with Connections := g.Connections.Erase id }
  let otherPtr := if connection.A = ptr then connection.B else connection.A
  let (g, addrO) := g.FindPin otherPtr
  let g := modifyPin g addr (fun p =>
    { p with ErasedConnections := p.ErasedConnections ++ [(readPin g addrO).toPtr]
           , BErasedConnections := true })
  let g := modifyPin g addrO (fun p =>
    { p with ErasedConnections := p.ErasedConnections ++ [ptr]
           , BErasedConnections := true })
  let g := modifyPin g addr (fun p =>
    { p with NewConnections := p.NewConnections.erase (readPin g addrO).toPtr })
  let g := modifyPin g addrO (fun p =>
    { p with NewConnections := p.NewConnections.erase (readPin g addr).toPtr })
  modifyPin g addrO (fun p =>
    { p with Connections := findEraseUnsorted p.Connections id })

/-- `ImNodeGraph::BreakConnections(ptr)` (`src/imnode_graph.cpp` lines
995-1017): find the pin, run the loop body over each of its connection
ids (the loop iterates the vector as it stood at loop entry; the body
never touches it when the endpoints alias distinct slots), then clear
this pin's list. -/
def BreakConnections (g : ImNodeGraphData) (ptr : ImPinPtr) : ImNodeGraphData :=
  let (g1, addr) := g.FindPin ptr
  let conns := (readPin g1 addr).Connections
  let g2 := conns.foldl (breakStep ptr addr) g1
  modifyPin g2 addr (fun p => { p with Connections := [] })

/-- The record-insertion tail of `MakeConnection` (`src/imnode_graph.cpp`
lines 965-972), split out for reuse in proofs: insert the `{a, b}` record,
push the new id onto both pins' back-reference lists and record the
new-connection events (setting the per-frame new flags). -/
def insertPhase (g4 : ImNodeGraphData) (a b : ImPinPtr) (addrA addrB : PinAddr) :
    ImNodeGraphData :=
  let conns := (g4.Connections.Insert ⟨a, b⟩).1
  let connId := (g4.Connections.Insert ⟨a, b⟩).2
  let g5 := { g4 with Connections := conns }
  let g6 := modifyPin g5 addrA (fun p => { p with Connections := p.Connections ++ [connId] })
  let g7 := modifyPin g6 addrB (fun p => { p with Connections := p.Connections ++ [connId] })
  let g8 := modifyPin g7 addrA (fun p =>
    { p with NewConnections := p.NewConnections ++ [b], BNewConnections := true })
  modifyPin g8 addrB (fun p =>
    { p with NewConnections := p.NewConnections ++ [a], BNewConnections := true })

/-- `ImNodeGraph::MakeConnection(a, b)` (`src/imnode_graph.cpp` lines
947-973): reject same-direction or same-node pairs, find both pins,
consult the user validator (a `true` return rejects), sever the prior
connections of any input endpoint that has some, insert the record,
push the new id onto both pins' lists and record the new-connection
events (setting the per-frame new flags). -/
def MakeConnection (g : ImNodeGraphData) (a b : ImPinPtr) : ImNodeGraphData × Bool :=
  if a.Direction = b.Direction then (g, false)
  else if a.Node = b.Node then (g, false)
  else
    let (g1, addrA) := g.FindPin a
    let (g2, addrB) := g1.FindPin b
    let rejected := match g2.Validation with
      | some v => v (readPin g2 addrA).toPtr (readPin g2 addrB).toPtr
      | none => false
    if rejected then (g2, false)
    else
      let A := readPin g2 addrA
      let g3 := if A.Direction = ImPinDirection_Input ∧ A.Connections ≠ [] then
                  BreakConnections g2 A.toPtr
                else g2
      let B := readPin g3 addrB
      let g4 := if B.Direction = ImPinDirection_Input ∧ B.Connections ≠ [] then
                  BreakConnections g3 B.toPtr
                else g3
      let (conns, connId) := g4.Connections.Insert ⟨a, b⟩
      let g5 := { g4 with Connections := conns }
      let g6 := modifyPin g5 addrA (fun p => { p with Connections := p.Connections ++ [connId] })
      let g7 := modifyPin g6 addrB (fun p => { p with Connections := p.Connections ++ [connId] })
      let g8 := modifyPin g7 addrA (fun p =>
        { p with NewConnections := p.NewConnections ++ [b], BNewConnections := true })
      let g9 := modifyPin g8 addrB (fun p =>
        { p with NewConnections := p.NewConnections ++ [a], BNewConnections := true })
      (g9, true)

/-- `ImNodeGraph::BreakConnection(id)` (`src/imnode_graph.cpp` lines
975-993): read and erase the record, find both endpoint pins, drop the id
from both lists (`find_erase_unsorted`), record the erasure events
(setting the per-frame erased flags) and drop any matching pending
new-connection entries. -/
def BreakConnection (g : ImNodeGraphData) (id : ImGuiID) : ImNodeGraphData :=
  let connection := g.Connections.get id
  let g0 := { g with Connections := g.Connections.Erase id }
  let (g1, addrA) := g0.FindPin connection.A
  let (g2, addrB) := g1.FindPin connection.B
  let g3 := modifyPin g2 addrA (fun p =>
    { p with Connections := findEraseUnsorted p.Connections id })
  let g4 := modifyPin g3 addrB (fun p =>
    { p with Connections := findEraseUnsorted p.Connections id })
  let g5 := modifyPin g4 addrA (fun p =>
    { p with ErasedConnections := p.ErasedConnections ++ [connection.B]
           , BErasedConnections := true })
  let g6 := modifyPin g5 addrB (fun p =>
    { p with ErasedConnections := p.ErasedConnections ++ [connection.A]
           , BErasedConnections := true })
  let g7 := modifyPin g6 addrA (fun p =>
    { p with NewConnections := p.NewConnections.erase (readPin g6 addrB).toPtr })
  modifyPin g7 addrB (fun p =>
    { p with NewConnections := p.NewConnections.erase (readPin g7 addrA).toPtr })

/-- `ImNodeGraph::GetConnections(pin)` (`src/imnode_graph.cpp` lines
1994-2006): `Graph->FindPin(pin)` and return its `Connections` list. -/
def GetConnections (g : ImNodeGraphData) (pin : ImPinPtr) : ImNodeGraphData × List ImGuiID :=
  let (g1, addr) := g.FindPin pin
  (g1, (readPin g1 addr).Connections)

/-- The `if(node_x) { pins[…].Connections.find_erase(id); }` block of
`CleanupConnection`: pick the node's pin pool by the endpoint direction,
look the pin up (`operator[]`, auto-creating and marking active) and
erase the connection id from its back-reference list (`find_erase`,
order-preserving). -/
def nodePinFindErase (g : ImNodeGraphData) (ni : Nat) (dir : Bool) (pinId : ImGuiID)
    (connId : ImGuiID) : ImNodeGraphData :=
  let node := g.Nodes.Data.getD ni default
  let (pins1, pi) := (pinPoolOf node dir).getById pinId
  let pin := pins1.Data.getD pi default
  let pin1 := { pin with Connections := pin.Connections.erase connId }
  let pins2 := { pins1 with Data := pins1.Data.set pi pin1 }
  { g with Nodes := { g.Nodes with Data := g.Nodes.Data.set ni (setPinPool node dir pins2) } }

/-- `ImNodeGraph::CleanupConnection(id, connection)` (`src/imnode_graph.cpp`
lines 646-667): resolve each endpoint node that is still in the pool
(`Nodes(id) ? &Nodes[id] : nullptr`), remove the connection id from the
back-reference list of each resolved endpoint pin, and erase the record
from the connection list. -/
def CleanupConnection (g : ImNodeGraphData) (id : ImGuiID) (connection : ImPinConnection) :
    ImNodeGraphData :=
  let aAlive := g.Nodes.contains connection.A.Node
  let (ga, na) := if aAlive then
      let (n1, i) := g.Nodes.getById connection.A.Node
      ({ g with Nodes := n1 }, i)
    else (g, 0)
  let bAlive := ga.Nodes.contains connection.B.Node
  let (gb, nb) := if bAlive then
      let (n1, i) := ga.Nodes.getById connection.B.Node
      ({ ga with Nodes := n1 }, i)
    else (ga, 0)
  let gc := if aAlive then nodePinFindErase gb na connection.A.Direction connection.A.Pin id
            else gb
  let gd := if bAlive then nodePinFindErase gc nb connection.B.Direction connection.B.Pin id
            else gc
  { gd with Connections := gd.Connections.Erase id }

/-- `ImNodeGraph::CheckConnectionValidity(id, connection)`
(`src/imnode_graph.cpp` lines 626-644): resolve each endpoint node that is
still in the pool; if either node is gone, or an endpoint's pin id is no
longer in that node's pin pool of the endpoint's direction, clean the
connection up and report `true` (stale); otherwise report `false`.  The
guarded `&Nodes[…]` reads mark the already-active node slots active, an
identity on the pool. -/
def CheckConnectionValidity (g : ImNodeGraphData) (id : ImGuiID)
    (connection : ImPinConnection) : ImNodeGraphData × Bool :=
  let aAlive := g.Nodes.contains connection.A.Node
  let (ga, na) := if aAlive then
      let (n1, i) := g.Nodes.getById connection.A.Node
      ({ g with Nodes := n1 }, i)
    else (g, 0)
  let bAlive := ga.Nodes.contains connection.B.Node
  let (gb, nb) := if bAlive then
      let (n1, i) := ga.Nodes.getById connection.B.Node
      ({ ga with Nodes := n1 }, i)
    else (ga, 0)
  if ¬aAlive then (CleanupConnection gb id connection, true)
  else if ¬bAlive then (CleanupConnection gb id connection, true)
  else
    let nodeA := gb.Nodes.Data.getD na default
    if connection.A.Direction = true ∧ nodeA.OutputPins.contains connection.A.Pin = false then
      (CleanupConnection gb id connection, true)
    else if connection.A.Direction = false ∧ nodeA.InputPins.contains connection.A.Pin = false then
      (CleanupConnection gb id connection, true)
    else
      let nodeB := gb.Nodes.Data.getD nb default
      if connection.B.Direction = true ∧ nodeB.OutputPins.contains connection.B.Pin = false then
        (CleanupConnection gb id connection, true)
      else if connection.B.Direction = false ∧ nodeB.InputPins.contains connection.B.Pin = false then
        (CleanupConnection gb id connection, true)
      else (gb, false)

/-- The effect of `ImNodeGraph::BeginPin` (`src/imnode_graph.cpp` lines
1799-1852) on the pin record: report "changed" when the pin's pending
new- or erased-connection list is non-empty, reset the two per-frame
flags to false, and (re)write the pin's identity, type, direction and
flag fields.  The ImGui group/cursor/ID-stack calls and `PinHead` drawing
are external collaborators and not modelled.  Returns
`(pin', changed)`. -/
def BeginPinData (pin : ImPinData) (node : ImGuiID) (id : ImGuiID) (ty : Nat)
    (direction : Bool) (flags : Nat) : ImPinData × Bool :=
  let changed := !pin.NewConnections.isEmpty || !pin.ErasedConnections.isEmpty
  ({ pin with BNewConnections := false
            , BErasedConnections := false
            , Node := node
            , ID := id
            , PinType := ty
            , Direction := direction
            , Flags := flags }, changed)

/-- The effect of `ImNodeGraph::EndPin` (`src/imnode_graph.cpp` lines
1912-1942) on the pin record: clear each pending-connection list whose
per-frame flag was not set during this frame.  The layout fixup and scope
pop are external collaborators and not modelled. -/
def EndPinData (pin : ImPinData) : ImPinData :=
  let pin1 := if pin.BNewConnections = false then { pin with NewConnections := [] } else pin
  if pin1.BErasedConnections = false then { pin1 with ErasedConnections := [] } else pin1

/-- A concrete two-slot pool for the C6 witness: ids 5 and 7 live at
slots 0 and 1. -/
def c6pool : ImObjectPool Nat :=
  ⟨[100, 200], [true, true], [5, 7], [], [0, 1], [(5, 0), (7, 1)]⟩

/-- Concrete fixture graph for the connection-claim witnesses: an output
pin (id 10, node 1, slot 0) and two input pins (id 20 on node 2 at slot 1,
id 30 on node 3 at slot 2); no validator, no connections. -/
def pinOut : ImPinData := ⟨1, 10, 0, ImPinDirection_Output, 0, [], [], [], false, false⟩

def pinIn1 : ImPinData := ⟨2, 20, 0, ImPinDirection_Input, 0, [], [], [], false, false⟩

def pinIn2 : ImPinData := ⟨3, 30, 0, ImPinDirection_Input, 0, [], [], [], false, false⟩

def emptyPinPool : ImObjectPool ImPinData := ⟨[], [], [], [], [], []⟩

def nodeOut : ImNodeData :=
  ⟨1, emptyPinPool, ⟨[pinOut], [true], [10], [], [0], [(10, 0)]⟩⟩

def nodeIn1 : ImNodeData :=
  ⟨2, ⟨[pinIn1], [true], [20], [], [0], [(20, 0)]⟩, emptyPinPool⟩

def nodeIn2 : ImNodeData :=
  ⟨3, ⟨[pinIn2], [true], [30], [], [0], [(30, 0)]⟩, emptyPinPool⟩

def gFix : ImNodeGraphData :=
  ⟨⟨[nodeOut, nodeIn1, nodeIn2], [true, true, true], [1, 2, 3], [], [0, 1, 2],
    [(1, 0), (2, 1), (3, 2)]⟩, ⟨[], [], []⟩, none⟩

def aPtr : ImPinPtr := ⟨1, 10, ImPinDirection_Output⟩

def bPtr : ImPinPtr := ⟨2, 20, ImPinDirection_Input⟩

def b2Ptr : ImPinPtr := ⟨3, 30, ImPinDirection_Input⟩

/-- A sample user validator (rejects same-direction pairs), and the fixture
graph equipped with it, for the C10 witness. -/
def valFix : ImPinPtr → ImPinPtr → Bool := fun p q => p.Direction = q.Direction

/-- A pin with a pending new-connection entry, for the C9 witness. -/
def pinChanged : ImPinData := ⟨2, 20, 0, ImPinDirection_Input, 0, [], [aPtr], [], false, false⟩

/-- Input pin `20` holding connection id 0, its node, and a graph whose
single stored connection references a node id (9) absent from the node
pool — the stale-connection fixture for the C8 witness. -/
def pinIn1C : ImPinData := ⟨2, 20, 0, ImPinDirection_Input, 0, [0], [], [], false, false⟩

def nodeInC : ImNodeData :=
  ⟨2, ⟨[pinIn1C], [true], [20], [], [0], [(20, 0)]⟩, emptyPinPool⟩

def gStale : ImNodeGraphData :=
  ⟨⟨[nodeInC], [true], [2], [], [0], [(2, 0)]⟩,
   ⟨[⟨⟨9, 99, ImPinDirection_Output⟩, bPtr⟩], [true], []⟩, none⟩

def gFixV : ImNodeGraphData := { gFix with Validation := some valFix }

/-! ## Liveness and frame-persistence predicates -/

/-- A live pool entry: `id` is mapped to slot `idx`, the slot is in range
and active, and it is not on the free list. -/
def PoolLiveAt {T : Type} (p : ImObjectPool T) (id : ImGuiID) (idx : Nat) : Prop :=
  storageGetInt p.IDToIdx id nullidx = Int.ofNat idx ∧
  idx < p.Data.length ∧ idx < p.Active.length ∧
  p.Active.getD idx false = true ∧ idx ∉ p.Freed

instance {T : Type} (p : ImObjectPool T) (id : ImGuiID) (idx : Nat) :
    Decidable (PoolLiveAt p id idx) :=
  decidable_of_iff (storageGetInt p.IDToIdx id nullidx = Int.ofNat idx ∧
    idx < p.Data.length ∧ idx < p.Active.length ∧
    p.Active.getD idx false = true ∧ idx ∉ p.Freed) Iff.rfl

/-- A live pin: its owning node is a live pool entry at slot `ni`, and in
that node's pin pool of the pin's direction the pin id is a live entry at
slot `pi`. -/
def PinLiveAt (g : ImNodeGraphData) (ptr : ImPinPtr) (ni pi : Nat) : Prop :=
  PoolLiveAt g.Nodes ptr.Node ni ∧
  PoolLiveAt (pinPoolOf (g.Nodes.Data.getD ni default) ptr.Direction) ptr.Pin pi

instance (g : ImNodeGraphData) (ptr : ImPinPtr) (ni pi : Nat) :
    Decidable (PinLiveAt g ptr ni pi) :=
  decidable_of_iff (PoolLiveAt g.Nodes ptr.Node ni ∧
    PoolLiveAt (pinPoolOf (g.Nodes.Data.getD ni default) ptr.Direction) ptr.Pin pi) Iff.rfl

/-- The address points at slots that are in range. -/
def AddrLive (g : ImNodeGraphData) (a : PinAddr) : Prop :=
  a.node < g.Nodes.Data.length ∧
  a.pin < (pinPoolOf (g.Nodes.Data.getD a.node default) a.dir).Data.length

/-- The pool state seen by an id that is *not* redeclared during the
current frame: it is still mapped to slot `idx`, the slot is inactive (the
frame's `Reset` cleared it and no later `get` touched it), bookkeeping is
consistent, and `idx` occurs at most once in the order array. -/
structure NotRedeclared {T : Type} (s : ImObjectPool T) (id : ImGuiID) (idx : Nat) : Prop where
  map : storageGetInt s.IDToIdx id nullidx = Int.ofNat idx
  hlt : idx < s.Data.length
  act : s.Active.getD idx false = false
  rid : s.IdxToID.getD idx 0 = id
  nfr : idx ∉ s.Freed
  leni : s.IdxToID.length = s.Data.length
  lena : s.Active.length = s.Data.length
  fnd : s.Freed.Nodup
  fbd : ∀ j ∈ s.Freed, j < s.Data.length
  mc : ∀ kv ∈ s.IDToIdx, 0 ≤ kv.2 →
    kv.2.toNat < s.Data.length ∧ s.IdxToID.getD kv.2.toNat 0 = kv.1 ∧ kv.2.toNat ∉ s.Freed
  nlb : ∀ kv ∈ s.IDToIdx, nullidx ≤ kv.2
  cnt : s.Order.count idx ≤ 1

/-! ## List and storage lemmas -/

theorem getD_set_self {α : Type} (l : List α) (i : Nat) (v d : α) (h : i < l.length) :
    (l.set i v).getD i d = v := by
  induction l generalizing i with
  | nil => simp at h
  | cons a t ih =>
    cases i with
    | zero => rfl
    | succ j => simpa using ih j (by simpa using h)

theorem getD_set_ne {α : Type} (l : List α) (i j : Nat) (v d : α) (h : i ≠ j) :
    (l.set i v).getD j d = l.getD j d := by
  induction l generalizing i j with
  | nil => rfl
  | cons a t ih =>
    cases i with
    | zero => cases j with
      | zero => exact absurd rfl h
      | succ k => rfl
    | succ m => cases j with
      | zero => rfl
      | succ k => simpa using ih m k (by omega)

theorem set_getD_self {α : Type} (l : List α) (i : Nat) (d : α) (h : i < l.length) :
    l.set i (l.getD i d) = l := by
  induction l generalizing i with
  | nil => rfl
  | cons a t ih =>
    cases i with
    | zero => rfl
    | succ j => simpa using ih j (by simpa using h)

theorem getD_append_left {α : Type} (l l' : List α) (i : Nat) (d : α) (h : i < l.length) :
    (l ++ l').getD i d = l.getD i d := by
  induction l generalizing i with
  | nil => simp at h
  | cons a t ih =>
    cases i with
    | zero => rfl
    | succ j => simpa using ih j (by simpa using h)

theorem getD_concat_length {α : Type} (l : List α) (x d : α) :
    (l ++ [x]).getD l.length d = x := by
  induction l with
  | nil => rfl
  | cons a t ih => simp [ih]

theorem mem_of_getLast?_eq_some {α : Type} {l : List α} {a : α} (h : l.getLast? = some a) :
    a ∈ l := by
  have hx : a ∈ l.getLast? := by simp [h]
  obtain ⟨hne, rfl⟩ := List.mem_getLast?_eq_getLast hx
  exact List.getLast_mem hne

theorem not_mem_dropLast {α : Type} {l : List α} {a : α} (h : a ∉ l) : a ∉ l.dropLast :=
  fun hm => h ((List.dropLast_sublist l).mem hm)

theorem storageGetInt_setInt_self (s : ImGuiStorage) (k : Nat) (v : Int) (d : Int) :
    storageGetInt (storageSetInt s k v) k d = v := by
  unfold storageSetInt
  split
  · next hany =>
    unfold storageGetInt
    induction s with
    | nil => simp at hany
    | cons kv t ih =>
      by_cases hk : kv.1 = k
      · simp [hk, List.find?]
      · have hany' : t.any (fun kv => kv.1 = k) := by
          simp only [List.any_cons] at hany
          rcases Bool.or_eq_true_iff.mp hany with h1 | h2
          · exact absurd (by simpa using h1) hk
          · exact h2
        simpa [List.find?, hk] using ih hany'
  · unfold storageGetInt
    induction s with
    | nil => simp [List.find?]
    | cons kv t ih =>
      next hany =>
      have hk : ¬(kv.1 = k) := by
        intro h
        exact hany (by simp [List.any_cons, h])
      have hany' : ¬ t.any (fun kv => kv.1 = k) = true := by
        intro h
        exact hany (by simp [List.any_cons, h])
      simpa [List.find?, hk] using ih hany'

theorem find?_map_overwrite (s : ImGuiStorage) (k k' : Nat) (v : Int) (h : k ≠ k') :
    (s.map (fun kv => if kv.1 = k then (k, v) else kv)).find? (fun kv => kv.1 = k') =
      s.find? (fun kv => kv.1 = k') := by
  induction s with
  | nil => rfl
  | cons kv t ih =>
    simp only [List.map_cons]
    by_cases hk : kv.1 = k
    · rw [List.find?_cons_of_neg _ (by simp only [if_pos hk, decide_eq_true_eq]; exact h),
          List.find?_cons_of_neg _ (by simp only [decide_eq_true_eq]; rw [hk]; exact h)]
      exact ih
    · by_cases hkv' : kv.1 = k'
      · rw [List.find?_cons_of_pos _ (by rw [if_neg hk]; simp [hkv']),
            List.find?_cons_of_pos _ (by simp [hkv'])]
        simp [if_neg hk]
      · rw [List.find?_cons_of_neg _ (by rw [if_neg hk]; simp [hkv']),
            List.find?_cons_of_neg _ (by simp [hkv'])]
        exact ih

theorem find?_append_miss (s : ImGuiStorage) (k k' : Nat) (v : Int) (h : k ≠ k') :
    (s ++ [(k, v)]).find? (fun kv => kv.1 = k') = s.find? (fun kv => kv.1 = k') := by
  induction s with
  | nil => simp [List.find?, h]
  | cons kv t ih =>
    rw [List.cons_append]
    by_cases hkv' : kv.1 = k'
    · rw [List.find?_cons_of_pos _ (by simp [hkv']), List.find?_cons_of_pos _ (by simp [hkv'])]
    · rw [List.find?_cons_of_neg _ (by simp [hkv']), List.find?_cons_of_neg _ (by simp [hkv'])]
      exact ih

theorem storageGetInt_setInt_ne (s : ImGuiStorage) (k k' : Nat) (v : Int) (d : Int)
    (h : k ≠ k') : storageGetInt (storageSetInt s k v) k' d = storageGetInt s k' d := by
  unfold storageSetInt
  by_cases hany : (s.any fun kv => kv.1 = k) = true
  · rw [if_pos hany]
    unfold storageGetInt
    rw [find?_map_overwrite s k k' v h]
  · rw [if_neg hany]
    unfold storageGetInt
    rw [find?_append_miss s k k' v h]

/-! ## findEraseUnsorted lemmas -/

theorem findIdx?_eq_none_of_not_mem {α : Type} [DecidableEq α] {l : List α} {y : α}
    (h : y ∉ l) : l.findIdx? (fun z => z = y) = none := by
  induction l with
  | nil => rfl
  | cons a t ih =>
    have ha : ¬(a = y) := fun hh => h (hh ▸ List.mem_cons_self _ _)
    rw [List.findIdx?_cons, if_neg (by simp [ha]), show (1 : Nat) = 0 + 1 from rfl,
      List.findIdx?_succ, ih (fun hh => h (List.mem_cons_of_mem _ hh))]
    rfl

theorem findIdx?_eq_some_of_mem {α : Type} [DecidableEq α] {l : List α} {y : α}
    (h : y ∈ l) : ∃ i, l.findIdx? (fun z => z = y) = some i := by
  induction l with
  | nil => simp at h
  | cons a t ih =>
    by_cases ha : a = y
    · exact ⟨0, by rw [List.findIdx?_cons, if_pos (by simp [ha])]⟩
    · have ht : y ∈ t := by
        rcases List.mem_cons.mp h with h1 | h2
        · exact absurd h1.symm ha
        · exact h2
      obtain ⟨i, hi⟩ := ih ht
      refine ⟨i + 1, ?_⟩
      rw [List.findIdx?_cons, if_neg (by simp [ha]), show (1 : Nat) = 0 + 1 from rfl,
        List.findIdx?_succ, hi]
      rfl

theorem findEraseUnsorted_of_not_mem {α : Type} [DecidableEq α] {l : List α} {y : α}
    (h : y ∉ l) : findEraseUnsorted l y = l := by
  unfold findEraseUnsorted
  rw [findIdx?_eq_none_of_not_mem h]

theorem dropLast_cons_ne_nil {α : Type} {l : List α} (a : α) (h : l ≠ []) :
    (a :: l).dropLast = a :: l.dropLast := by
  cases l with
  | nil => exact absurd rfl h
  | cons b t => rfl

theorem getLastD_eq_getLast {α : Type} (l : List α) (d : α) (h : l ≠ []) :
    l.getLastD d = l.getLast h := by
  rw [List.getLastD_eq_getLast?, List.getLast?_eq_getLast l h]
  rfl

/-- `find_erase_unsorted` (overwrite the found element with the back and
pop) produces a permutation of the order-preserving erase. -/
theorem findEraseUnsorted_perm {α : Type} [DecidableEq α] (l : List α) (y : α) (h : y ∈ l) :
    List.Perm (findEraseUnsorted l y) (l.erase y) := by
  induction l with
  | nil => simp at h
  | cons a t ih =>
    by_cases ha : a = y
    · subst ha
      have hf : (a :: t).findIdx? (fun z => z = a) = some 0 := by
        rw [List.findIdx?_cons, if_pos (by simp)]
      unfold findEraseUnsorted
      rw [hf]
      simp only
      rw [List.erase_cons_head, List.set_cons_zero]
      cases t with
      | nil => simp
      | cons b t' =>
        have htne : (b :: t') ≠ [] := by simp
        have hlast : (a :: b :: t').getLastD a = (b :: t').getLast htne := by
          rw [List.getLastD_cons]
          exact getLastD_eq_getLast _ _ htne
        rw [hlast, dropLast_cons_ne_nil _ htne]
        have hperm : List.Perm ((b :: t').getLast htne :: (b :: t').dropLast)
            ((b :: t').dropLast ++ [(b :: t').getLast htne]) :=
          (List.perm_append_singleton _ _).symm
        rw [List.dropLast_append_getLast htne] at hperm
        exact hperm
    · have ht : y ∈ t := by
        rcases List.mem_cons.mp h with h1 | h2
        · exact absurd h1.symm ha
        · exact h2
      obtain ⟨i, hi⟩ := findIdx?_eq_some_of_mem ht
      have htne : t ≠ [] := by
        intro hh
        rw [hh] at ht
        simp at ht
      have hf : (a :: t).findIdx? (fun z => z = y) = some (i + 1) := by
        rw [List.findIdx?_cons, if_neg (by simp [ha]), show (1 : Nat) = 0 + 1 from rfl,
          List.findIdx?_succ, hi]
        rfl
      have iht := ih ht
      unfold findEraseUnsorted at iht ⊢
      rw [hf]
      rw [hi] at iht
      simp only at iht ⊢
      rw [List.set_cons_succ]
      have hlast2 : (a :: t).getLastD y = t.getLastD y := by
        rw [List.getLastD_cons, getLastD_eq_getLast t a htne, getLastD_eq_getLast t y htne]
      rw [hlast2]
      have hsetne : t.set i (t.getLastD y) ≠ [] := by
        intro hh
        have hlen := congrArg List.length hh
        simp only [List.length_set, List.length_nil] at hlen
        exact htne (List.length_eq_zero.mp hlen)
      rw [dropLast_cons_ne_nil _ hsetne, List.erase_cons_tail (by simp [ha])]
      exact List.Perm.cons a iht

theorem findEraseUnsorted_count {α : Type} [DecidableEq α] (l : List α) (y x : α) :
    (findEraseUnsorted l y).count x = (l.erase y).count x := by
  by_cases h : y ∈ l
  · exact (findEraseUnsorted_perm l y h).count_eq x
  · rw [findEraseUnsorted_of_not_mem h, List.erase_of_not_mem h]

theorem findEraseUnsorted_count_le {α : Type} [DecidableEq α] (l : List α) (y x : α) :
    (findEraseUnsorted l y).count x ≤ l.count x := by
  rw [findEraseUnsorted_count]
  exact (List.erase_sublist y l).count_le x

theorem findEraseUnsorted_length_le {α : Type} [DecidableEq α] (l : List α) (y : α) :
    (findEraseUnsorted l y).length ≤ l.length := by
  by_cases h : y ∈ l
  · rw [(findEraseUnsorted_perm l y h).length_eq]
    exact (List.erase_sublist y l).length_le
  · rw [findEraseUnsorted_of_not_mem h]

theorem findEraseUnsorted_not_mem_self {α : Type} [DecidableEq α] {l : List α} {y : α}
    (h : l.count y ≤ 1) : y ∉ findEraseUnsorted l y := by
  have hc : (findEraseUnsorted l y).count y = (l.erase y).count y := findEraseUnsorted_count l y y
  rw [List.count_erase_self] at hc
  have : (findEraseUnsorted l y).count y = 0 := by omega
  exact List.count_eq_zero.mp this

/-! ## Pool liveness lemmas -/

theorem getD_set_true (l : List Bool) (i j : Nat) (h : l.getD j false = true)
    (hj : j < l.length) : (l.set i true).getD j false = true := by
  by_cases hij : i = j
  · subst hij
    exact getD_set_self l i true false hj
  · rw [getD_set_ne l i j true false hij]
    exact h

/-- `operator[]` on a live id returns its slot and leaves the pool
unchanged (the `Active[idx] = true` write overwrites `true`). -/
theorem getById_live {T : Type} [Inhabited T] {p : ImObjectPool T} {id : ImGuiID} {idx : Nat}
    (h : PoolLiveAt p id idx) : p.getById id = (p, idx) := by
  obtain ⟨hmap, hdl, hal, hact, hfree⟩ := h
  have hne : ¬(Int.ofNat idx = nullidx) := by
    intro hh
    unfold nullidx at hh
    have h0 : (0 : Int) ≤ Int.ofNat idx := Int.ofNat_nonneg idx
    omega
  have hset : p.Active.set idx true = p.Active := by
    conv_lhs => rw [← hact]
    exact set_getD_self p.Active idx false hal
  have ht : (Int.ofNat idx).toNat = idx := rfl
  simp only [ImObjectPool.getById, hmap, if_neg hne, ht, hset]

/-- `operator[]` for any id preserves the liveness and the stored value of
every live slot. -/
theorem getById_other {T : Type} [Inhabited T] {p : ImObjectPool T} {id : ImGuiID} {idx : Nat}
    (h : PoolLiveAt p id idx) (id' : ImGuiID) :
    PoolLiveAt (p.getById id').1 id idx ∧
      (p.getById id').1.Data.getD idx default = p.Data.getD idx default := by
  obtain ⟨hmap, hdl, hal, hact, hfree⟩ := h
  by_cases hid : id' = id
  · subst hid
    rw [getById_live ⟨hmap, hdl, hal, hact, hfree⟩]
    exact ⟨⟨hmap, hdl, hal, hact, hfree⟩, rfl⟩
  · unfold ImObjectPool.getById
    by_cases hmiss : storageGetInt p.IDToIdx id' nullidx = nullidx
    · rw [if_pos hmiss]
      unfold ImObjectPool.getNextIndex
      cases hlast : p.Freed.getLast? with
      | some j =>
        have hjmem : j ∈ p.Freed := mem_of_getLast?_eq_some hlast
        have hj : j ≠ idx := fun hh => hfree (hh ▸ hjmem)
        simp only
        refine ⟨⟨?_, ?_, ?_, ?_, ?_⟩, ?_⟩
        · rw [storageGetInt_setInt_ne _ _ _ _ _ hid]
          exact hmap
        · simpa using hdl
        · simpa using hal
        · exact getD_set_true _ _ _ (by rw [getD_set_ne _ _ _ _ _ hj]; exact hact)
            (by simpa using hal)
        · exact not_mem_dropLast hfree
        · rw [getD_set_ne _ _ _ _ _ hj]
      | none =>
        simp only [ImObjectPool.pushBackSlot]
        refine ⟨⟨?_, ?_, ?_, ?_, ?_⟩, ?_⟩
        · rw [storageGetInt_setInt_ne _ _ _ _ _ hid]
          exact hmap
        · simp only [List.length_append, List.length_cons, List.length_nil]
          omega
        · simp only [List.length_set, List.length_append, List.length_cons, List.length_nil]
          omega
        · have hidx : p.Data.length ≠ idx := by omega
          rw [getD_set_ne _ _ _ _ _ hidx]
          rw [getD_append_left _ _ _ _ hal]
          exact hact
        · exact hfree
        · exact getD_append_left _ _ _ _ hdl
    · rw [if_neg hmiss]
      exact ⟨⟨hmap, hdl, by simpa using hal,
        getD_set_true _ _ _ hact hal, hfree⟩, rfl⟩

/-! ## Pin liveness lemmas -/

theorem setPinPool_pinPoolOf (node : ImNodeData) (dir : Bool) :
    setPinPool node dir (pinPoolOf node dir) = node := by
  cases dir <;> rfl

theorem pinPoolOf_setPinPool_same (node : ImNodeData) (dir : Bool) (pool : ImObjectPool ImPinData) :
    pinPoolOf (setPinPool node dir pool) dir = pool := by
  cases dir <;> rfl

theorem pinPoolOf_setPinPool_ne (node : ImNodeData) (dir dir' : Bool)
    (pool : ImObjectPool ImPinData) (h : dir ≠ dir') :
    pinPoolOf (setPinPool node dir pool) dir' = pinPoolOf node dir' := by
  cases dir <;> cases dir' <;> first | rfl | exact absurd rfl h

/-- `FindPin` on a live pin is a pure lookup: the graph is unchanged and
the address is the pin's slots. -/
theorem FindPin_live {g : ImNodeGraphData} {ptr : ImPinPtr} {ni pi : Nat}
    (h : PinLiveAt g ptr ni pi) :
    g.FindPin ptr = (g, ⟨ni, ptr.Direction, pi⟩) := by
  obtain ⟨hn, hp⟩ := h
  simp only [ImNodeGraphData.FindPin, getById_live hn, getById_live hp, setPinPool_pinPoolOf,
    set_getD_self _ _ _ hn.2.1]

/-- `FindPin` of an arbitrary pin reference preserves the liveness and the
value of every live pin. -/
theorem FindPin_other {g : ImNodeGraphData} {ptr : ImPinPtr} {ni pi : Nat}
    (h : PinLiveAt g ptr ni pi) (ptr' : ImPinPtr) :
    PinLiveAt (g.FindPin ptr').1 ptr ni pi ∧
      readPin (g.FindPin ptr').1 ⟨ni, ptr.Direction, pi⟩ = readPin g ⟨ni, ptr.Direction, pi⟩ := by
  obtain ⟨hn, hp⟩ := h
  obtain ⟨hn', hdat⟩ := getById_other hn ptr'.Node
  rcases hq : g.Nodes.getById ptr'.Node with ⟨q, ni'⟩
  rw [hq] at hn' hdat
  simp only at hn' hdat
  obtain ⟨hmap', hdl', hal', hact', hfree'⟩ := hn'
  unfold ImNodeGraphData.FindPin
  rw [hq]
  simp only [readPin, PinLiveAt]
  have hnodes : ∀ node1 : ImNodeData,
      PoolLiveAt { q with Data := q.Data.set ni' node1 } ptr.Node ni := by
    intro node1
    exact ⟨hmap', by simpa using hdl', by simpa using hal', hact', hfree'⟩
  by_cases hni : ni' = ni
  · subst hni
    rw [getD_set_self _ _ _ _ hdl', hdat]
    by_cases hdir : ptr'.Direction = ptr.Direction
    · rw [hdir, pinPoolOf_setPinPool_same]
      have hpin := getById_other hp ptr'.Pin
      exact ⟨⟨hnodes _, hpin.1⟩, hpin.2⟩
    · have hdir' : ptr'.Direction ≠ ptr.Direction := hdir
      rw [pinPoolOf_setPinPool_ne _ _ _ _ hdir']
      exact ⟨⟨hnodes _, hp⟩, rfl⟩
  · rw [getD_set_ne _ _ _ _ _ hni, hdat]
    exact ⟨⟨hnodes _, hp⟩, rfl⟩

theorem getD_eq_default_of_le {α : Type} (l : List α) (i : Nat) (d : α)
    (h : l.length ≤ i) : l.getD i d = d := by
  induction l generalizing i with
  | nil => rfl
  | cons a t ih =>
    cases i with
    | zero => simp at h
    | succ j => simpa using ih j (by simpa using h)

/-- Whatever branch `operator[]` takes, every slot value either keeps its
old value or is reset to the default (freed-slot reuse and fresh pushes
write `T()`). -/
theorem getById_data_cases {T : Type} [Inhabited T] (p : ImObjectPool T) (id : ImGuiID)
    (i : Nat) :
    (p.getById id).1.Data.getD i default = p.Data.getD i default ∨
    (p.getById id).1.Data.getD i default = (default : T) := by
  unfold ImObjectPool.getById
  by_cases hmiss : storageGetInt p.IDToIdx id nullidx = nullidx
  · rw [if_pos hmiss]
    unfold ImObjectPool.getNextIndex
    cases hlast : p.Freed.getLast? with
    | some j =>
      simp only
      by_cases hij : j = i
      · subst hij
        by_cases hrange : j < p.Data.length
        · right
          exact getD_set_self _ _ _ _ hrange
        · right
          rw [List.set_eq_of_length_le (by omega)]
          exact getD_eq_default_of_le _ _ _ (by omega)
      · left
        rw [getD_set_ne _ _ _ _ _ hij]
    | none =>
      simp only [ImObjectPool.pushBackSlot]
      by_cases hrange : i < p.Data.length
      · left
        exact getD_append_left _ _ _ _ hrange
      · by_cases hi : i = p.Data.length
        · subst hi
          right
          exact getD_concat_length _ _ _
        · left
          rw [getD_eq_default_of_le _ _ _ (by simp; omega),
            getD_eq_default_of_le _ _ _ (by omega)]
  · rw [if_neg hmiss]
    left
    rfl

theorem pinPool_default_getD (dir : Bool) (pin : Nat) :
    (pinPoolOf (default : ImNodeData) dir).Data.getD pin default = (default : ImPinData) := by
  cases dir
  · show ([] : List ImPinData).getD pin default = default
    exact getD_eq_default_of_le _ _ _ (by simp)
  · show ([] : List ImPinData).getD pin default = default
    exact getD_eq_default_of_le _ _ _ (by simp)

/-- After a `FindPin` of an arbitrary pin reference, every pin address
either reads its old value or the default-constructed pin. -/
theorem FindPin_readPin_cases (g : ImNodeGraphData) (ptr' : ImPinPtr) (r : PinAddr) :
    readPin (g.FindPin ptr').1 r = readPin g r ∨
    readPin (g.FindPin ptr').1 r = (default : ImPinData) := by
  unfold ImNodeGraphData.FindPin
  rcases hq : g.Nodes.getById ptr'.Node with ⟨q, ni⟩
  have hnode := getById_data_cases g.Nodes ptr'.Node ni
  have hnoder := getById_data_cases g.Nodes ptr'.Node r.node
  rw [hq] at hnode hnoder
  simp only at hnode hnoder
  simp only [readPin]
  by_cases hrn : r.node = ni
  · subst hrn
    by_cases hrange : r.node < q.Data.length
    · rw [getD_set_self _ _ _ _ hrange]
      rcases hnode with hnode | hnode <;> rw [hnode]
      · by_cases hdir : r.dir = ptr'.Direction
        · rw [hdir, pinPoolOf_setPinPool_same]
          exact getById_data_cases
            (pinPoolOf (g.Nodes.Data.getD r.node default) ptr'.Direction) ptr'.Pin r.pin
        · rw [pinPoolOf_setPinPool_ne _ _ _ _ (fun hh => hdir hh.symm)]
          left
          rfl
      · by_cases hdir : r.dir = ptr'.Direction
        · rw [hdir, pinPoolOf_setPinPool_same]
          have hpin := getById_data_cases
            (pinPoolOf (default : ImNodeData) ptr'.Direction) ptr'.Pin r.pin
          rcases hpin with hpin | hpin
          · right
            rw [hpin]
            exact pinPool_default_getD _ _
          · right
            exact hpin
        · rw [pinPoolOf_setPinPool_ne _ _ _ _ (fun hh => hdir hh.symm)]
          right
          exact pinPool_default_getD _ _
    · rw [List.set_eq_of_length_le (by omega)]
      rcases hnoder with hnoder | hnoder <;> rw [hnoder]
      · left
        rfl
      · right
        exact pinPool_default_getD _ _
  · rw [getD_set_ne _ _ _ _ _ (fun hh => hrn hh.symm)]
    rcases hnoder with hnoder | hnoder <;> rw [hnoder]
    · left
      rfl
    · right
      exact pinPool_default_getD _ _

/-! ## modifyPin lemmas -/

theorem AddrLive_of_PinLiveAt {g : ImNodeGraphData} {ptr : ImPinPtr} {ni pi : Nat}
    (h : PinLiveAt g ptr ni pi) : AddrLive g ⟨ni, ptr.Direction, pi⟩ :=
  ⟨h.1.2.1, h.2.2.1⟩

/-- `modifyPin` at an out-of-range address is the identity. -/
theorem modifyPin_out_of_range {g : ImNodeGraphData} {a : PinAddr}
    (h : ¬AddrLive g a) (f : ImPinData → ImPinData) : modifyPin g a f = g := by
  unfold AddrLive at h
  push_neg at h
  simp only [modifyPin]
  by_cases hn : a.node < g.Nodes.Data.length
  · have h2 : ∀ v, (pinPoolOf (g.Nodes.Data.getD a.node default) a.dir).Data.set a.pin v =
        (pinPoolOf (g.Nodes.Data.getD a.node default) a.dir).Data :=
      fun v => List.set_eq_of_length_le (h hn)
    have h3 : g.Nodes.Data.set a.node (setPinPool (g.Nodes.Data.getD a.node default) a.dir
        (pinPoolOf (g.Nodes.Data.getD a.node default) a.dir)) = g.Nodes.Data := by
      rw [setPinPool_pinPoolOf, set_getD_self _ _ _ hn]
    have hcong := congrArg
      (fun v => ({ g with
        Nodes := { g.Nodes with
          Data := g.Nodes.Data.set a.node (setPinPool (g.Nodes.Data.getD a.node default) a.dir
            { pinPoolOf (g.Nodes.Data.getD a.node default) a.dir with Data := v }) } } :
        ImNodeGraphData))
      (h2 (f ((pinPoolOf (g.Nodes.Data.getD a.node default) a.dir).Data.getD a.pin default)))
    have hcong2 := congrArg
      (fun d => ({ g with Nodes := { g.Nodes with Data := d } } : ImNodeGraphData)) h3
    exact hcong.trans hcong2
  · have h2 : ∀ v, g.Nodes.Data.set a.node v = g.Nodes.Data :=
      fun v => List.set_eq_of_length_le (Nat.le_of_not_lt hn)
    exact congrArg
      (fun d => ({ g with Nodes := { g.Nodes with Data := d } } : ImNodeGraphData)) (h2 _)


theorem readPin_modifyPin_self {g : ImNodeGraphData} {a : PinAddr} (f : ImPinData → ImPinData)
    (h : AddrLive g a) : readPin (modifyPin g a f) a = f (readPin g a) := by
  obtain ⟨h1, h2⟩ := h
  simp only [readPin, modifyPin]
  rw [getD_set_self _ _ _ _ h1, pinPoolOf_setPinPool_same, getD_set_self _ _ _ _ h2]

theorem readPin_modifyPin_ne {g : ImNodeGraphData} {a b : PinAddr} (f : ImPinData → ImPinData)
    (hne : a ≠ b) (ha : AddrLive g a) : readPin (modifyPin g a f) b = readPin g b := by
  simp only [readPin, modifyPin]
  by_cases hn : a.node = b.node
  · rw [← hn, getD_set_self _ _ _ _ ha.1]
    by_cases hd : a.dir = b.dir
    · have hp : a.pin ≠ b.pin := by
        intro hp
        exact hne (by cases a; cases b; simp_all)
      rw [← hd, pinPoolOf_setPinPool_same, getD_set_ne _ _ _ _ _ hp]
    · rw [pinPoolOf_setPinPool_ne _ _ _ _ hd]
  · rw [getD_set_ne _ _ _ _ _ hn]

theorem PinLiveAt_modifyPin {g : ImNodeGraphData} {ptr : ImPinPtr} {ni pi : Nat}
    (h : PinLiveAt g ptr ni pi) (a : PinAddr) (f : ImPinData → ImPinData) :
    PinLiveAt (modifyPin g a f) ptr ni pi := by
  obtain ⟨hn, hp⟩ := h
  simp only [PinLiveAt, modifyPin]
  refine ⟨⟨hn.1, by simpa using hn.2.1, by simpa using hn.2.2.1, hn.2.2.2.1, hn.2.2.2.2⟩, ?_⟩
  by_cases han : a.node = ni
  · rw [han, getD_set_self _ _ _ _ hn.2.1]
    by_cases had : a.dir = ptr.Direction
    · rw [had, pinPoolOf_setPinPool_same]
      rw [← had]
      rw [had]
      exact ⟨hp.1, by simpa using hp.2.1, hp.2.2.1, hp.2.2.2.1, hp.2.2.2.2⟩
    · rw [pinPoolOf_setPinPool_ne _ _ _ _ had]
      exact hp
  · rw [getD_set_ne _ _ _ _ _ han]
    exact hp

theorem modifyPin_pool_length (g : ImNodeGraphData) (b : PinAddr) (f : ImPinData → ImPinData)
    (n : Nat) (d : Bool) :
    (pinPoolOf ((modifyPin g b f).Nodes.Data.getD n default) d).Data.length
      = (pinPoolOf (g.Nodes.Data.getD n default) d).Data.length := by
  simp only [modifyPin]
  by_cases hn : b.node = n
  · by_cases hrange : b.node < g.Nodes.Data.length
    · rw [hn] at hrange
      rw [← hn] at *
      rw [getD_set_self _ _ _ _ hrange]
      by_cases hd : b.dir = d
      · rw [hd, pinPoolOf_setPinPool_same]
        simp
      · rw [pinPoolOf_setPinPool_ne _ _ _ _ hd]
    · rw [hn] at hrange
      rw [← hn] at *
      rw [List.set_eq_of_length_le (by omega)]
  · rw [getD_set_ne _ _ _ _ _ hn]

theorem AddrLive_modifyPin {g : ImNodeGraphData} (b : PinAddr) (a : PinAddr)
    (f : ImPinData → ImPinData) : AddrLive (modifyPin g b f) a ↔ AddrLive g a := by
  unfold AddrLive
  rw [modifyPin_pool_length g b f a.node a.dir]
  simp [modifyPin]

/-- `modifyPin` leaves the connection list and validator untouched. -/
theorem modifyPin_Connections (g : ImNodeGraphData) (a : PinAddr) (f : ImPinData → ImPinData) :
    (modifyPin g a f).Connections = g.Connections := rfl

theorem FindPin_Connections (g : ImNodeGraphData) (ptr : ImPinPtr) :
    (g.FindPin ptr).1.Connections = g.Connections := rfl

theorem readPin_setConnections (g : ImNodeGraphData) (c : ImObjectList ImPinConnection)
    (a : PinAddr) : readPin { g with Connections := c } a = readPin g a := rfl

/-! ## Count/length preservation through the connection-breaking steps -/

theorem modifyPin_count_le (g : ImNodeGraphData) (a : PinAddr) (f : ImPinData → ImPinData)
    (hf : ∀ p x, ((f p).Connections.count x) ≤ p.Connections.count x) (r : PinAddr)
    (x : ImGuiID) :
    ((readPin (modifyPin g a f) r).Connections.count x) ≤ (readPin g r).Connections.count x := by
  by_cases ha : AddrLive g a
  · by_cases hr : r = a
    · subst hr
      rw [readPin_modifyPin_self f ha]
      exact hf _ x
    · rw [readPin_modifyPin_ne f (fun hh => hr hh.symm) ha]
  · rw [modifyPin_out_of_range ha f]

theorem modifyPin_count_eq (g : ImNodeGraphData) (a : PinAddr) (f : ImPinData → ImPinData)
    (x : ImGuiID) (hf : ∀ p, ((f p).Connections.count x) = p.Connections.count x) (r : PinAddr) :
    ((readPin (modifyPin g a f) r).Connections.count x) = (readPin g r).Connections.count x := by
  by_cases ha : AddrLive g a
  · by_cases hr : r = a
    · subst hr
      rw [readPin_modifyPin_self f ha]
      exact hf _
    · rw [readPin_modifyPin_ne f (fun hh => hr hh.symm) ha]
  · rw [modifyPin_out_of_range ha f]

theorem modifyPin_len_le (g : ImNodeGraphData) (a : PinAddr) (f : ImPinData → ImPinData)
    (hf : ∀ p, ((f p).Connections.length) ≤ p.Connections.length) (r : PinAddr) :
    ((readPin (modifyPin g a f) r).Connections.length) ≤ (readPin g r).Connections.length := by
  by_cases ha : AddrLive g a
  · by_cases hr : r = a
    · subst hr
      rw [readPin_modifyPin_self f ha]
      exact hf _
    · rw [readPin_modifyPin_ne f (fun hh => hr hh.symm) ha]
  · rw [modifyPin_out_of_range ha f]

theorem FindPin_count_le (g : ImNodeGraphData) (ptr' : ImPinPtr) (r : PinAddr) (x : ImGuiID) :
    ((readPin (g.FindPin ptr').1 r).Connections.count x) ≤ (readPin g r).Connections.count x := by
  rcases FindPin_readPin_cases g ptr' r with h | h
  · rw [h]
  · rw [h]
    exact Nat.zero_le _

theorem FindPin_len_le (g : ImNodeGraphData) (ptr' : ImPinPtr) (r : PinAddr) :
    ((readPin (g.FindPin ptr').1 r).Connections.length) ≤ (readPin g r).Connections.length := by
  rcases FindPin_readPin_cases g ptr' r with h | h
  · rw [h]
  · rw [h]
    exact Nat.zero_le _

set_option maxHeartbeats 1600000 in
theorem breakStep_count_le (ptr : ImPinPtr) (addr : PinAddr) (g : ImNodeGraphData)
    (id : ImGuiID) (r : PinAddr) (x : ImGuiID) :
    ((readPin (breakStep ptr addr g id) r).Connections.count x) ≤
      (readPin g r).Connections.count x := by
  simp only [breakStep]
  rcases hfp : ({ g with Connections := g.Connections.Erase id } : ImNodeGraphData).FindPin
      (if (g.Connections.get id).A = ptr then (g.Connections.get id).B
       else (g.Connections.get id).A) with ⟨g1, addrO⟩
  dsimp only
  have h1 : ((readPin g1 r).Connections.count x) ≤ (readPin g r).Connections.count x := by
    have := FindPin_count_le ({ g with Connections := g.Connections.Erase id })
      (if (g.Connections.get id).A = ptr then (g.Connections.get id).B
       else (g.Connections.get id).A) r x
    rw [hfp] at this
    exact this
  refine le_trans (modifyPin_count_le _ _ _ ?_ r x)
    (le_trans (modifyPin_count_le _ _ _ ?_ r x)
      (le_trans (modifyPin_count_le _ _ _ ?_ r x)
        (le_trans (modifyPin_count_le _ _ _ ?_ r x)
          (le_trans (modifyPin_count_le _ _ _ ?_ r x) h1))))
  · exact fun p x => findEraseUnsorted_count_le _ _ _
  · exact fun p x => Nat.le_refl _
  · exact fun p x => Nat.le_refl _
  · exact fun p x => Nat.le_refl _
  · exact fun p x => Nat.le_refl _

set_option maxHeartbeats 1600000 in
theorem breakStep_len_le (ptr : ImPinPtr) (addr : PinAddr) (g : ImNodeGraphData)
    (id : ImGuiID) (r : PinAddr) :
    ((readPin (breakStep ptr addr g id) r).Connections.length) ≤
      (readPin g r).Connections.length := by
  simp only [breakStep]
  rcases hfp : ({ g with Connections := g.Connections.Erase id } : ImNodeGraphData).FindPin
      (if (g.Connections.get id).A = ptr then (g.Connections.get id).B
       else (g.Connections.get id).A) with ⟨g1, addrO⟩
  dsimp only
  have h1 : ((readPin g1 r).Connections.length) ≤ (readPin g r).Connections.length := by
    have := FindPin_len_le ({ g with Connections := g.Connections.Erase id })
      (if (g.Connections.get id).A = ptr then (g.Connections.get id).B
       else (g.Connections.get id).A) r
    rw [hfp] at this
    exact this
  refine le_trans (modifyPin_len_le _ _ _ ?_ r)
    (le_trans (modifyPin_len_le _ _ _ ?_ r)
      (le_trans (modifyPin_len_le _ _ _ ?_ r)
        (le_trans (modifyPin_len_le _ _ _ ?_ r)
          (le_trans (modifyPin_len_le _ _ _ ?_ r) h1))))
  · exact fun p => findEraseUnsorted_length_le _ _
  · exact fun p => Nat.le_refl _
  · exact fun p => Nat.le_refl _
  · exact fun p => Nat.le_refl _
  · exact fun p => Nat.le_refl _

set_option maxHeartbeats 1600000 in
theorem breakStep_live {g : ImNodeGraphData} {q : ImPinPtr} {nq pq : Nat}
    (h : PinLiveAt g q nq pq) (ptr : ImPinPtr) (addr : PinAddr) (id : ImGuiID) :
    PinLiveAt (breakStep ptr addr g id) q nq pq := by
  simp only [breakStep]
  rcases hfp : ({ g with Connections := g.Connections.Erase id } : ImNodeGraphData).FindPin
      (if (g.Connections.get id).A = ptr then (g.Connections.get id).B
       else (g.Connections.get id).A) with ⟨g1, addrO⟩
  dsimp only
  have h1 : PinLiveAt g1 q nq pq := by
    have := (FindPin_other (g := { g with Connections := g.Connections.Erase id }) h
      (if (g.Connections.get id).A = ptr then (g.Connections.get id).B
       else (g.Connections.get id).A)).1
    rw [hfp] at this
    exact this
  exact PinLiveAt_modifyPin (PinLiveAt_modifyPin (PinLiveAt_modifyPin
    (PinLiveAt_modifyPin (PinLiveAt_modifyPin h1 _ _) _ _) _ _) _ _) _ _

theorem foldBreak_live {q : ImPinPtr} {nq pq : Nat} (ptr : ImPinPtr) (addr : PinAddr)
    (L : List ImGuiID) (g : ImNodeGraphData) (h : PinLiveAt g q nq pq) :
    PinLiveAt (L.foldl (breakStep ptr addr) g) q nq pq := by
  induction L generalizing g with
  | nil => exact h
  | cons i t ih =>
    simp only [List.foldl_cons]
    exact ih _ (breakStep_live h ptr addr i)

theorem foldBreak_count_le (ptr : ImPinPtr) (addr : PinAddr) (L : List ImGuiID)
    (g : ImNodeGraphData) (r : PinAddr) (x : ImGuiID) :
    ((readPin (L.foldl (breakStep ptr addr) g) r).Connections.count x) ≤
      (readPin g r).Connections.count x := by
  induction L generalizing g with
  | nil => exact Nat.le_refl _
  | cons i t ih =>
    simp only [List.foldl_cons]
    exact le_trans (ih _) (breakStep_count_le ptr addr g i r x)

theorem foldBreak_len_le (ptr : ImPinPtr) (addr : PinAddr) (L : List ImGuiID)
    (g : ImNodeGraphData) (r : PinAddr) :
    ((readPin (L.foldl (breakStep ptr addr) g) r).Connections.length) ≤
      (readPin g r).Connections.length := by
  induction L generalizing g with
  | nil => exact Nat.le_refl _
  | cons i t ih =>
    simp only [List.foldl_cons]
    exact le_trans (ih _) (breakStep_len_le ptr addr g i r)

/-- Liveness of any pin survives `BreakConnections`. -/
theorem breakConnections_live {g : ImNodeGraphData} {q : ImPinPtr} {nq pq : Nat}
    (h : PinLiveAt g q nq pq) (ptr : ImPinPtr) :
    PinLiveAt (BreakConnections g ptr) q nq pq := by
  simp only [BreakConnections]
  rcases hfp : g.FindPin ptr with ⟨g1, addr⟩
  dsimp only
  have h1 : PinLiveAt g1 q nq pq := by
    have := (FindPin_other h ptr).1
    rw [hfp] at this
    exact this
  exact PinLiveAt_modifyPin (foldBreak_live ptr addr _ _ h1) _ _

/-- No pin's back-reference count grows under `BreakConnections`. -/
theorem breakConnections_count_le (g : ImNodeGraphData) (ptr : ImPinPtr) (r : PinAddr)
    (x : ImGuiID) :
    ((readPin (BreakConnections g ptr) r).Connections.count x) ≤
      (readPin g r).Connections.count x := by
  simp only [BreakConnections]
  rcases hfp : g.FindPin ptr with ⟨g1, addr⟩
  dsimp only
  have h1 : ((readPin g1 r).Connections.count x) ≤ (readPin g r).Connections.count x := by
    have := FindPin_count_le g ptr r x
    rw [hfp] at this
    exact this
  refine le_trans (modifyPin_count_le _ _ _ ?_ r x)
    (le_trans (foldBreak_count_le ptr addr _ g1 r x) h1)
  exact fun p x => by simp

/-- No pin's back-reference list grows under `BreakConnections`. -/
theorem breakConnections_len_le (g : ImNodeGraphData) (ptr : ImPinPtr) (r : PinAddr) :
    ((readPin (BreakConnections g ptr) r).Connections.length) ≤
      (readPin g r).Connections.length := by
  simp only [BreakConnections]
  rcases hfp : g.FindPin ptr with ⟨g1, addr⟩
  dsimp only
  have h1 : ((readPin g1 r).Connections.length) ≤ (readPin g r).Connections.length := by
    have := FindPin_len_le g ptr r
    rw [hfp] at this
    exact this
  refine le_trans (modifyPin_len_le _ _ _ ?_ r)
    (le_trans (foldBreak_len_le ptr addr _ g1 r) h1)
  exact fun p => by simp

/-- `BreakConnections` ends by clearing the disconnected pin's
back-reference list. -/
theorem breakConnections_clears {g : ImNodeGraphData} {ptr : ImPinPtr} {np pp : Nat}
    (hp : PinLiveAt g ptr np pp) :
    (readPin (BreakConnections g ptr) ⟨np, ptr.Direction, pp⟩).Connections = [] := by
  simp only [BreakConnections]
  rw [FindPin_live hp]
  simp only
  have hl := foldBreak_live ptr ⟨np, ptr.Direction, pp⟩
    ((readPin g ⟨np, ptr.Direction, pp⟩).Connections) g hp
  rw [readPin_modifyPin_self _ (AddrLive_of_PinLiveAt hl)]

/-! ## PushToTop order lemmas -/

/-! ## Identity (`operator ImPinPtr`) preservation -/

theorem modifyPin_toPtr (g : ImNodeGraphData) (a : PinAddr) (f : ImPinData → ImPinData)
    (hf : ∀ p, (f p).toPtr = p.toPtr) (r : PinAddr) :
    (readPin (modifyPin g a f) r).toPtr = (readPin g r).toPtr := by
  by_cases ha : AddrLive g a
  · by_cases hr : r = a
    · subst hr
      rw [readPin_modifyPin_self f ha]
      exact hf _
    · rw [readPin_modifyPin_ne f (fun hh => hr hh.symm) ha]
  · rw [modifyPin_out_of_range ha f]

set_option maxHeartbeats 1600000 in
theorem breakStep_toPtr {g : ImNodeGraphData} {q : ImPinPtr} {nq pq : Nat}
    (h : PinLiveAt g q nq pq) (ptr : ImPinPtr) (addr : PinAddr) (id : ImGuiID) :
    (readPin (breakStep ptr addr g id) ⟨nq, q.Direction, pq⟩).toPtr =
      (readPin g ⟨nq, q.Direction, pq⟩).toPtr := by
  simp only [breakStep]
  rcases hfp : ({ g with Connections := g.Connections.Erase id } : ImNodeGraphData).FindPin
      (if (g.Connections.get id).A = ptr then (g.Connections.get id).B
       else (g.Connections.get id).A) with ⟨g1, addrO⟩
  dsimp only
  have h1 : readPin g1 ⟨nq, q.Direction, pq⟩ = readPin g ⟨nq, q.Direction, pq⟩ := by
    have := (FindPin_other (g := { g with Connections := g.Connections.Erase id }) h
      (if (g.Connections.get id).A = ptr then (g.Connections.get id).B
       else (g.Connections.get id).A)).2
    rw [hfp] at this
    exact this
  rw [← h1]
  refine (modifyPin_toPtr _ _ _ ?_ _).trans
    ((modifyPin_toPtr _ _ _ ?_ _).trans
      ((modifyPin_toPtr _ _ _ ?_ _).trans
        ((modifyPin_toPtr _ _ _ ?_ _).trans
          (modifyPin_toPtr _ _ _ ?_ _))))
  all_goals exact fun p => rfl

theorem foldBreak_toPtr {q : ImPinPtr} {nq pq : Nat} (ptr : ImPinPtr) (addr : PinAddr)
    (L : List ImGuiID) (g : ImNodeGraphData) (h : PinLiveAt g q nq pq) :
    (readPin (L.foldl (breakStep ptr addr) g) ⟨nq, q.Direction, pq⟩).toPtr =
      (readPin g ⟨nq, q.Direction, pq⟩).toPtr := by
  induction L generalizing g with
  | nil => rfl
  | cons i t ih =>
    simp only [List.foldl_cons]
    exact (ih _ (breakStep_live h ptr addr i)).trans (breakStep_toPtr h ptr addr i)

/-- `BreakConnections` never rewrites any live pin's identity fields. -/
theorem breakConnections_toPtr {g : ImNodeGraphData} {q : ImPinPtr} {nq pq : Nat}
    (h : PinLiveAt g q nq pq) (ptr : ImPinPtr) :
    (readPin (BreakConnections g ptr) ⟨nq, q.Direction, pq⟩).toPtr =
      (readPin g ⟨nq, q.Direction, pq⟩).toPtr := by
  simp only [BreakConnections]
  rcases hfp : g.FindPin ptr with ⟨g1, addr⟩
  dsimp only
  have h0 : PinLiveAt g1 q nq pq := by
    have := (FindPin_other h ptr).1
    rw [hfp] at this
    exact this
  have h1 : readPin g1 ⟨nq, q.Direction, pq⟩ = readPin g ⟨nq, q.Direction, pq⟩ := by
    have := (FindPin_other h ptr).2
    rw [hfp] at this
    exact this
  rw [← h1]
  refine (modifyPin_toPtr _ _ _ ?_ _).trans (foldBreak_toPtr ptr addr _ g1 h0)
  exact fun p => rfl

/-! ## Connection-list bookkeeping through the breaking loop -/

set_option maxHeartbeats 1600000 in
theorem breakStep_Connections (ptr : ImPinPtr) (addr : PinAddr) (g : ImNodeGraphData)
    (id : ImGuiID) : (breakStep ptr addr g id).Connections = g.Connections.Erase id := by
  simp only [breakStep]
  rcases hfp : ({ g with Connections := g.Connections.Erase id } : ImNodeGraphData).FindPin
      (if (g.Connections.get id).A = ptr then (g.Connections.get id).B
       else (g.Connections.get id).A) with ⟨g1, addrO⟩
  dsimp only
  rw [modifyPin_Connections, modifyPin_Connections, modifyPin_Connections, modifyPin_Connections,
    modifyPin_Connections]
  have h1 := FindPin_Connections
    ({ g with Connections := g.Connections.Erase id } : ImNodeGraphData)
    (if (g.Connections.get id).A = ptr then (g.Connections.get id).B
     else (g.Connections.get id).A)
  rw [hfp] at h1
  exact h1

theorem foldBreak_Connections (ptr : ImPinPtr) (addr : PinAddr) (L : List ImGuiID)
    (g : ImNodeGraphData) :
    (L.foldl (breakStep ptr addr) g).Connections =
      L.foldl (fun c i => ImObjectList.Erase c i) g.Connections := by
  induction L generalizing g with
  | nil => rfl
  | cons i t ih =>
    simp only [List.foldl_cons]
    rw [ih, breakStep_Connections]

theorem eraseFold_Data_length (L : List ImGuiID) (C : ImObjectList ImPinConnection) :
    (L.foldl (fun c i => ImObjectList.Erase c i) C).Data.length = C.Data.length := by
  induction L generalizing C with
  | nil => rfl
  | cons i t ih =>
    simp only [List.foldl_cons]
    rw [ih]
    simp [ImObjectList.Erase]

theorem eraseFold_Freed (L : List ImGuiID) (C : ImObjectList ImPinConnection) :
    (L.foldl (fun c i => ImObjectList.Erase c i) C).Freed = C.Freed ++ L := by
  induction L generalizing C with
  | nil => simp
  | cons i t ih =>
    simp only [List.foldl_cons]
    rw [ih]
    simp [ImObjectList.Erase]

theorem eraseFold_get_not_mem {L : List ImGuiID} {c : ImGuiID} (h : c ∉ L)
    (C : ImObjectList ImPinConnection) :
    (L.foldl (fun c i => ImObjectList.Erase c i) C).get c = C.get c := by
  induction L generalizing C with
  | nil => rfl
  | cons i t ih =>
    simp only [List.foldl_cons]
    rw [ih (fun hm => h (List.mem_cons_of_mem i hm))]
    simp only [ImObjectList.get, ImObjectList.Erase]
    refine getD_set_ne _ _ _ _ _ fun hh => ?_
    subst hh
    exact h (List.mem_cons_self i t)

/-- For a live pin, `BreakConnections` transforms the connection list by
erasing exactly the pin's back-referenced ids, in order. -/
theorem breakConnections_Connections {g : ImNodeGraphData} {ptr : ImPinPtr} {np pp : Nat}
    (hp : PinLiveAt g ptr np pp) :
    (BreakConnections g ptr).Connections =
      ((readPin g ⟨np, ptr.Direction, pp⟩).Connections).foldl
        (fun c i => ImObjectList.Erase c i) g.Connections := by
  simp only [BreakConnections]
  rw [FindPin_live hp]
  dsimp only
  rw [modifyPin_Connections, foldBreak_Connections]

/-! ## `ImObjectList::Insert` equations -/

theorem Insert_getLast_none {T : Type} [Inhabited T] {l : ImObjectList T} (v : T)
    (h : l.Freed.getLast? = none) :
    l.Insert v =
      ({ l with Data := l.Data ++ [v], Active := l.Active ++ [true] }, l.Data.length) := by
  unfold ImObjectList.Insert
  rw [h]

theorem Insert_getLast_some {T : Type} [Inhabited T] {l : ImObjectList T} (v : T) {id : ImGuiID}
    (h : l.Freed.getLast? = some id) :
    l.Insert v =
      ({ l with Freed := l.Freed.dropLast
              , Data := l.Data.set id v
              , Active := l.Active.set id true }, id) := by
  unfold ImObjectList.Insert
  rw [h]

theorem findEraseUnsorted_count_self (l : List ImGuiID) (y : ImGuiID) (h : l.count y ≤ 1) :
    (findEraseUnsorted l y).count y = 0 := by
  rw [findEraseUnsorted_count, List.count_erase_self]
  omega

theorem contains_of_live {T : Type} [Inhabited T] {p : ImObjectPool T} {id : ImGuiID}
    {idx : Nat} (h : PoolLiveAt p id idx) : p.contains id = true := by
  obtain ⟨hmap, hdl, hal, hact, hfree⟩ := h
  have hne : ¬(Int.ofNat idx = nullidx) := by
    unfold nullidx
    have h0 : (0 : Int) ≤ Int.ofNat idx := Int.ofNat_nonneg idx
    omega
  have ht : (Int.ofNat idx).toNat = idx := rfl
  simp only [ImObjectPool.contains, hmap, ht, hact]
  simp only [Bool.and_true]
  exact decide_eq_true hne

/-! ## Removal of a processed connection id from the other endpoint -/

/-- Processing connection `i` in the breaking loop zeroes its occurrence
count on the other endpoint's back-reference list (which held it at most
once). -/
theorem breakStep_self_removes {g : ImNodeGraphData} {A : ImPinPtr} {na pa : Nat}
    (hA : PinLiveAt g A na pa) (ptr : ImPinPtr) (addr : PinAddr) (i : ImGuiID)
    (hrec : (if (g.Connections.get i).A = ptr then (g.Connections.get i).B
             else (g.Connections.get i).A) = A)
    (hcnt : (readPin g ⟨na, A.Direction, pa⟩).Connections.count i ≤ 1) :
    (readPin (breakStep ptr addr g i) ⟨na, A.Direction, pa⟩).Connections.count i = 0 := by
  have hA0 : PinLiveAt ({ g with Connections := g.Connections.Erase i } : ImNodeGraphData)
      A na pa := hA
  simp only [breakStep]
  rw [hrec, FindPin_live hA0]
  dsimp only
  rw [readPin_modifyPin_self _ (AddrLive_of_PinLiveAt (PinLiveAt_modifyPin (PinLiveAt_modifyPin
    (PinLiveAt_modifyPin (PinLiveAt_modifyPin hA0 _ _) _ _) _ _) _ _))]
  dsimp only
  refine findEraseUnsorted_count_self _ _ ?_
  refine le_trans (le_of_eq (modifyPin_count_eq _ _ _ i ?_ _))
    (le_trans (le_of_eq (modifyPin_count_eq _ _ _ i ?_ _))
      (le_trans (le_of_eq (modifyPin_count_eq _ _ _ i ?_ _))
        (le_trans (le_of_eq (modifyPin_count_eq _ _ _ i ?_ _)) ?_)))
  · exact fun p => rfl
  · exact fun p => rfl
  · exact fun p => rfl
  · exact fun p => rfl
  · exact hcnt

/-- Once a connection id held at most once by a pin is processed by the
breaking loop, the loop leaves that pin's list free of it. -/
theorem breakFold_removes {A : ImPinPtr} {na pa : Nat} (ptr : ImPinPtr) (addr : PinAddr)
    (L : List ImGuiID) (c : ImGuiID) (g : ImNodeGraphData)
    (hmem : c ∈ L)
    (hA : PinLiveAt g A na pa)
    (hcnt : (readPin g ⟨na, A.Direction, pa⟩).Connections.count c ≤ 1)
    (hrec : (if (g.Connections.get c).A = ptr then (g.Connections.get c).B
             else (g.Connections.get c).A) = A) :
    (readPin (L.foldl (breakStep ptr addr) g) ⟨na, A.Direction, pa⟩).Connections.count c = 0 := by
  induction L generalizing g with
  | nil => simp at hmem
  | cons i t ih =>
    simp only [List.foldl_cons]
    by_cases hic : i = c
    · subst hic
      have hzero := breakStep_self_removes hA ptr addr i hrec hcnt
      have hle := foldBreak_count_le ptr addr t (breakStep ptr addr g i)
        ⟨na, A.Direction, pa⟩ i
      omega
    · have hmem' : c ∈ t := by
        rcases List.mem_cons.mp hmem with h | h
        · exact absurd h.symm hic
        · exact h
      have hA' := breakStep_live hA ptr addr i
      have hcnt' : (readPin (breakStep ptr addr g i)
          ⟨na, A.Direction, pa⟩).Connections.count c ≤ 1 :=
        le_trans (breakStep_count_le ptr addr g i _ c) hcnt
      have hrec' : (if ((breakStep ptr addr g i).Connections.get c).A = ptr
            then ((breakStep ptr addr g i).Connections.get c).B
            else ((breakStep ptr addr g i).Connections.get c).A) = A := by
        rw [breakStep_Connections]
        have hg : (g.Connections.Erase i).get c = g.Connections.get c := by
          simp only [ImObjectList.get, ImObjectList.Erase]
          exact getD_set_ne _ _ _ _ _ hic
        rw [hg]
        exact hrec
      exact ih _ hmem' hA' hcnt' hrec'

/-- `BreakConnections(x)` removes any connection id in `x`'s list from the
other endpoint's back-reference list. -/
theorem breakConnections_removes {g : ImNodeGraphData} {x A : ImPinPtr} {nx px na pa : Nat}
    (hx : PinLiveAt g x nx px) (hA : PinLiveAt g A na pa) (c : ImGuiID)
    (hmem : c ∈ (readPin g ⟨nx, x.Direction, px⟩).Connections)
    (hcnt : (readPin g ⟨na, A.Direction, pa⟩).Connections.count c ≤ 1)
    (hrec : (if (g.Connections.get c).A = x then (g.Connections.get c).B
             else (g.Connections.get c).A) = A) :
    (readPin (BreakConnections g x) ⟨na, A.Direction, pa⟩).Connections.count c = 0 := by
  simp only [BreakConnections]
  rw [FindPin_live hx]
  dsimp only
  have h0 := breakFold_removes x ⟨nx, x.Direction, px⟩
    ((readPin g ⟨nx, x.Direction, px⟩).Connections) c g hmem hA hcnt hrec
  refine Nat.le_antisymm ?_ (Nat.zero_le _)
  refine le_trans (modifyPin_count_le _ _ _ ?_ _ c) (le_of_eq h0)
  exact fun p x => by simp

/-! ## The insertion tail of `MakeConnection` -/

theorem insertPhase_spec {g4 : ImNodeGraphData} {a b : ImPinPtr} {na pa nb pb : Nat}
    (ha4 : PinLiveAt g4 a na pa) (hb4 : PinLiveAt g4 b nb pb) (hnn : na ≠ nb)
    (hfb4 : ∀ i ∈ g4.Connections.Freed, i < g4.Connections.Data.length) :
    PinLiveAt (insertPhase g4 a b ⟨na, a.Direction, pa⟩ ⟨nb, b.Direction, pb⟩) a na pa ∧
    PinLiveAt (insertPhase g4 a b ⟨na, a.Direction, pa⟩ ⟨nb, b.Direction, pb⟩) b nb pb ∧
    readPin (insertPhase g4 a b ⟨na, a.Direction, pa⟩ ⟨nb, b.Direction, pb⟩)
        ⟨na, a.Direction, pa⟩ =
      { readPin g4 ⟨na, a.Direction, pa⟩ with
          Connections := (readPin g4 ⟨na, a.Direction, pa⟩).Connections ++
            [(g4.Connections.Insert ⟨a, b⟩).2]
          , NewConnections := (readPin g4 ⟨na, a.Direction, pa⟩).NewConnections ++ [b]
          , BNewConnections := true } ∧
    readPin (insertPhase g4 a b ⟨na, a.Direction, pa⟩ ⟨nb, b.Direction, pb⟩)
        ⟨nb, b.Direction, pb⟩ =
      { readPin g4 ⟨nb, b.Direction, pb⟩ with
          Connections := (readPin g4 ⟨nb, b.Direction, pb⟩).Connections ++
            [(g4.Connections.Insert ⟨a, b⟩).2]
          , NewConnections := (readPin g4 ⟨nb, b.Direction, pb⟩).NewConnections ++ [a]
          , BNewConnections := true } ∧
    (insertPhase g4 a b ⟨na, a.Direction, pa⟩ ⟨nb, b.Direction, pb⟩).Connections.get
        (g4.Connections.Insert ⟨a, b⟩).2 = ⟨a, b⟩ := by
  have hne : (⟨na, a.Direction, pa⟩ : PinAddr) ≠ ⟨nb, b.Direction, pb⟩ := by
    intro hh
    exact hnn (congrArg PinAddr.node hh)
  have hne' : (⟨nb, b.Direction, pb⟩ : PinAddr) ≠ ⟨na, a.Direction, pa⟩ := fun hh => hne hh.symm
  have ha5 : PinLiveAt
      ({ g4 with Connections := (g4.Connections.Insert ⟨a, b⟩).1 } : ImNodeGraphData)
      a na pa := ha4
  have hb5 : PinLiveAt
      ({ g4 with Connections := (g4.Connections.Insert ⟨a, b⟩).1 } : ImNodeGraphData)
      b nb pb := hb4
  simp only [insertPhase]
  refine ⟨?_, ?_, ?_, ?_, ?_⟩
  · exact PinLiveAt_modifyPin (PinLiveAt_modifyPin (PinLiveAt_modifyPin
      (PinLiveAt_modifyPin ha5 _ _) _ _) _ _) _ _
  · exact PinLiveAt_modifyPin (PinLiveAt_modifyPin (PinLiveAt_modifyPin
      (PinLiveAt_modifyPin hb5 _ _) _ _) _ _) _ _
  · rw [readPin_modifyPin_ne _ hne' (AddrLive_of_PinLiveAt (PinLiveAt_modifyPin
      (PinLiveAt_modifyPin (PinLiveAt_modifyPin hb5 _ _) _ _) _ _))]
    rw [readPin_modifyPin_self _ (AddrLive_of_PinLiveAt (PinLiveAt_modifyPin
      (PinLiveAt_modifyPin ha5 _ _) _ _))]
    rw [readPin_modifyPin_ne _ hne' (AddrLive_of_PinLiveAt (PinLiveAt_modifyPin hb5 _ _))]
    rw [readPin_modifyPin_self _ (AddrLive_of_PinLiveAt ha5)]
    rfl
  · rw [readPin_modifyPin_self _ (AddrLive_of_PinLiveAt (PinLiveAt_modifyPin
      (PinLiveAt_modifyPin (PinLiveAt_modifyPin hb5 _ _) _ _) _ _))]
    rw [readPin_modifyPin_ne _ hne (AddrLive_of_PinLiveAt (PinLiveAt_modifyPin
      (PinLiveAt_modifyPin ha5 _ _) _ _))]
    rw [readPin_modifyPin_self _ (AddrLive_of_PinLiveAt (PinLiveAt_modifyPin hb5 _ _))]
    rw [readPin_modifyPin_ne _ hne (AddrLive_of_PinLiveAt ha5)]
    rfl
  · rw [modifyPin_Connections, modifyPin_Connections, modifyPin_Connections,
      modifyPin_Connections]
    cases hgl : g4.Connections.Freed.getLast? with
    | none =>
      rw [Insert_getLast_none _ hgl]
      dsimp only
      simp only [ImObjectList.get]
      exact getD_concat_length _ _ _
    | some id =>
      rw [Insert_getLast_some _ hgl]
      dsimp only
      simp only [ImObjectList.get]
      exact getD_set_self _ _ _ _ (hfb4 id (mem_of_getLast?_eq_some hgl))

set_option maxHeartbeats 4000000 in
/-- Master evaluation of a successful `MakeConnection` call from a state
whose pools satisfy the graph's bookkeeping invariants: the call reports
success, the inserted record id lands at the back of both endpoint lists
(and nowhere else in them), the record stores the `{a, b}` pair, an input
endpoint ends up with the new id as its only back-reference, the per-frame
new-connection flags are set and both pins stay live with their identity
fields intact. -/
theorem MakeConnection_accept
    {g : ImNodeGraphData} {a b : ImPinPtr} {na pa nb pb : Nat}
    (ha : PinLiveAt g a na pa) (hb : PinLiveAt g b nb pb)
    (hnn : na ≠ nb)
    (hida : (readPin g ⟨na, a.Direction, pa⟩).toPtr = a)
    (hidb : (readPin g ⟨nb, b.Direction, pb⟩).toPtr = b)
    (hdir : ¬a.Direction = b.Direction)
    (hnode : ¬a.Node = b.Node)
    (hval : ∀ v, g.Validation = some v →
      v (readPin g ⟨na, a.Direction, pa⟩).toPtr (readPin g ⟨nb, b.Direction, pb⟩).toPtr = false)
    (hfb : ∀ i ∈ g.Connections.Freed, i < g.Connections.Data.length)
    (hba : ∀ i ∈ (readPin g ⟨na, a.Direction, pa⟩).Connections, i < g.Connections.Data.length)
    (hbb : ∀ i ∈ (readPin g ⟨nb, b.Direction, pb⟩).Connections, i < g.Connections.Data.length)
    (hfa : ∀ i ∈ g.Connections.Freed,
      i ∉ (readPin g ⟨na, a.Direction, pa⟩).Connections ∧
      i ∉ (readPin g ⟨nb, b.Direction, pb⟩).Connections)
    (hcnta : ∀ x, (readPin g ⟨na, a.Direction, pa⟩).Connections.count x ≤ 1)
    (hcntb : ∀ x, (readPin g ⟨nb, b.Direction, pb⟩).Connections.count x ≤ 1)
    (hshared : ∀ c, c ∈ (readPin g ⟨na, a.Direction, pa⟩).Connections →
      c ∈ (readPin g ⟨nb, b.Direction, pb⟩).Connections →
      ((if (g.Connections.get c).A = b then (g.Connections.get c).B
        else (g.Connections.get c).A) = a ∧
       (if (g.Connections.get c).A = a then (g.Connections.get c).B
        else (g.Connections.get c).A) = b)) :
    ∃ cid cA cB,
      (MakeConnection g a b).2 = true ∧
      PinLiveAt (MakeConnection g a b).1 a na pa ∧
      PinLiveAt (MakeConnection g a b).1 b nb pb ∧
      (readPin (MakeConnection g a b).1 ⟨na, a.Direction, pa⟩).toPtr = a ∧
      (readPin (MakeConnection g a b).1 ⟨nb, b.Direction, pb⟩).toPtr = b ∧
      (readPin (MakeConnection g a b).1 ⟨na, a.Direction, pa⟩).Connections = cA ++ [cid] ∧
      (readPin (MakeConnection g a b).1 ⟨nb, b.Direction, pb⟩).Connections = cB ++ [cid] ∧
      cid ∉ cA ∧ cid ∉ cB ∧
      (MakeConnection g a b).1.Connections.get cid = ⟨a, b⟩ ∧
      (a.Direction = ImPinDirection_Input → cA = []) ∧
      (b.Direction = ImPinDirection_Input → cB = []) ∧
      (readPin (MakeConnection g a b).1 ⟨na, a.Direction, pa⟩).BNewConnections = true ∧
      (readPin (MakeConnection g a b).1 ⟨nb, b.Direction, pb⟩).BNewConnections = true := by
  have hdla : (readPin g ⟨na, a.Direction, pa⟩).Direction = a.Direction :=
    congrArg ImPinPtr.Direction hida
  have hdlb : (readPin g ⟨nb, b.Direction, pb⟩).Direction = b.Direction :=
    congrArg ImPinPtr.Direction hidb
  have hmt : ∀ (l1 l2 : List ImGuiID), (∀ x, l1.count x ≤ l2.count x) →
      ∀ i, i ∈ l1 → i ∈ l2 := by
    intro l1 l2 hle i hi
    by_contra hni
    have h0 : l2.count i = 0 := List.count_eq_zero.mpr hni
    have h1 : l1.count i = 0 := Nat.le_antisymm (h0 ▸ hle i) (Nat.zero_le _)
    exact (List.count_eq_zero.mp h1) hi
  have hstage : MakeConnection g a b =
      (let g3 := if (readPin g ⟨na, a.Direction, pa⟩).Direction = ImPinDirection_Input ∧
          (readPin g ⟨na, a.Direction, pa⟩).Connections ≠ [] then
          BreakConnections g ((readPin g ⟨na, a.Direction, pa⟩).toPtr) else g
       let g4 := if (readPin g3 ⟨nb, b.Direction, pb⟩).Direction = ImPinDirection_Input ∧
          (readPin g3 ⟨nb, b.Direction, pb⟩).Connections ≠ [] then
          BreakConnections g3 ((readPin g3 ⟨nb, b.Direction, pb⟩).toPtr) else g3
       (insertPhase g4 a b ⟨na, a.Direction, pa⟩ ⟨nb, b.Direction, pb⟩, true)) := by
    simp only [MakeConnection, if_neg hdir, if_neg hnode]
    rw [FindPin_live ha]
    dsimp only
    rw [FindPin_live hb]
    dsimp only
    cases hV : g.Validation with
    | none => rfl
    | some v =>
      dsimp only
      rw [hval v hV]
      rfl
  dsimp only at hstage
  obtain ⟨G4, E1, E2, hM, ha4, hb4, hida4, hidb4, hlen4, hfreed4, hleA, hleB,
      hE1d, hE2d, hx1, hx2, hinA, hinB⟩ :
      ∃ G4 E1 E2,
        MakeConnection g a b =
          (insertPhase G4 a b ⟨na, a.Direction, pa⟩ ⟨nb, b.Direction, pb⟩, true) ∧
        PinLiveAt G4 a na pa ∧
        PinLiveAt G4 b nb pb ∧
        (readPin G4 ⟨na, a.Direction, pa⟩).toPtr = a ∧
        (readPin G4 ⟨nb, b.Direction, pb⟩).toPtr = b ∧
        G4.Connections.Data.length = g.Connections.Data.length ∧
        G4.Connections.Freed = g.Connections.Freed ++ E1 ++ E2 ∧
        (∀ x, (readPin G4 ⟨na, a.Direction, pa⟩).Connections.count x ≤
          (readPin g ⟨na, a.Direction, pa⟩).Connections.count x) ∧
        (∀ x, (readPin G4 ⟨nb, b.Direction, pb⟩).Connections.count x ≤
          (readPin g ⟨nb, b.Direction, pb⟩).Connections.count x) ∧
        (E1 = [] ∨ (E1 = (readPin g ⟨na, a.Direction, pa⟩).Connections ∧
          (readPin G4 ⟨na, a.Direction, pa⟩).Connections = [])) ∧
        (E2 = [] ∨ ((∀ i ∈ E2, i ∈ (readPin g ⟨nb, b.Direction, pb⟩).Connections) ∧
          (readPin G4 ⟨nb, b.Direction, pb⟩).Connections = [])) ∧
        (∀ c ∈ E1, c ∈ (readPin g ⟨nb, b.Direction, pb⟩).Connections →
          (readPin G4 ⟨nb, b.Direction, pb⟩).Connections.count c = 0) ∧
        (∀ c ∈ E2, c ∈ (readPin g ⟨na, a.Direction, pa⟩).Connections →
          (readPin G4 ⟨na, a.Direction, pa⟩).Connections.count c = 0) ∧
        (a.Direction = ImPinDirection_Input →
          (readPin G4 ⟨na, a.Direction, pa⟩).Connections = []) ∧
        (b.Direction = ImPinDirection_Input →
          (readPin G4 ⟨nb, b.Direction, pb⟩).Connections = []) := by
    by_cases hA3 : (readPin g ⟨na, a.Direction, pa⟩).Direction = ImPinDirection_Input ∧
        (readPin g ⟨na, a.Direction, pa⟩).Connections ≠ []
    · rw [if_pos hA3, hida] at hstage
      have ha3 : PinLiveAt (BreakConnections g a) a na pa := breakConnections_live ha a
      have hb3 : PinLiveAt (BreakConnections g a) b nb pb := breakConnections_live hb a
      have hida3 : (readPin (BreakConnections g a) ⟨na, a.Direction, pa⟩).toPtr = a :=
        (breakConnections_toPtr ha a).trans hida
      have hidb3 : (readPin (BreakConnections g a) ⟨nb, b.Direction, pb⟩).toPtr = b :=
        (breakConnections_toPtr hb a).trans hidb
      have hdlb3 : (readPin (BreakConnections g a) ⟨nb, b.Direction, pb⟩).Direction =
          b.Direction := congrArg ImPinPtr.Direction hidb3
      have hC3 := breakConnections_Connections ha
      have hclrA3 : (readPin (BreakConnections g a) ⟨na, a.Direction, pa⟩).Connections = [] :=
        breakConnections_clears ha
      have hleB3 : ∀ x, (readPin (BreakConnections g a)
            ⟨nb, b.Direction, pb⟩).Connections.count x ≤
          (readPin g ⟨nb, b.Direction, pb⟩).Connections.count x :=
        fun x => breakConnections_count_le g a _ x
      by_cases hB3 : (readPin (BreakConnections g a) ⟨nb, b.Direction, pb⟩).Direction =
            ImPinDirection_Input ∧
          (readPin (BreakConnections g a) ⟨nb, b.Direction, pb⟩).Connections ≠ []
      · rw [if_pos hB3, hidb3] at hstage
        have hC4 := breakConnections_Connections hb3
        have hA4nil : (readPin (BreakConnections (BreakConnections g a) b)
            ⟨na, a.Direction, pa⟩).Connections = [] := by
          have hl := breakConnections_len_le (BreakConnections g a) b ⟨na, a.Direction, pa⟩
          rw [hclrA3] at hl
          exact List.length_eq_zero.mp (Nat.le_zero.mp hl)
        refine ⟨BreakConnections (BreakConnections g a) b,
          (readPin g ⟨na, a.Direction, pa⟩).Connections,
          (readPin (BreakConnections g a) ⟨nb, b.Direction, pb⟩).Connections,
          hstage, breakConnections_live ha3 b, breakConnections_live hb3 b,
          (breakConnections_toPtr ha3 b).trans hida3,
          (breakConnections_toPtr hb3 b).trans hidb3, ?_, ?_, ?_, ?_, ?_, ?_, ?_, ?_,
          fun _ => hA4nil, fun _ => breakConnections_clears hb3⟩
        · rw [hC4, eraseFold_Data_length, hC3, eraseFold_Data_length]
        · rw [hC4, eraseFold_Freed, hC3, eraseFold_Freed]
        · exact fun x => le_trans (breakConnections_count_le (BreakConnections g a) b _ x)
            (breakConnections_count_le g a _ x)
        · exact fun x => le_trans (breakConnections_count_le (BreakConnections g a) b _ x)
            (breakConnections_count_le g a _ x)
        · exact Or.inr ⟨rfl, hA4nil⟩
        · exact Or.inr ⟨fun i hi => hmt _ _ hleB3 i hi, breakConnections_clears hb3⟩
        · intro c _ _
          rw [breakConnections_clears hb3]
          simp
        · intro c _ _
          rw [hA4nil]
          simp
      · rw [if_neg hB3] at hstage
        refine ⟨BreakConnections g a, (readPin g ⟨na, a.Direction, pa⟩).Connections, [],
          hstage, ha3, hb3, hida3, hidb3, ?_, ?_, ?_, ?_, ?_, ?_, ?_, ?_,
          fun _ => hclrA3, ?_⟩
        · rw [hC3, eraseFold_Data_length]
        · rw [hC3, eraseFold_Freed, List.append_nil]
        · exact fun x => breakConnections_count_le g a _ x
        · exact hleB3
        · exact Or.inr ⟨rfl, hclrA3⟩
        · exact Or.inl rfl
        · intro c hc1 hcB
          have h0 := breakConnections_removes ha hb c hc1 (hcntb c) (hshared c hc1 hcB).2
          exact h0
        · intro c hc
          exact absurd hc (List.not_mem_nil c)
        · intro hbin
          have h1 : (readPin (BreakConnections g a) ⟨nb, b.Direction, pb⟩).Direction =
              ImPinDirection_Input := hdlb3.trans hbin
          by_contra hC
          exact hB3 ⟨h1, hC⟩
    · rw [if_neg hA3] at hstage
      by_cases hB3 : (readPin g ⟨nb, b.Direction, pb⟩).Direction = ImPinDirection_Input ∧
          (readPin g ⟨nb, b.Direction, pb⟩).Connections ≠ []
      · rw [if_pos hB3, hidb] at hstage
        have hC4 := breakConnections_Connections hb
        refine ⟨BreakConnections g b, [], (readPin g ⟨nb, b.Direction, pb⟩).Connections,
          hstage, breakConnections_live ha b, breakConnections_live hb b,
          (breakConnections_toPtr ha b).trans hida,
          (breakConnections_toPtr hb b).trans hidb, ?_, ?_, ?_, ?_, ?_, ?_, ?_, ?_,
          ?_, fun _ => breakConnections_clears hb⟩
        · rw [hC4, eraseFold_Data_length]
        · rw [hC4, eraseFold_Freed, List.append_nil]
        · exact fun x => breakConnections_count_le g b _ x
        · exact fun x => breakConnections_count_le g b _ x
        · exact Or.inl rfl
        · exact Or.inr ⟨fun i hi => hi, breakConnections_clears hb⟩
        · intro c hc
          exact absurd hc (List.not_mem_nil c)
        · intro c hc2 hcA
          exact breakConnections_removes hb ha c hc2 (hcnta c) (hshared c hcA hc2).1
        · intro hain
          have h1 : (readPin g ⟨na, a.Direction, pa⟩).Direction = ImPinDirection_Input :=
            hdla.trans hain
          have h0 : (readPin g ⟨na, a.Direction, pa⟩).Connections = [] := by
            by_contra hC
            exact hA3 ⟨h1, hC⟩
          have hl := breakConnections_len_le g b ⟨na, a.Direction, pa⟩
          rw [h0] at hl
          exact List.length_eq_zero.mp (Nat.le_zero.mp hl)
      · rw [if_neg hB3] at hstage
        refine ⟨g, [], [], hstage, ha, hb, hida, hidb, rfl, by simp,
          fun x => Nat.le_refl _, fun x => Nat.le_refl _, Or.inl rfl, Or.inl rfl,
          ?_, ?_, ?_, ?_⟩
        · intro c hc
          exact absurd hc (List.not_mem_nil c)
        · intro c hc
          exact absurd hc (List.not_mem_nil c)
        · intro hain
          have h1 : (readPin g ⟨na, a.Direction, pa⟩).Direction = ImPinDirection_Input :=
            hdla.trans hain
          by_contra hC
          exact hA3 ⟨h1, hC⟩
        · intro hbin
          have h1 : (readPin g ⟨nb, b.Direction, pb⟩).Direction = ImPinDirection_Input :=
            hdlb.trans hbin
          by_contra hC
          exact hB3 ⟨h1, hC⟩
  have hfb4 : ∀ i ∈ G4.Connections.Freed, i < G4.Connections.Data.length := by
    intro i hi
    rw [hfreed4] at hi
    rw [hlen4]
    rcases List.mem_append.mp hi with hi' | hi2
    · rcases List.mem_append.mp hi' with hif | hi1
      · exact hfb i hif
      · rcases hE1d with hE | ⟨hEeq, _⟩
        · rw [hE] at hi1
          exact absurd hi1 (List.not_mem_nil i)
        · exact hba i (hEeq ▸ hi1)
    · rcases hE2d with hE | ⟨hEmem, _⟩
      · rw [hE] at hi2
        exact absurd hi2 (List.not_mem_nil i)
      · exact hbb i (hEmem i hi2)
  obtain ⟨hlive_a, hlive_b, hrdA, hrdB, hget⟩ := insertPhase_spec ha4 hb4 hnn hfb4
  have hnotA : (G4.Connections.Insert ⟨a, b⟩).2 ∉
      (readPin G4 ⟨na, a.Direction, pa⟩).Connections := by
    cases hgl : G4.Connections.Freed.getLast? with
    | none =>
      have hc2 : (G4.Connections.Insert ⟨a, b⟩).2 = G4.Connections.Data.length := by
        rw [Insert_getLast_none _ hgl]
      intro hmem
      have hlt := hba _ (hmt _ _ hleA _ hmem)
      rw [hc2, hlen4] at hlt
      exact absurd hlt (lt_irrefl _)
    | some id =>
      have hc2 : (G4.Connections.Insert ⟨a, b⟩).2 = id := by
        rw [Insert_getLast_some _ hgl]
      have hidmem : id ∈ G4.Connections.Freed := mem_of_getLast?_eq_some hgl
      rw [hfreed4] at hidmem
      rw [hc2]
      rcases List.mem_append.mp hidmem with h' | h2
      · rcases List.mem_append.mp h' with hif | h1
        · intro hmem
          exact (hfa id hif).1 (hmt _ _ hleA _ hmem)
        · rcases hE1d with hE | ⟨hEeq, hnilA⟩
          · rw [hE] at h1
            exact absurd h1 (List.not_mem_nil id)
          · rw [hnilA]
            exact List.not_mem_nil id
      · rcases hE2d with hE | ⟨hEmem, hnilB⟩
        · rw [hE] at h2
          exact absurd h2 (List.not_mem_nil id)
        · by_cases hidA : id ∈ (readPin g ⟨na, a.Direction, pa⟩).Connections
          · exact List.count_eq_zero.mp (hx2 id h2 hidA)
          · intro hmem
            exact hidA (hmt _ _ hleA _ hmem)
  have hnotB : (G4.Connections.Insert ⟨a, b⟩).2 ∉
      (readPin G4 ⟨nb, b.Direction, pb⟩).Connections := by
    cases hgl : G4.Connections.Freed.getLast? with
    | none =>
      have hc2 : (G4.Connections.Insert ⟨a, b⟩).2 = G4.Connections.Data.length := by
        rw [Insert_getLast_none _ hgl]
      intro hmem
      have hlt := hbb _ (hmt _ _ hleB _ hmem)
      rw [hc2, hlen4] at hlt
      exact absurd hlt (lt_irrefl _)
    | some id =>
      have hc2 : (G4.Connections.Insert ⟨a, b⟩).2 = id := by
        rw [Insert_getLast_some _ hgl]
      have hidmem : id ∈ G4.Connections.Freed := mem_of_getLast?_eq_some hgl
      rw [hfreed4] at hidmem
      rw [hc2]
      rcases List.mem_append.mp hidmem with h' | h2
      · rcases List.mem_append.mp h' with hif | h1
        · intro hmem
          exact (hfa id hif).2 (hmt _ _ hleB _ hmem)
        · rcases hE1d with hE | ⟨hEeq, hnilA⟩
          · rw [hE] at h1
            exact absurd h1 (List.not_mem_nil id)
          · have h1' : id ∈ (readPin g ⟨na, a.Direction, pa⟩).Connections := hEeq ▸ h1
            by_cases hidB : id ∈ (readPin g ⟨nb, b.Direction, pb⟩).Connections
            · exact List.count_eq_zero.mp (hx1 id h1 hidB)
            · intro hmem
              exact hidB (hmt _ _ hleB _ hmem)
      · rcases hE2d with hE | ⟨hEmem, hnilB⟩
        · rw [hE] at h2
          exact absurd h2 (List.not_mem_nil id)
        · rw [hnilB]
          exact List.not_mem_nil id
  have hfin1 : (MakeConnection g a b).1 =
      insertPhase G4 a b ⟨na, a.Direction, pa⟩ ⟨nb, b.Direction, pb⟩ := by
    rw [hM]
  refine ⟨(G4.Connections.Insert ⟨a, b⟩).2,
    (readPin G4 ⟨na, a.Direction, pa⟩).Connections,
    (readPin G4 ⟨nb, b.Direction, pb⟩).Connections,
    ?_, ?_, ?_, ?_, ?_, ?_, ?_, hnotA, hnotB, ?_, hinA, hinB, ?_, ?_⟩
  · rw [hM]
  · rw [hfin1]
    exact hlive_a
  · rw [hfin1]
    exact hlive_b
  · rw [hfin1, hrdA]
    exact hida4
  · rw [hfin1, hrdB]
    exact hidb4
  · rw [hfin1, hrdA]
  · rw [hfin1, hrdB]
  · rw [hfin1]
    exact hget
  · rw [hfin1, hrdA]
  · rw [hfin1, hrdB]

set_option maxHeartbeats 4000000 in
/-- Evaluation of `BreakConnection(id)` on a record `{a, b}` with both
endpoint pins live at distinct node slots: the id is dropped from both
back-reference lists (`find_erase_unsorted`), both per-frame erased flags
are set, and liveness and identity of both pins are preserved. -/
theorem BreakConnection_spec {g : ImNodeGraphData} {a b : ImPinPtr} {na pa nb pb : Nat}
    {id : ImGuiID}
    (ha : PinLiveAt g a na pa) (hb : PinLiveAt g b nb pb) (hnn : na ≠ nb)
    (hga : g.Connections.get id = ⟨a, b⟩) :
    PinLiveAt (BreakConnection g id) a na pa ∧
    PinLiveAt (BreakConnection g id) b nb pb ∧
    (readPin (BreakConnection g id) ⟨na, a.Direction, pa⟩).Connections =
      findEraseUnsorted (readPin g ⟨na, a.Direction, pa⟩).Connections id ∧
    (readPin (BreakConnection g id) ⟨nb, b.Direction, pb⟩).Connections =
      findEraseUnsorted (readPin g ⟨nb, b.Direction, pb⟩).Connections id ∧
    (readPin (BreakConnection g id) ⟨na, a.Direction, pa⟩).BErasedConnections = true ∧
    (readPin (BreakConnection g id) ⟨nb, b.Direction, pb⟩).BErasedConnections = true ∧
    (readPin (BreakConnection g id) ⟨na, a.Direction, pa⟩).toPtr =
      (readPin g ⟨na, a.Direction, pa⟩).toPtr ∧
    (readPin (BreakConnection g id) ⟨nb, b.Direction, pb⟩).toPtr =
      (readPin g ⟨nb, b.Direction, pb⟩).toPtr := by
  have hne : (⟨na, a.Direction, pa⟩ : PinAddr) ≠ ⟨nb, b.Direction, pb⟩ := by
    intro hh
    exact hnn (congrArg PinAddr.node hh)
  have hne' : (⟨nb, b.Direction, pb⟩ : PinAddr) ≠ ⟨na, a.Direction, pa⟩ := fun hh => hne hh.symm
  have h0a : PinLiveAt ({ g with Connections := g.Connections.Erase id } : ImNodeGraphData)
      a na pa := ha
  have h0b : PinLiveAt ({ g with Connections := g.Connections.Erase id } : ImNodeGraphData)
      b nb pb := hb
  simp only [BreakConnection]
  rw [hga]
  dsimp only
  rw [FindPin_live h0a]
  dsimp only
  rw [FindPin_live h0b]
  dsimp only
  rw [readPin_modifyPin_ne _ hne' (AddrLive_of_PinLiveAt (PinLiveAt_modifyPin
    (PinLiveAt_modifyPin (PinLiveAt_modifyPin (PinLiveAt_modifyPin
      (PinLiveAt_modifyPin h0b _ _) _ _) _ _) _ _) _ _))]
  rw [readPin_modifyPin_self _ (AddrLive_of_PinLiveAt (PinLiveAt_modifyPin
    (PinLiveAt_modifyPin (PinLiveAt_modifyPin (PinLiveAt_modifyPin
      (PinLiveAt_modifyPin h0b _ _) _ _) _ _) _ _) _ _))]
  rw [readPin_modifyPin_ne _ hne (AddrLive_of_PinLiveAt (PinLiveAt_modifyPin
    (PinLiveAt_modifyPin (PinLiveAt_modifyPin (PinLiveAt_modifyPin h0a _ _) _ _) _ _) _ _))]
  rw [readPin_modifyPin_self _ (AddrLive_of_PinLiveAt (PinLiveAt_modifyPin
    (PinLiveAt_modifyPin (PinLiveAt_modifyPin (PinLiveAt_modifyPin h0a _ _) _ _) _ _) _ _))]
  rw [readPin_modifyPin_ne _ hne' (AddrLive_of_PinLiveAt (PinLiveAt_modifyPin
    (PinLiveAt_modifyPin (PinLiveAt_modifyPin h0b _ _) _ _) _ _))]
  rw [readPin_modifyPin_self _ (AddrLive_of_PinLiveAt (PinLiveAt_modifyPin
    (PinLiveAt_modifyPin (PinLiveAt_modifyPin h0b _ _) _ _) _ _))]
  rw [readPin_modifyPin_ne _ hne (AddrLive_of_PinLiveAt (PinLiveAt_modifyPin
    (PinLiveAt_modifyPin h0a _ _) _ _))]
  rw [readPin_modifyPin_self _ (AddrLive_of_PinLiveAt (PinLiveAt_modifyPin
    (PinLiveAt_modifyPin h0a _ _) _ _))]
  rw [readPin_modifyPin_ne _ hne' (AddrLive_of_PinLiveAt (PinLiveAt_modifyPin h0b _ _))]
  rw [readPin_modifyPin_self _ (AddrLive_of_PinLiveAt (PinLiveAt_modifyPin h0b _ _))]
  rw [readPin_modifyPin_ne _ hne (AddrLive_of_PinLiveAt h0a)]
  rw [readPin_modifyPin_self _ (AddrLive_of_PinLiveAt h0a)]
  refine ⟨?_, ?_, rfl, rfl, rfl, rfl, rfl, rfl⟩
  · exact PinLiveAt_modifyPin (PinLiveAt_modifyPin (PinLiveAt_modifyPin (PinLiveAt_modifyPin
      (PinLiveAt_modifyPin (PinLiveAt_modifyPin h0a _ _) _ _) _ _) _ _) _ _) _ _
  · exact PinLiveAt_modifyPin (PinLiveAt_modifyPin (PinLiveAt_modifyPin (PinLiveAt_modifyPin
      (PinLiveAt_modifyPin (PinLiveAt_modifyPin h0b _ _) _ _) _ _) _ _) _ _) _ _

theorem moveHeadToEnd_cons (x : Nat) (l : List Nat) : moveHeadToEnd (x :: l) = l ++ [x] := by
  induction l generalizing x with
  | nil => simp [moveHeadToEnd]
  | cons b r ih =>
    have hstep : moveHeadToEnd (x :: b :: r) = b :: moveHeadToEnd (x :: r) := by
      conv_lhs => rw [moveHeadToEnd]
    rw [hstep, ih x, List.cons_append]

theorem pushToTop_order_decomp {l : List Nat} {idx : Nat} (h : idx ∈ l) :
    l.take (l.findIdx (fun y => y = idx)) ++ moveHeadToEnd (l.drop (l.findIdx (fun y => y = idx)))
      = l.erase idx ++ [idx] := by
  induction l with
  | nil => simp at h
  | cons a t ih =>
    by_cases ha : a = idx
    · subst ha
      have hfi : List.findIdx (fun y => decide (y = a)) (a :: t) = 0 := by
        simp [List.findIdx_cons]
      rw [hfi, List.take_zero, List.drop_zero, List.nil_append, moveHeadToEnd_cons,
        List.erase_cons_head]
    · have ht : idx ∈ t := by
        rcases List.mem_cons.mp h with h1 | h2
        · exact absurd h1.symm ha
        · exact h2
      have hfi : List.findIdx (fun y => decide (y = idx)) (a :: t) =
          List.findIdx (fun y => decide (y = idx)) t + 1 := by
        simp [List.findIdx_cons, ha]
      rw [hfi, List.take_succ_cons, List.drop_succ_cons,
        List.erase_cons_tail (by simp [ha]), List.cons_append, List.cons_append, ← ih ht]

/-! # Claim theorems -/

/-- **C7**: for every id mapped by the pool's hash table to a slot whose
index occurs in the order array, `PushToTop` moves that entry to the last
position of the order array (the other entries keeping their relative
order) and leaves the hash map — and every other component of the pool —
unchanged, so every id still resolves to the same slot; for an unmapped
id, `PushToTop` is a no-op. -/
theorem pushToTop_spec {T : Type} [Inhabited T] :
    (∀ (p : ImObjectPool T) (id : ImGuiID) (idx : Nat),
      storageGetInt p.IDToIdx id nullidx = Int.ofNat idx → idx ∈ p.Order →
      (p.PushToTop id).Order = p.Order.erase idx ++ [idx] ∧
      (p.PushToTop id).IDToIdx = p.IDToIdx ∧
      (p.PushToTop id).Data = p.Data ∧
      (p.PushToTop id).Active = p.Active ∧
      (p.PushToTop id).IdxToID = p.IdxToID ∧
      (p.PushToTop id).Freed = p.Freed) ∧
    (∀ (p : ImObjectPool T) (id : ImGuiID),
      storageGetInt p.IDToIdx id nullidx = nullidx → p.PushToTop id = p) := by
  constructor
  · intro p id idx hmap hmem
    have hne : ¬(Int.ofNat idx = nullidx) := by
      intro hh
      unfold nullidx at hh
      have h0 : (0 : Int) ≤ Int.ofNat idx := Int.ofNat_nonneg idx
      omega
    have ht : (Int.ofNat idx).toNat = idx := rfl
    have hred : p.PushToTop id =
        { p with Order := p.Order.take (p.Order.findIdx (fun y => y = idx)) ++
            moveHeadToEnd (p.Order.drop (p.Order.findIdx (fun y => y = idx))) } := by
      simp only [ImObjectPool.PushToTop, hmap, if_neg hne, ht]
    rw [hred]
    exact ⟨pushToTop_order_decomp hmem, rfl, rfl, rfl, rfl, rfl⟩
  · intro p id hmap
    simp [ImObjectPool.PushToTop, hmap]

/-- Witness for **C7** on a concrete two-slot pool. -/
theorem pushToTop_spec_witness :
    (let p : ImObjectPool Nat :=
      ⟨[100, 200], [true, true], [5, 7], [], [0, 1], [(5, 0), (7, 1)]⟩
     storageGetInt p.IDToIdx 5 nullidx = Int.ofNat 0 ∧ (0 : Nat) ∈ p.Order ∧
     (p.PushToTop 5).Order = p.Order.erase 0 ++ [0] ∧
     (p.PushToTop 5).IDToIdx = p.IDToIdx ∧
     storageGetInt p.IDToIdx 9 nullidx = nullidx ∧ p.PushToTop 9 = p) := by
  refine ⟨by decide, by decide, ?_, ?_, by decide, ?_⟩
  · exact ((pushToTop_spec (T := Nat)).1 _ 5 0 (by decide) (by decide)).1
  · exact ((pushToTop_spec (T := Nat)).1 _ 5 0 (by decide) (by decide)).2.1
  · exact (pushToTop_spec (T := Nat)).2 _ 9 (by decide)

/-- **C4**: `GridToScreen` computes
`(p - camera.position) * camera.scale + graphCenter`; for a camera with
nonzero scale `ScreenToGrid` is its exact (two-sided) algebraic inverse,
so `ScreenToGrid (GridToScreen p) = p` — exactly, in the rational-number
model of the float arithmetic. -/
theorem transform_roundtrip (camera : ImGraphCamera) (center p : Vec2)
    (h : camera.Scale ≠ 0) :
    GridToScreen camera center p =
      ⟨(p.x - camera.Position.x) * camera.Scale + center.x,
       (p.y - camera.Position.y) * camera.Scale + center.y⟩ ∧
    ScreenToGrid camera center (GridToScreen camera center p) = p ∧
    GridToScreen camera center (ScreenToGrid camera center p) = p := by
  refine ⟨rfl, ?_, ?_⟩ <;>
  · obtain ⟨⟨camx, camy⟩, scale⟩ := camera
    obtain ⟨cx, cy⟩ := center
    obtain ⟨px, py⟩ := p
    simp only [GridToScreen, ScreenToGrid, Vec2.add, Vec2.sub, Vec2.smul, Vec2.sdiv,
      Vec2.mk.injEq] at h ⊢
    constructor <;> (field_simp; try ring)

/-- Witness for **C4** at a concrete camera and point. -/
theorem transform_roundtrip_witness :
    ((2 : Rat) ≠ 0) ∧
    ScreenToGrid ⟨⟨3, 4⟩, 2⟩ ⟨10, 20⟩ (GridToScreen ⟨⟨3, 4⟩, 2⟩ ⟨10, 20⟩ ⟨7, 8⟩) = ⟨7, 8⟩ :=
  ⟨by norm_num, (transform_roundtrip ⟨⟨3, 4⟩, 2⟩ ⟨10, 20⟩ ⟨7, 8⟩ (by norm_num)).2.1⟩

/-- **C5 counterexample**: the claim asserts that *every* frame in which
the graph area is hovered bumps, clamps and lerps the zoom; but
`GraphBehaviour` returns before its zoom block whenever a pin-drag
connection is pending (or the window is unfocused).  Concretely: focused
window, pending connection, hovered, wheel = 1, rate = 1, smoothing = 1,
bounds [0, 10], dt = 1, targetZoom = scale = 1: the code leaves
`(targetZoom, scale) = (1, 1)`, while the claimed update would produce
`(2, 2)`. -/
theorem graphZoom_counterexample :
    GraphBehaviourZoom true true false true 1 1 ⟨1, 1, 0, 10⟩ 1 1 ≠
      (ImClamp (1 + 1 * 1 * 1) 0 10,
        ImLerp 1 (ImClamp (1 + 1 * 1 * 1) 0 10) (1 * 1)) := by
  have hL : GraphBehaviourZoom true true false true 1 1 ⟨1, 1, 0, 10⟩ 1 1 = (1, 1) := by
    simp [GraphBehaviourZoom]
  have hR : ImClamp (1 + 1 * 1 * 1) 0 10 = (2 : Rat) := by
    unfold ImClamp
    norm_num
  have hR' : ImLerp 1 2 (1 * 1) = (2 : Rat) := by
    unfold ImLerp
    norm_num
  rw [hL, hR, hR']
  norm_num [Prod.ext_iff]

/-- **C5 (amended)**: each frame in which the window is focused, no
pin-drag connection is pending, and the graph area is hovered, the target
zoom is incremented by `wheel * ZoomRate * scale`, then clamped to
`[ZoomBounds.x, ZoomBounds.y]`, and the camera scale moves toward the
clamped target by `lerp(scale, targetZoom', deltaTime * smoothing)` —
strictly between the old scale and the target when the smoothing factor
lies in `(0, 1)` — and the whole update is independent of the panning
state. -/
theorem graphZoom_amended (isPanning isPanning' hovered : Bool) (wheel dt : Rat)
    (s : ImNodeGraphSettings) (tz scale : Rat) (hbounds : s.ZoomBoundsX ≤ s.ZoomBoundsY) :
    (∀ tz1,
      GraphBehaviourZoom true false isPanning hovered wheel dt s tz scale = (tz1, ImLerp scale tz1 (dt * s.ZoomSmoothing)) →
      (hovered = true → tz1 = ImClamp (tz + wheel * s.ZoomRate * scale) s.ZoomBoundsX s.ZoomBoundsY) ∧
      (hovered = false → tz1 = ImClamp tz s.ZoomBoundsX s.ZoomBoundsY) ∧
      s.ZoomBoundsX ≤ tz1 ∧ tz1 ≤ s.ZoomBoundsY ∧
      (0 < dt * s.ZoomSmoothing → dt * s.ZoomSmoothing < 1 →
        (scale < tz1 → scale < ImLerp scale tz1 (dt * s.ZoomSmoothing) ∧
          ImLerp scale tz1 (dt * s.ZoomSmoothing) < tz1) ∧
        (tz1 < scale → tz1 < ImLerp scale tz1 (dt * s.ZoomSmoothing) ∧
          ImLerp scale tz1 (dt * s.ZoomSmoothing) < scale))) ∧
    (∃ tz1, GraphBehaviourZoom true false isPanning hovered wheel dt s tz scale =
      (tz1, ImLerp scale tz1 (dt * s.ZoomSmoothing))) ∧
    GraphBehaviourZoom true false isPanning hovered wheel dt s tz scale =
      GraphBehaviourZoom true false isPanning' hovered wheel dt s tz scale := by
  have hshape : GraphBehaviourZoom true false isPanning hovered wheel dt s tz scale =
      (ImClamp (if hovered then tz + wheel * s.ZoomRate * scale else tz)
          s.ZoomBoundsX s.ZoomBoundsY,
        ImLerp scale (ImClamp (if hovered then tz + wheel * s.ZoomRate * scale else tz)
          s.ZoomBoundsX s.ZoomBoundsY) (dt * s.ZoomSmoothing)) := by
    simp [GraphBehaviourZoom]
  refine ⟨?_, ⟨_, hshape⟩, ?_⟩
  · intro tz1 heq
    rw [hshape] at heq
    injection heq with h1 h2
    subst h1
    refine ⟨?_, ?_, ?_, ?_, ?_⟩
    · intro hh
      rw [hh]
      simp
    · intro hh
      rw [hh]
      simp
    · unfold ImClamp
      split_ifs <;> linarith
    · unfold ImClamp
      split_ifs <;> linarith
    · intro h0 h1
      unfold ImLerp
      constructor
      · intro hlt
        constructor <;> nlinarith
      · intro hlt
        constructor <;> nlinarith
  · simp [GraphBehaviourZoom]

/-! ## C6 support: pool identity across Reset / redeclaration / Cleanup -/

theorem mem_storageSetInt {s : ImGuiStorage} {k : Nat} {v : Int} {kv : Nat × Int}
    (h : kv ∈ storageSetInt s k v) : kv = (k, v) ∨ (kv ∈ s ∧ ¬(kv.1 = k)) := by
  unfold storageSetInt at h
  split at h
  · obtain ⟨kv0, hkv0, hkv⟩ := List.mem_map.mp h
    by_cases h0 : kv0.1 = k
    · left
      rw [if_pos h0] at hkv
      exact hkv.symm
    · right
      rw [if_neg h0] at hkv
      exact hkv ▸ ⟨hkv0, h0⟩
  · next hany =>
    rcases List.mem_append.mp h with h1 | h2
    · right
      refine ⟨h1, fun hk => hany ?_⟩
      exact List.any_eq_true.mpr ⟨kv, h1, by simp [hk]⟩
    · left
      simpa using h2

theorem storageGetInt_eq_ofNat_mem {s : ImGuiStorage} {k : Nat} {v : Nat}
    (h : storageGetInt s k nullidx = Int.ofNat v) :
    ∃ kv ∈ s, kv.1 = k ∧ kv.2 = Int.ofNat v := by
  unfold storageGetInt at h
  cases hf : s.find? (fun kv => kv.1 = k) with
  | none =>
    rw [hf] at h
    exact absurd h (by
      intro hh
      have h0 : (0 : Int) ≤ Int.ofNat v := Int.ofNat_nonneg v
      rw [← hh] at h0
      norm_num [nullidx] at h0)
  | some kv =>
    rw [hf] at h
    refine ⟨kv, List.mem_of_find?_eq_some hf, ?_, h⟩
    have := List.find?_some hf
    simpa using this

theorem nodup_getLast?_not_mem_dropLast {l : List Nat} (hnd : l.Nodup) {a : Nat}
    (h : l.getLast? = some a) : a ∉ l.dropLast := by
  have hne : l ≠ [] := by
    intro hnil
    rw [hnil] at h
    simp at h
  have hdecomp : l.dropLast ++ [l.getLast hne] = l := List.dropLast_append_getLast hne
  have hlast : l.getLast hne = a := by
    have h2 := List.getLast?_eq_getLast l hne
    rw [h] at h2
    exact (Option.some.inj h2).symm
  intro hmem
  rw [← hdecomp] at hnd
  have hdisj := List.disjoint_of_nodup_append hnd
  exact hdisj hmem (by rw [hlast]; simp)

/-- Redeclaring a *different* id leaves a not-redeclared id's situation
intact: `operator[]` for `i ≠ id` cannot reactivate, remap or free the
slot of `id`. -/
theorem notRedeclared_getById {T : Type} [Inhabited T] {s : ImObjectPool T}
    {id : ImGuiID} {idx : Nat} (h : NotRedeclared s id idx) (i : ImGuiID) (hi : i ≠ id) :
    NotRedeclared (s.getById i).1 id idx := by
  unfold ImObjectPool.getById
  by_cases hmiss : storageGetInt s.IDToIdx i nullidx = nullidx
  · rw [if_pos hmiss]
    unfold ImObjectPool.getNextIndex
    cases hlast : s.Freed.getLast? with
    | some j =>
      have hjmem : j ∈ s.Freed := mem_of_getLast?_eq_some hlast
      have hj : j ≠ idx := fun hh => h.nfr (hh ▸ hjmem)
      have hjlt : j < s.Data.length := h.fbd j hjmem
      simp only
      exact
        { map := by
            rw [storageGetInt_setInt_ne _ _ _ _ _ hi]
            exact h.map
        , hlt := by simpa using h.hlt
        , act := by
            rw [getD_set_ne _ _ _ _ _ hj, getD_set_ne _ _ _ _ _ hj]
            exact h.act
        , rid := by
            rw [getD_set_ne _ _ _ _ _ hj]
            exact h.rid
        , nfr := not_mem_dropLast h.nfr
        , leni := by simpa using h.leni
        , lena := by simpa using h.lena
        , fnd := h.fnd.sublist (List.dropLast_sublist _)
        , fbd := by
            intro j' hj'
            have : j' ∈ s.Freed := (List.dropLast_sublist _).mem hj'
            simpa using h.fbd j' this
        , mc := by
            intro kv hkv hpos
            rcases mem_storageSetInt hkv with hkv1 | ⟨hkv2, hkey⟩
            · subst hkv1
              refine ⟨by simpa using hjlt, ?_, ?_⟩
              · show (s.IdxToID.set j i).getD j 0 = i
                exact getD_set_self _ _ _ _ (by rw [h.leni]; exact hjlt)
              · show j ∉ s.Freed.dropLast
                exact nodup_getLast?_not_mem_dropLast h.fnd hlast
            · obtain ⟨hv1, hv2, hv3⟩ := h.mc kv hkv2 hpos
              have hvj : j ≠ kv.2.toNat := fun hh => hv3 (hh ▸ hjmem)
              refine ⟨by simpa using hv1, ?_, not_mem_dropLast hv3⟩
              rw [getD_set_ne _ _ _ _ _ hvj]
              exact hv2
        , nlb := by
            intro kv hkv
            rcases mem_storageSetInt hkv with hkv1 | ⟨hkv2, _⟩
            · subst hkv1
              show nullidx ≤ Int.ofNat j
              exact le_trans (by norm_num [nullidx]) (Int.ofNat_nonneg j)
            · exact h.nlb kv hkv2
        , cnt := by
            have hcc : ((s.Order ++ [j]).count idx) = s.Order.count idx := by
              rw [List.count_append]
              have hz : List.count idx [j] = 0 :=
                List.count_eq_zero.mpr (by simp; exact fun hh => hj hh.symm)
              omega
            simpa [hcc] using h.cnt }
    | none =>
      have hfr : s.Freed = [] := by
        cases hfe : s.Freed with
        | nil => rfl
        | cons x xs =>
          rw [hfe] at hlast
          have : (x :: xs).getLast? ≠ none := by
            cases xs <;> simp [List.getLast?]
          exact absurd hlast this
      have hne : s.Data.length ≠ idx := by
        have := h.hlt
        omega
      simp only [ImObjectPool.pushBackSlot]
      exact
        { map := by
            rw [storageGetInt_setInt_ne _ _ _ _ _ hi]
            exact h.map
        , hlt := by
            simp only [List.length_append, List.length_cons, List.length_nil]
            have := h.hlt
            omega
        , act := by
            rw [getD_set_ne _ _ _ _ _ hne]
            rw [getD_append_left _ _ _ _ (by rw [h.lena]; exact h.hlt)]
            exact h.act
        , rid := by
            rw [getD_append_left _ _ _ _ (by rw [h.leni]; exact h.hlt)]
            exact h.rid
        , nfr := by
            rw [hfr]
            simp
        , leni := by
            simp only [List.length_append, List.length_cons, List.length_nil]
            have := h.leni
            omega
        , lena := by
            simp only [List.length_set, List.length_append, List.length_cons, List.length_nil]
            have := h.lena
            omega
        , fnd := by
            rw [hfr]
            exact List.nodup_nil
        , fbd := by
            rw [hfr]
            intro j' hj'
            simp at hj'
        , mc := by
            intro kv hkv hpos
            rcases mem_storageSetInt hkv with hkv1 | ⟨hkv2, hkey⟩
            · subst hkv1
              refine ⟨by simp, ?_, by rw [hfr]; simp⟩
              show (s.IdxToID ++ [i]).getD s.Data.length 0 = i
              rw [← h.leni]
              exact getD_concat_length _ _ _
            · obtain ⟨hv1, hv2, hv3⟩ := h.mc kv hkv2 hpos
              refine ⟨?_, ?_, by rw [hfr]; simp⟩
              · simp only [List.length_append, List.length_cons, List.length_nil]
                omega
              · rw [getD_append_left _ _ _ _ (by rw [h.leni]; exact hv1)]
                exact hv2
        , nlb := by
            intro kv hkv
            rcases mem_storageSetInt hkv with hkv1 | ⟨hkv2, _⟩
            · subst hkv1
              show nullidx ≤ Int.ofNat s.Data.length
              exact le_trans (by norm_num [nullidx]) (Int.ofNat_nonneg s.Data.length)
            · exact h.nlb kv hkv2
        , cnt := by
            have hcc : ((s.Order ++ [s.Data.length]).count idx) = s.Order.count idx := by
              rw [List.count_append]
              have hz : List.count idx [s.Data.length] = 0 :=
                List.count_eq_zero.mpr (by simp; exact fun hh => hne hh.symm)
              omega
            simpa [hcc] using h.cnt }
  · rw [if_neg hmiss]
    have hvne : (storageGetInt s.IDToIdx i nullidx).toNat ≠ idx := by
      cases hf : s.IDToIdx.find? (fun kv => kv.1 = i) with
      | none =>
        exact absurd (by unfold storageGetInt; rw [hf]) hmiss
      | some kv =>
        have hget : storageGetInt s.IDToIdx i nullidx = kv.2 := by
          unfold storageGetInt
          rw [hf]
        have hkvmem := List.mem_of_find?_eq_some hf
        have hkv1 : kv.1 = i := by simpa using List.find?_some hf
        have hge : nullidx ≤ kv.2 := h.nlb kv hkvmem
        have hnn : kv.2 ≠ nullidx := fun hh => hmiss (hget.trans hh)
        have hpos : 0 ≤ kv.2 := by
          unfold nullidx at hge hnn
          omega
        obtain ⟨_, hv2, _⟩ := h.mc kv hkvmem hpos
        rw [hget]
        intro hh
        rw [hh] at hv2
        have hid2 : kv.1 = id := by rw [← hv2, h.rid]
        exact hi (hkv1 ▸ hid2)
    exact
      { map := h.map
      , hlt := h.hlt
      , act := by
          rw [getD_set_ne _ _ _ _ _ (fun hh => hvne hh)]
          exact h.act
      , rid := h.rid
      , nfr := h.nfr
      , leni := h.leni
      , lena := by
          simpa using h.lena
      , fnd := h.fnd
      , fbd := h.fbd
      , mc := h.mc
      , nlb := h.nlb
      , cnt := h.cnt }

theorem cleanupStep_Active {T : Type} [Inhabited T] (s : ImObjectPool T) (i : Nat) :
    (ImObjectPool.cleanupStep s i).Active = s.Active := by
  unfold ImObjectPool.cleanupStep
  split <;> rfl

/-- Once an id is evicted, its slot freed and its order entry gone, the
remaining `Cleanup` iterations keep it that way (they only append to the
free list, erase other entries and write `nullidx` into the hash map). -/
theorem cleanup_fold_phase2 {T : Type} [Inhabited T] (l : List Nat) (s : ImObjectPool T)
    (id : ImGuiID) (idx : Nat) (hnot : idx ∉ l)
    (hmap : storageGetInt s.IDToIdx id nullidx = nullidx)
    (hfr : idx ∈ s.Freed) (hord : s.Order.count idx = 0) :
    storageGetInt (l.foldl ImObjectPool.cleanupStep s).IDToIdx id nullidx = nullidx ∧
    idx ∈ (l.foldl ImObjectPool.cleanupStep s).Freed ∧
    (l.foldl ImObjectPool.cleanupStep s).Order.count idx = 0 := by
  induction l generalizing s with
  | nil => exact ⟨hmap, hfr, hord⟩
  | cons i t ih =>
    simp only [List.foldl_cons]
    have hit : idx ∉ t := fun hh => hnot (List.mem_cons_of_mem _ hh)
    have hii : i ≠ idx := fun hh => hnot (hh ▸ List.mem_cons_self _ _)
    refine ih (ImObjectPool.cleanupStep s i) hit ?_ ?_ ?_
    · unfold ImObjectPool.cleanupStep
      split
      · exact hmap
      · show storageGetInt (storageSetInt s.IDToIdx (s.IdxToID.getD i 0) nullidx) id nullidx =
          nullidx
        by_cases hk : s.IdxToID.getD i 0 = id
        · rw [hk]
          exact storageGetInt_setInt_self _ _ _ _
        · rw [storageGetInt_setInt_ne _ _ _ _ _ hk]
          exact hmap
    · unfold ImObjectPool.cleanupStep
      split
      · exact hfr
      · exact List.mem_append_left _ hfr
    · unfold ImObjectPool.cleanupStep
      split
      · exact hord
      · show (s.Order.erase i).count idx = 0
        rw [List.count_erase_of_ne (fun hh => hii hh.symm)]
        exact hord

/-- Running the `Cleanup` scan over a duplicate-free index list that
includes the inactive slot `idx` of an unredeclared id evicts the id from
the hash map, pushes `idx` onto the free list and removes it from the
order array. -/
theorem cleanup_fold_spec {T : Type} [Inhabited T] (l : List Nat) (s : ImObjectPool T)
    (id : ImGuiID) (idx : Nat) (hmem : idx ∈ l) (hnd : l.Nodup)
    (hact : s.Active.getD idx false = false)
    (hid : s.IdxToID.getD idx 0 = id)
    (hcnt : s.Order.count idx ≤ 1) :
    storageGetInt (l.foldl ImObjectPool.cleanupStep s).IDToIdx id nullidx = nullidx ∧
    idx ∈ (l.foldl ImObjectPool.cleanupStep s).Freed ∧
    (l.foldl ImObjectPool.cleanupStep s).Order.count idx = 0 := by
  induction l generalizing s with
  | nil => simp at hmem
  | cons i t ih =>
    simp only [List.foldl_cons]
    by_cases hii : i = idx
    · subst hii
      have hcond : ¬(s.Active.getD i false = true) := by
        rw [hact]
        simp
      have hstep : ImObjectPool.cleanupStep s i =
          { s with Freed := s.Freed ++ [i]
                 , Order := s.Order.erase i
                 , IDToIdx := storageSetInt s.IDToIdx (s.IdxToID.getD i 0) nullidx
                 , IdxToID := s.IdxToID.set i 0 } := by
        unfold ImObjectPool.cleanupStep
        rw [if_neg hcond]
      rw [hstep]
      have hnotin : i ∉ t := (List.nodup_cons.mp hnd).1
      refine cleanup_fold_phase2 t _ id i hnotin ?_ ?_ ?_
      · show storageGetInt (storageSetInt s.IDToIdx (s.IdxToID.getD i 0) nullidx) id nullidx =
          nullidx
        rw [hid]
        exact storageGetInt_setInt_self _ _ _ _
      · exact List.mem_append_right _ (by simp)
      · show (s.Order.erase i).count i = 0
        rw [List.count_erase_self]
        omega
    · have hmem' : idx ∈ t := by
        rcases List.mem_cons.mp hmem with h1 | h2
        · exact absurd h1.symm hii
        · exact h2
      have hnd' : t.Nodup := (List.nodup_cons.mp hnd).2
      refine ih (ImObjectPool.cleanupStep s i) hmem' hnd' ?_ ?_ ?_
      · rw [cleanupStep_Active]
        exact hact
      · unfold ImObjectPool.cleanupStep
        split
        · exact hid
        · show (s.IdxToID.set i 0).getD idx 0 = id
          rw [getD_set_ne _ _ _ _ _ hii]
          exact hid
      · unfold ImObjectPool.cleanupStep
        split
        · exact hcnt
        · show (s.Order.erase i).count idx ≤ 1
          rw [List.count_erase_of_ne (fun hh => hii hh.symm)]
          exact hcnt

/-- A not-redeclared id survives any sequence of redeclarations of other
ids. -/
theorem notRedeclared_fold {T : Type} [Inhabited T] (others : List ImGuiID)
    (s : ImObjectPool T) (id : ImGuiID) (idx : Nat) (h : NotRedeclared s id idx)
    (hothers : id ∉ others) :
    NotRedeclared (others.foldl (fun s i => (s.getById i).1) s) id idx := by
  induction others generalizing s with
  | nil => exact h
  | cons i t ih =>
    simp only [List.foldl_cons]
    have hi : i ≠ id := fun hh => hothers (hh ▸ List.mem_cons_self _ _)
    exact ih _ (notRedeclared_getById h i hi) (fun hh => hothers (List.mem_cons_of_mem _ hh))

/-- **C6**: pool identity is stable across frames.  (i) `operator[]` on a
live id is a pure lookup returning its slot, and after a frame `Reset`
redeclaring the id still resolves to the same slot, leaves the hash map
untouched and makes the pool contain the id again.  (ii) If an id is
*not* redeclared between a `Reset()` and the following `Cleanup()` —
whatever other ids are declared in between — then after the `Cleanup` the
pool no longer contains it, its mapping is evicted from the hash map, its
slot index is on the free list, and its entry is gone from the order
array. -/
theorem pool_identity_spec {T : Type} [Inhabited T] :
    (∀ (p : ImObjectPool T) (id : ImGuiID) (idx : Nat), PoolLiveAt p id idx →
      p.getById id = (p, idx) ∧
      (p.Reset.getById id).2 = idx ∧
      (p.Reset.getById id).1.IDToIdx = p.IDToIdx ∧
      (p.Reset.getById id).1.contains id = true) ∧
    (∀ (p : ImObjectPool T) (id : ImGuiID) (idx : Nat) (others : List ImGuiID),
      NotRedeclared p.Reset id idx → id ∉ others →
      ((others.foldl (fun s i => (s.getById i).1) p.Reset).Cleanup.1.contains id = false ∧
       storageGetInt (others.foldl (fun s i => (s.getById i).1) p.Reset).Cleanup.1.IDToIdx
         id nullidx = nullidx ∧
       idx ∈ (others.foldl (fun s i => (s.getById i).1) p.Reset).Cleanup.1.Freed ∧
       idx ∉ (others.foldl (fun s i => (s.getById i).1) p.Reset).Cleanup.1.Order)) := by
  constructor
  · intro p id idx h
    obtain ⟨hmap, hdl, hal, hact, hfree⟩ := h
    have hne : ¬(Int.ofNat idx = nullidx) := by
      intro hh
      unfold nullidx at hh
      have h0 : (0 : Int) ≤ Int.ofNat idx := Int.ofNat_nonneg idx
      omega
    have ht : (Int.ofNat idx).toNat = idx := rfl
    refine ⟨getById_live ⟨hmap, hdl, hal, hact, hfree⟩, ?_, ?_, ?_⟩
    · simp only [ImObjectPool.getById, ImObjectPool.Reset, hmap, if_neg hne, ht]
    · simp only [ImObjectPool.getById, ImObjectPool.Reset, hmap, if_neg hne, ht]
    · simp only [ImObjectPool.getById, ImObjectPool.Reset, ImObjectPool.contains, hmap,
        if_neg hne, ht]
      have hlt' : idx < (List.replicate p.Active.length false).length := by
        simpa using hal
      rw [getD_set_self _ _ _ _ hlt']
      simp [hne]
      simp only [nullidx]
      omega
  · intro p id idx others hnr hothers
    have hfold := notRedeclared_fold others p.Reset id idx hnr hothers
    have hlt' : idx < (others.foldl (fun s i => (s.getById i).1) p.Reset).Active.length := by
      rw [hfold.lena]
      exact hfold.hlt
    have hclean := cleanup_fold_spec
      (List.range (others.foldl (fun s i => (s.getById i).1) p.Reset).Active.length)
      { others.foldl (fun s i => (s.getById i).1) p.Reset with Freed := [] }
      id idx (List.mem_range.mpr hlt') (List.nodup_range _) hfold.act hfold.rid hfold.cnt
    obtain ⟨hm, hf, hc⟩ := hclean
    refine ⟨?_, hm, hf, ?_⟩
    · simp only [ImObjectPool.Cleanup, ImObjectPool.contains, hm]
      simp
    · exact List.count_eq_zero.mp hc

/-- Witness for **C6** on `c6pool`: id 5 is live at slot 0; after a
`Reset`, redeclaring only id 7 and running `Cleanup` evicts id 5, frees
slot 0 and removes it from the order array. -/
theorem pool_identity_spec_witness :
    (c6pool.getById 5 = (c6pool, 0) ∧
     (c6pool.Reset.getById 5).2 = 0 ∧
     (c6pool.Reset.getById 5).1.IDToIdx = c6pool.IDToIdx ∧
     (c6pool.Reset.getById 5).1.contains 5 = true) ∧
    (([7].foldl (fun s i => (s.getById i).1) c6pool.Reset).Cleanup.1.contains 5 = false ∧
     storageGetInt ([7].foldl (fun s i => (s.getById i).1) c6pool.Reset).Cleanup.1.IDToIdx
       5 nullidx = nullidx ∧
     0 ∈ ([7].foldl (fun s i => (s.getById i).1) c6pool.Reset).Cleanup.1.Freed ∧
     0 ∉ ([7].foldl (fun s i => (s.getById i).1) c6pool.Reset).Cleanup.1.Order) :=
  ⟨(pool_identity_spec (T := Nat)).1 c6pool 5 0
      ⟨by decide, by decide, by decide, by decide, by decide⟩,
   (pool_identity_spec (T := Nat)).2 c6pool 5 0 [7]
      ⟨by decide, by decide, by decide, by decide, by decide, by decide, by decide,
        by decide, by decide, by decide, by decide, by decide⟩
      (by decide)⟩

/-- Witness for **C5 (amended)** at the default settings
(rate 0.1, smoothing 8, bounds [0.6, 2.5]), wheel +1, dt 1/16. -/
theorem graphZoom_amended_witness :
    ((3 : Rat)/5 ≤ 5/2) ∧
    (∃ tz1, GraphBehaviourZoom true false false true 1 (1/16) ⟨1/10, 8, 3/5, 5/2⟩ 1 1 =
      (tz1, ImLerp 1 tz1 ((1/16) * 8))) :=
  ⟨by norm_num,
    (graphZoom_amended false false true 1 (1/16) ⟨1/10, 8, 3/5, 5/2⟩ 1 1 (by norm_num)).2.1⟩

/-! ## Rejection equations for `MakeConnection` and claims C1/C10 -/

theorem GetConnections_live {g : ImNodeGraphData} {x : ImPinPtr} {nx px : Nat}
    (hx : PinLiveAt g x nx px) :
    GetConnections g x = (g, (readPin g ⟨nx, x.Direction, px⟩).Connections) := by
  simp only [GetConnections]
  rw [FindPin_live hx]

theorem MakeConnection_sameDir {g : ImNodeGraphData} {a b : ImPinPtr}
    (hd : a.Direction = b.Direction) : MakeConnection g a b = (g, false) := by
  simp only [MakeConnection, if_pos hd]

theorem MakeConnection_sameNode {g : ImNodeGraphData} {a b : ImPinPtr}
    (hd : ¬a.Direction = b.Direction) (hn : a.Node = b.Node) :
    MakeConnection g a b = (g, false) := by
  simp only [MakeConnection, if_neg hd, if_pos hn]

theorem MakeConnection_validator_reject {g : ImNodeGraphData} {a b : ImPinPtr}
    {na pa nb pb : Nat} (ha : PinLiveAt g a na pa) (hb : PinLiveAt g b nb pb)
    (hd : ¬a.Direction = b.Direction) (hn : ¬a.Node = b.Node) (v : ImPinPtr → ImPinPtr → Bool)
    (hv : g.Validation = some v)
    (hrej : v (readPin g ⟨na, a.Direction, pa⟩).toPtr
        (readPin g ⟨nb, b.Direction, pb⟩).toPtr = true) :
    MakeConnection g a b = (g, false) := by
  simp only [MakeConnection, if_neg hd, if_neg hn]
  rw [FindPin_live ha]
  dsimp only
  rw [FindPin_live hb]
  dsimp only
  rw [hv]
  dsimp only
  rw [hrej]
  rfl

/-- **C1**: for live pins, `MakeConnection(a, b)` returns `false` and
returns the graph state exactly as it was — no record inserted, no pin
list modified — when the directions coincide, when the owning nodes
coincide, or when the user-supplied validator rejects the pair by
returning `true`.  (The validator-path pin lookups are pure reads for
live pins, so even they leave the state unchanged.) -/
theorem makeConnection_rejection {g : ImNodeGraphData} {a b : ImPinPtr} {na pa nb pb : Nat}
    (ha : PinLiveAt g a na pa) (hb : PinLiveAt g b nb pb) :
    (a.Direction = b.Direction → MakeConnection g a b = (g, false)) ∧
    (a.Node = b.Node → MakeConnection g a b = (g, false)) ∧
    (∀ v, g.Validation = some v →
      v (readPin g ⟨na, a.Direction, pa⟩).toPtr
        (readPin g ⟨nb, b.Direction, pb⟩).toPtr = true →
      MakeConnection g a b = (g, false)) := by
  refine ⟨fun hd => MakeConnection_sameDir hd, fun hn => ?_, fun v hv hrej => ?_⟩
  · by_cases hd : a.Direction = b.Direction
    · exact MakeConnection_sameDir hd
    · exact MakeConnection_sameNode hd hn
  · by_cases hd : a.Direction = b.Direction
    · exact MakeConnection_sameDir hd
    · by_cases hn : a.Node = b.Node
      · exact MakeConnection_sameNode hd hn
      · exact MakeConnection_validator_reject ha hb hd hn v hv hrej

/-- Witness for **C1**: connecting the fixture's two input pins (same
direction) fails with the graph returned untouched. -/
theorem makeConnection_rejection_witness :
    MakeConnection gFix bPtr b2Ptr = (gFix, false) :=
  (@makeConnection_rejection gFix bPtr b2Ptr 1 0 2 0 (by decide) (by decide)).1 (by decide)

/-- **C10**: for live pins with distinct directions and owning nodes in a
state satisfying the pool bookkeeping invariants, `MakeConnection(a, b)`
succeeds exactly when the graph's validation callback is absent or
returns `false` on the pair; a `true` return from the validator is
treated as rejection. -/
theorem makeConnection_validator_gate {g : ImNodeGraphData} {a b : ImPinPtr}
    {na pa nb pb : Nat}
    (ha : PinLiveAt g a na pa) (hb : PinLiveAt g b nb pb)
    (hnn : na ≠ nb)
    (hida : (readPin g ⟨na, a.Direction, pa⟩).toPtr = a)
    (hidb : (readPin g ⟨nb, b.Direction, pb⟩).toPtr = b)
    (hdir : ¬a.Direction = b.Direction)
    (hnode : ¬a.Node = b.Node)
    (hfb : ∀ i ∈ g.Connections.Freed, i < g.Connections.Data.length)
    (hba : ∀ i ∈ (readPin g ⟨na, a.Direction, pa⟩).Connections, i < g.Connections.Data.length)
    (hbb : ∀ i ∈ (readPin g ⟨nb, b.Direction, pb⟩).Connections, i < g.Connections.Data.length)
    (hfa : ∀ i ∈ g.Connections.Freed,
      i ∉ (readPin g ⟨na, a.Direction, pa⟩).Connections ∧
      i ∉ (readPin g ⟨nb, b.Direction, pb⟩).Connections)
    (hcnta : ∀ x, (readPin g ⟨na, a.Direction, pa⟩).Connections.count x ≤ 1)
    (hcntb : ∀ x, (readPin g ⟨nb, b.Direction, pb⟩).Connections.count x ≤ 1)
    (hshared : ∀ c, c ∈ (readPin g ⟨na, a.Direction, pa⟩).Connections →
      c ∈ (readPin g ⟨nb, b.Direction, pb⟩).Connections →
      ((if (g.Connections.get c).A = b then (g.Connections.get c).B
        else (g.Connections.get c).A) = a ∧
       (if (g.Connections.get c).A = a then (g.Connections.get c).B
        else (g.Connections.get c).A) = b)) :
    (MakeConnection g a b).2 = true ↔
      (g.Validation = none ∨ ∃ v, g.Validation = some v ∧
        v (readPin g ⟨na, a.Direction, pa⟩).toPtr
          (readPin g ⟨nb, b.Direction, pb⟩).toPtr = false) := by
  constructor
  · intro hsucc
    cases hV : g.Validation with
    | none => exact Or.inl rfl
    | some v =>
      refine Or.inr ⟨v, rfl, ?_⟩
      cases hvv : v (readPin g ⟨na, a.Direction, pa⟩).toPtr
          (readPin g ⟨nb, b.Direction, pb⟩).toPtr with
      | false => rfl
      | true =>
        have hrej := MakeConnection_validator_reject ha hb hdir hnode v hV hvv
        rw [hrej] at hsucc
        exact absurd hsucc Bool.false_ne_true
  · intro hOk
    have hval : ∀ v, g.Validation = some v →
        v (readPin g ⟨na, a.Direction, pa⟩).toPtr
          (readPin g ⟨nb, b.Direction, pb⟩).toPtr = false := by
      intro v hv
      rcases hOk with hnone | ⟨v', hv', hfalse⟩
      · rw [hnone] at hv
        cases hv
      · rw [hv'] at hv
        injection hv with h
        exact h ▸ hfalse
    obtain ⟨cid, cA, cB, hsucc, _⟩ := MakeConnection_accept ha hb hnn hida hidb hdir hnode
      hval hfb hba hbb hfa hcnta hcntb hshared
    exact hsucc

/-- Witness for **C10**: on the validator-equipped fixture (the validator
rejects same-direction pairs, so it returns `false` for output-to-input),
connecting the output pin to an input pin succeeds. -/
theorem makeConnection_validator_gate_witness :
    (MakeConnection gFixV aPtr bPtr).2 = true := by
  have hca : ∀ x, (readPin gFixV ⟨0, aPtr.Direction, 0⟩).Connections.count x ≤ 1 := by
    intro x
    have h0 : (readPin gFixV ⟨0, aPtr.Direction, 0⟩).Connections = [] := rfl
    rw [h0]
    simp
  have hcb : ∀ x, (readPin gFixV ⟨1, bPtr.Direction, 0⟩).Connections.count x ≤ 1 := by
    intro x
    have h0 : (readPin gFixV ⟨1, bPtr.Direction, 0⟩).Connections = [] := rfl
    rw [h0]
    simp
  have hsh : ∀ c, c ∈ (readPin gFixV ⟨0, aPtr.Direction, 0⟩).Connections →
      c ∈ (readPin gFixV ⟨1, bPtr.Direction, 0⟩).Connections →
      ((if (gFixV.Connections.get c).A = bPtr then (gFixV.Connections.get c).B
        else (gFixV.Connections.get c).A) = aPtr ∧
       (if (gFixV.Connections.get c).A = aPtr then (gFixV.Connections.get c).B
        else (gFixV.Connections.get c).A) = bPtr) := by
    intro c hc
    have h0 : (readPin gFixV ⟨0, aPtr.Direction, 0⟩).Connections = [] := rfl
    rw [h0] at hc
    exact absurd hc (List.not_mem_nil c)
  refine (@makeConnection_validator_gate gFixV aPtr bPtr 0 0 1 0 (by decide) (by decide)
    (by decide) (by decide) (by decide) (by decide) (by decide) (by decide) (by decide)
    (by decide) (by decide) hca hcb hsh).mpr ?_
  exact Or.inr ⟨valFix, rfl, by decide⟩

/-- **C2**: from a live, invariant-satisfying state, a successful
`MakeConnection(a, b)` inserts a record id that `GetConnections` reports
for both endpoints, and `BreakConnection` of that id removes it from both
endpoints' lists. -/
theorem connection_symmetry {g : ImNodeGraphData} {a b : ImPinPtr} {na pa nb pb : Nat}
    (ha : PinLiveAt g a na pa) (hb : PinLiveAt g b nb pb)
    (hnn : na ≠ nb)
    (hida : (readPin g ⟨na, a.Direction, pa⟩).toPtr = a)
    (hidb : (readPin g ⟨nb, b.Direction, pb⟩).toPtr = b)
    (hdir : ¬a.Direction = b.Direction)
    (hnode : ¬a.Node = b.Node)
    (hval : ∀ v, g.Validation = some v →
      v (readPin g ⟨na, a.Direction, pa⟩).toPtr (readPin g ⟨nb, b.Direction, pb⟩).toPtr = false)
    (hfb : ∀ i ∈ g.Connections.Freed, i < g.Connections.Data.length)
    (hba : ∀ i ∈ (readPin g ⟨na, a.Direction, pa⟩).Connections, i < g.Connections.Data.length)
    (hbb : ∀ i ∈ (readPin g ⟨nb, b.Direction, pb⟩).Connections, i < g.Connections.Data.length)
    (hfa : ∀ i ∈ g.Connections.Freed,
      i ∉ (readPin g ⟨na, a.Direction, pa⟩).Connections ∧
      i ∉ (readPin g ⟨nb, b.Direction, pb⟩).Connections)
    (hcnta : ∀ x, (readPin g ⟨na, a.Direction, pa⟩).Connections.count x ≤ 1)
    (hcntb : ∀ x, (readPin g ⟨nb, b.Direction, pb⟩).Connections.count x ≤ 1)
    (hshared : ∀ c, c ∈ (readPin g ⟨na, a.Direction, pa⟩).Connections →
      c ∈ (readPin g ⟨nb, b.Direction, pb⟩).Connections →
      ((if (g.Connections.get c).A = b then (g.Connections.get c).B
        else (g.Connections.get c).A) = a ∧
       (if (g.Connections.get c).A = a then (g.Connections.get c).B
        else (g.Connections.get c).A) = b)) :
    ∃ cid,
      (MakeConnection g a b).2 = true ∧
      cid ∈ (GetConnections (MakeConnection g a b).1 a).2 ∧
      cid ∈ (GetConnections (MakeConnection g a b).1 b).2 ∧
      (MakeConnection g a b).1.Connections.get cid = ⟨a, b⟩ ∧
      cid ∉ (GetConnections (BreakConnection (MakeConnection g a b).1 cid) a).2 ∧
      cid ∉ (GetConnections (BreakConnection (MakeConnection g a b).1 cid) b).2 := by
  obtain ⟨cid, cA, cB, hsucc, hla, hlb, hita, hitb, hconA, hconB, hniA, hniB, hget,
      hinA, hinB, hflA, hflB⟩ :=
    MakeConnection_accept ha hb hnn hida hidb hdir hnode hval hfb hba hbb hfa hcnta hcntb hshared
  obtain ⟨hlfa, hlfb, hfeA, hfeB, hbea, hbeb, hpta, hptb⟩ :=
    BreakConnection_spec hla hlb hnn hget
  have hgA : (GetConnections (MakeConnection g a b).1 a).2 = cA ++ [cid] := by
    rw [GetConnections_live hla]
    exact hconA
  have hgB : (GetConnections (MakeConnection g a b).1 b).2 = cB ++ [cid] := by
    rw [GetConnections_live hlb]
    exact hconB
  have hgA' : (GetConnections (BreakConnection (MakeConnection g a b).1 cid) a).2 =
      findEraseUnsorted (cA ++ [cid]) cid := by
    rw [GetConnections_live hlfa]
    dsimp only
    rw [hfeA, hconA]
  have hgB' : (GetConnections (BreakConnection (MakeConnection g a b).1 cid) b).2 =
      findEraseUnsorted (cB ++ [cid]) cid := by
    rw [GetConnections_live hlfb]
    dsimp only
    rw [hfeB, hconB]
  refine ⟨cid, hsucc, ?_, ?_, hget, ?_, ?_⟩
  · rw [hgA]
    exact List.mem_append.mpr (Or.inr (by simp))
  · rw [hgB]
    exact List.mem_append.mpr (Or.inr (by simp))
  · rw [hgA']
    refine findEraseUnsorted_not_mem_self ?_
    rw [List.count_append]
    have h0 : cA.count cid = 0 := List.count_eq_zero.mpr hniA
    simp [h0]
  · rw [hgB']
    refine findEraseUnsorted_not_mem_self ?_
    rw [List.count_append]
    have h0 : cB.count cid = 0 := List.count_eq_zero.mpr hniB
    simp [h0]

/-- Witness for **C2**: on the fixture, connecting the output pin to an
input pin yields an id reported for both pins, which disappears from both
after `BreakConnection`. -/
theorem connection_symmetry_witness :
    ∃ cid,
      cid ∈ (GetConnections (MakeConnection gFix aPtr bPtr).1 aPtr).2 ∧
      cid ∈ (GetConnections (MakeConnection gFix aPtr bPtr).1 bPtr).2 ∧
      cid ∉ (GetConnections (BreakConnection (MakeConnection gFix aPtr bPtr).1 cid) aPtr).2 ∧
      cid ∉ (GetConnections (BreakConnection (MakeConnection gFix aPtr bPtr).1 cid) bPtr).2 := by
  have hca : ∀ x, (readPin gFix ⟨0, aPtr.Direction, 0⟩).Connections.count x ≤ 1 := by
    intro x
    have h0 : (readPin gFix ⟨0, aPtr.Direction, 0⟩).Connections = [] := rfl
    rw [h0]
    simp
  have hcb : ∀ x, (readPin gFix ⟨1, bPtr.Direction, 0⟩).Connections.count x ≤ 1 := by
    intro x
    have h0 : (readPin gFix ⟨1, bPtr.Direction, 0⟩).Connections = [] := rfl
    rw [h0]
    simp
  have hsh : ∀ c, c ∈ (readPin gFix ⟨0, aPtr.Direction, 0⟩).Connections →
      c ∈ (readPin gFix ⟨1, bPtr.Direction, 0⟩).Connections →
      ((if (gFix.Connections.get c).A = bPtr then (gFix.Connections.get c).B
        else (gFix.Connections.get c).A) = aPtr ∧
       (if (gFix.Connections.get c).A = aPtr then (gFix.Connections.get c).B
        else (gFix.Connections.get c).A) = bPtr) := by
    intro c hc
    have h0 : (readPin gFix ⟨0, aPtr.Direction, 0⟩).Connections = [] := rfl
    rw [h0] at hc
    exact absurd hc (List.not_mem_nil c)
  obtain ⟨cid, _, hm1, hm2, _, hn1, hn2⟩ := @connection_symmetry gFix aPtr bPtr 0 0 1 0
    (by decide) (by decide) (by decide) (by decide) (by decide) (by decide) (by decide)
    (fun v hv => nomatch hv) (by decide) (by decide) (by decide) (by decide) hca hcb hsh
  exact ⟨cid, hm1, hm2, hn1, hn2⟩

/-- **C3**: a successful `MakeConnection` involving an input pin — passed
as either argument (`PinHead` passes the gesture's own pin first, the
branch at `imnode_graph.cpp` line 961; `BeginPinData` targets pass it
second, line 966) — first severs any prior connections of that input pin,
leaving it with exactly the one new id; the last conjunct shows the
fixture's output pin holding two connection ids at once after two
successful connections. -/
theorem input_pin_exclusivity {g : ImNodeGraphData} {a b : ImPinPtr} {na pa nb pb : Nat}
    (ha : PinLiveAt g a na pa) (hb : PinLiveAt g b nb pb)
    (hnn : na ≠ nb)
    (hida : (readPin g ⟨na, a.Direction, pa⟩).toPtr = a)
    (hidb : (readPin g ⟨nb, b.Direction, pb⟩).toPtr = b)
    (hdir : ¬a.Direction = b.Direction)
    (hnode : ¬a.Node = b.Node)
    (hval : ∀ v, g.Validation = some v →
      v (readPin g ⟨na, a.Direction, pa⟩).toPtr (readPin g ⟨nb, b.Direction, pb⟩).toPtr = false)
    (hfb : ∀ i ∈ g.Connections.Freed, i < g.Connections.Data.length)
    (hba : ∀ i ∈ (readPin g ⟨na, a.Direction, pa⟩).Connections, i < g.Connections.Data.length)
    (hbb : ∀ i ∈ (readPin g ⟨nb, b.Direction, pb⟩).Connections, i < g.Connections.Data.length)
    (hfa : ∀ i ∈ g.Connections.Freed,
      i ∉ (readPin g ⟨na, a.Direction, pa⟩).Connections ∧
      i ∉ (readPin g ⟨nb, b.Direction, pb⟩).Connections)
    (hcnta : ∀ x, (readPin g ⟨na, a.Direction, pa⟩).Connections.count x ≤ 1)
    (hcntb : ∀ x, (readPin g ⟨nb, b.Direction, pb⟩).Connections.count x ≤ 1)
    (hshared : ∀ c, c ∈ (readPin g ⟨na, a.Direction, pa⟩).Connections →
      c ∈ (readPin g ⟨nb, b.Direction, pb⟩).Connections →
      ((if (g.Connections.get c).A = b then (g.Connections.get c).B
        else (g.Connections.get c).A) = a ∧
       (if (g.Connections.get c).A = a then (g.Connections.get c).B
        else (g.Connections.get c).A) = b)) :
    (a.Direction = ImPinDirection_Input →
      ∃ cid, (MakeConnection g a b).2 = true ∧
        (GetConnections (MakeConnection g a b).1 a).2 = [cid]) ∧
    (b.Direction = ImPinDirection_Input →
      ∃ cid, (MakeConnection g a b).2 = true ∧
        (GetConnections (MakeConnection g a b).1 b).2 = [cid]) ∧
    (GetConnections (MakeConnection (MakeConnection gFix aPtr bPtr).1 aPtr b2Ptr).1 aPtr).2 =
      [0, 1] := by
  obtain ⟨cid, cA, cB, hsucc, hla, hlb, hita, hitb, hconA, hconB, hniA, hniB, hget,
      hinA, hinB, hflA, hflB⟩ :=
    MakeConnection_accept ha hb hnn hida hidb hdir hnode hval hfb hba hbb hfa hcnta hcntb hshared
  refine ⟨fun hain => ⟨cid, hsucc, ?_⟩, fun hbin => ⟨cid, hsucc, ?_⟩, by decide⟩
  · rw [GetConnections_live hla]
    dsimp only
    rw [hconA, hinA hain]
    rfl
  · rw [GetConnections_live hlb]
    dsimp only
    rw [hconB, hinB hbin]
    rfl

/-- Witness for **C3**: connecting the fixture's output pin and input pin
`20` succeeds and leaves the input pin with exactly the new id — both
with the input pin passed second and with it passed first. -/
theorem input_pin_exclusivity_witness :
    (∃ cid, (MakeConnection gFix aPtr bPtr).2 = true ∧
      (GetConnections (MakeConnection gFix aPtr bPtr).1 bPtr).2 = [cid]) ∧
    (∃ cid, (MakeConnection gFix bPtr aPtr).2 = true ∧
      (GetConnections (MakeConnection gFix bPtr aPtr).1 bPtr).2 = [cid]) := by
  have hca : ∀ x, (readPin gFix ⟨0, aPtr.Direction, 0⟩).Connections.count x ≤ 1 := by
    intro x
    have h0 : (readPin gFix ⟨0, aPtr.Direction, 0⟩).Connections = [] := rfl
    rw [h0]
    simp
  have hcb : ∀ x, (readPin gFix ⟨1, bPtr.Direction, 0⟩).Connections.count x ≤ 1 := by
    intro x
    have h0 : (readPin gFix ⟨1, bPtr.Direction, 0⟩).Connections = [] := rfl
    rw [h0]
    simp
  have hsh : ∀ c, c ∈ (readPin gFix ⟨0, aPtr.Direction, 0⟩).Connections →
      c ∈ (readPin gFix ⟨1, bPtr.Direction, 0⟩).Connections →
      ((if (gFix.Connections.get c).A = bPtr then (gFix.Connections.get c).B
        else (gFix.Connections.get c).A) = aPtr ∧
       (if (gFix.Connections.get c).A = aPtr then (gFix.Connections.get c).B
        else (gFix.Connections.get c).A) = bPtr) := by
    intro c hc
    have h0 : (readPin gFix ⟨0, aPtr.Direction, 0⟩).Connections = [] := rfl
    rw [h0] at hc
    exact absurd hc (List.not_mem_nil c)
  have hsh' : ∀ c, c ∈ (readPin gFix ⟨1, bPtr.Direction, 0⟩).Connections →
      c ∈ (readPin gFix ⟨0, aPtr.Direction, 0⟩).Connections →
      ((if (gFix.Connections.get c).A = aPtr then (gFix.Connections.get c).B
        else (gFix.Connections.get c).A) = bPtr ∧
       (if (gFix.Connections.get c).A = bPtr then (gFix.Connections.get c).B
        else (gFix.Connections.get c).A) = aPtr) := by
    intro c hc
    have h0 : (readPin gFix ⟨1, bPtr.Direction, 0⟩).Connections = [] := rfl
    rw [h0] at hc
    exact absurd hc (List.not_mem_nil c)
  constructor
  · exact (@input_pin_exclusivity gFix aPtr bPtr 0 0 1 0 (by decide) (by decide) (by decide)
      (by decide) (by decide) (by decide) (by decide) (fun v hv => nomatch hv) (by decide)
      (by decide) (by decide) (by decide) hca hcb hsh).2.1 (by decide)
  · exact (@input_pin_exclusivity gFix bPtr aPtr 1 0 0 0 (by decide) (by decide) (by decide)
      (by decide) (by decide) (by decide) (by decide) (fun v hv => nomatch hv) (by decide)
      (by decide) (by decide) (by decide) hcb hca hsh').1 (by decide)

/-- **C9**: `BeginPin`'s record effect reports "changed" exactly when the
pin's pending new- or erased-connection list is non-empty, resets both
per-frame flags to false and leaves the lists untouched; `EndPin` clears
exactly the lists whose per-frame flag was not set during the frame; and
the flags are set to true by the frame's connection gestures — a
successful `MakeConnection` sets both endpoints' new-connection flags and
`BreakConnection` sets both endpoints' erased-connection flags. -/
theorem pin_change_tracking :
    (∀ pin node id ty dir flags,
      ((BeginPinData pin node id ty dir flags).2 = true ↔
        (pin.NewConnections ≠ [] ∨ pin.ErasedConnections ≠ [])) ∧
      (BeginPinData pin node id ty dir flags).1.BNewConnections = false ∧
      (BeginPinData pin node id ty dir flags).1.BErasedConnections = false ∧
      (BeginPinData pin node id ty dir flags).1.NewConnections = pin.NewConnections ∧
      (BeginPinData pin node id ty dir flags).1.ErasedConnections = pin.ErasedConnections) ∧
    (∀ pin, (EndPinData pin).NewConnections =
        (if pin.BNewConnections = false then [] else pin.NewConnections) ∧
      (EndPinData pin).ErasedConnections =
        (if pin.BErasedConnections = false then [] else pin.ErasedConnections)) ∧
    (∀ (g : ImNodeGraphData) (a b : ImPinPtr) (na pa nb pb : Nat),
      PinLiveAt g a na pa → PinLiveAt g b nb pb → na ≠ nb →
      (readPin g ⟨na, a.Direction, pa⟩).toPtr = a →
      (readPin g ⟨nb, b.Direction, pb⟩).toPtr = b →
      ¬a.Direction = b.Direction → ¬a.Node = b.Node →
      (∀ v, g.Validation = some v →
        v (readPin g ⟨na, a.Direction, pa⟩).toPtr
          (readPin g ⟨nb, b.Direction, pb⟩).toPtr = false) →
      (∀ i ∈ g.Connections.Freed, i < g.Connections.Data.length) →
      (∀ i ∈ (readPin g ⟨na, a.Direction, pa⟩).Connections, i < g.Connections.Data.length) →
      (∀ i ∈ (readPin g ⟨nb, b.Direction, pb⟩).Connections, i < g.Connections.Data.length) →
      (∀ i ∈ g.Connections.Freed,
        i ∉ (readPin g ⟨na, a.Direction, pa⟩).Connections ∧
        i ∉ (readPin g ⟨nb, b.Direction, pb⟩).Connections) →
      (∀ x, (readPin g ⟨na, a.Direction, pa⟩).Connections.count x ≤ 1) →
      (∀ x, (readPin g ⟨nb, b.Direction, pb⟩).Connections.count x ≤ 1) →
      (∀ c, c ∈ (readPin g ⟨na, a.Direction, pa⟩).Connections →
        c ∈ (readPin g ⟨nb, b.Direction, pb⟩).Connections →
        ((if (g.Connections.get c).A = b then (g.Connections.get c).B
          else (g.Connections.get c).A) = a ∧
         (if (g.Connections.get c).A = a then (g.Connections.get c).B
          else (g.Connections.get c).A) = b)) →
      (readPin (MakeConnection g a b).1 ⟨na, a.Direction, pa⟩).BNewConnections = true ∧
      (readPin (MakeConnection g a b).1 ⟨nb, b.Direction, pb⟩).BNewConnections = true) ∧
    (∀ (g : ImNodeGraphData) (a b : ImPinPtr) (na pa nb pb : Nat) (id : ImGuiID),
      PinLiveAt g a na pa → PinLiveAt g b nb pb → na ≠ nb →
      g.Connections.get id = ⟨a, b⟩ →
      (readPin (BreakConnection g id) ⟨na, a.Direction, pa⟩).BErasedConnections = true ∧
      (readPin (BreakConnection g id) ⟨nb, b.Direction, pb⟩).BErasedConnections = true) := by
  refine ⟨?_, ?_, ?_, ?_⟩
  · intro pin node id ty dir flags
    refine ⟨?_, rfl, rfl, rfl, rfl⟩
    simp [BeginPinData]
  · intro pin
    by_cases h1 : pin.BNewConnections = false <;>
      by_cases h2 : pin.BErasedConnections = false <;>
        constructor <;> simp [EndPinData, h1, h2]
  · intro g a b na pa nb pb h1 h2 h3 h4 h5 h6 h7 h8 h9 h10 h11 h12 h13 h14 h15
    obtain ⟨cid, cA, cB, _, _, _, _, _, _, _, _, _, _, _, _, hflA, hflB⟩ :=
      MakeConnection_accept h1 h2 h3 h4 h5 h6 h7 h8 h9 h10 h11 h12 h13 h14 h15
    exact ⟨hflA, hflB⟩
  · intro g a b na pa nb pb id h1 h2 h3 h4
    obtain ⟨_, _, _, _, hbea, hbeb, _, _⟩ := BreakConnection_spec h1 h2 h3 h4
    exact ⟨hbea, hbeb⟩

/-- Witness for **C9**: a pin with a pending new-connection entry reports
"changed" at `BeginPin`, and connecting the fixture's pins sets the
output pin's per-frame new-connection flag. -/
theorem pin_change_tracking_witness :
    (BeginPinData pinChanged 2 20 0 ImPinDirection_Input 0).2 = true ∧
    (readPin (MakeConnection gFix aPtr bPtr).1 ⟨0, aPtr.Direction, 0⟩).BNewConnections = true := by
  constructor
  · exact (pin_change_tracking.1 pinChanged 2 20 0 ImPinDirection_Input 0).1.mpr
      (Or.inl (by decide))
  · have hca : ∀ x, (readPin gFix ⟨0, aPtr.Direction, 0⟩).Connections.count x ≤ 1 := by
      intro x
      have h0 : (readPin gFix ⟨0, aPtr.Direction, 0⟩).Connections = [] := rfl
      rw [h0]
      simp
    have hcb : ∀ x, (readPin gFix ⟨1, bPtr.Direction, 0⟩).Connections.count x ≤ 1 := by
      intro x
      have h0 : (readPin gFix ⟨1, bPtr.Direction, 0⟩).Connections = [] := rfl
      rw [h0]
      simp
    have hsh : ∀ c, c ∈ (readPin gFix ⟨0, aPtr.Direction, 0⟩).Connections →
        c ∈ (readPin gFix ⟨1, bPtr.Direction, 0⟩).Connections →
        ((if (gFix.Connections.get c).A = bPtr then (gFix.Connections.get c).B
          else (gFix.Connections.get c).A) = aPtr ∧
         (if (gFix.Connections.get c).A = aPtr then (gFix.Connections.get c).B
          else (gFix.Connections.get c).A) = bPtr) := by
      intro c hc
      have h0 : (readPin gFix ⟨0, aPtr.Direction, 0⟩).Connections = [] := rfl
      rw [h0] at hc
      exact absurd hc (List.not_mem_nil c)
    exact (pin_change_tracking.2.2.1 gFix aPtr bPtr 0 0 1 0 (by decide) (by decide) (by decide)
      (by decide) (by decide) (by decide) (by decide) (fun v hv => nomatch hv) (by decide)
      (by decide) (by decide) (by decide) hca hcb hsh).1

/-! ## Stale-connection pruning: `CleanupConnection` / `CheckConnectionValidity` -/

theorem setNodeSlot_other {g : ImNodeGraphData} {q : ImPinPtr} {nq pq : Nat}
    (h : PinLiveAt g q nq pq) {ni : Nat} (hne : ni ≠ nq) (v : ImNodeData) :
    PinLiveAt ({ g with Nodes := { g.Nodes with Data := g.Nodes.Data.set ni v } } :
      ImNodeGraphData) q nq pq ∧
    readPin ({ g with Nodes := { g.Nodes with Data := g.Nodes.Data.set ni v } } :
      ImNodeGraphData) ⟨nq, q.Direction, pq⟩ = readPin g ⟨nq, q.Direction, pq⟩ := by
  obtain ⟨hn, hp⟩ := h
  have hg : (g.Nodes.Data.set ni v).getD nq default = g.Nodes.Data.getD nq default :=
    getD_set_ne _ _ _ _ _ hne
  constructor
  · constructor
    · exact ⟨hn.1, by simpa using hn.2.1, by simpa using hn.2.2.1, hn.2.2.2.1, hn.2.2.2.2⟩
    · simp only [PinLiveAt]
      rw [hg]
      exact hp
  · simp only [readPin]
    rw [hg]

theorem nodePinFindErase_other {g : ImNodeGraphData} {q : ImPinPtr} {nq pq : Nat}
    (h : PinLiveAt g q nq pq) {ni : Nat} (hne : ni ≠ nq) (dir : Bool) (pinId connId : ImGuiID) :
    PinLiveAt (nodePinFindErase g ni dir pinId connId) q nq pq ∧
    readPin (nodePinFindErase g ni dir pinId connId) ⟨nq, q.Direction, pq⟩ =
      readPin g ⟨nq, q.Direction, pq⟩ := by
  simp only [nodePinFindErase]
  rcases hgb : (pinPoolOf (g.Nodes.Data.getD ni default) dir).getById pinId with ⟨pins1, pi⟩
  dsimp only
  exact setNodeSlot_other ⟨h.1, h.2⟩ hne _

theorem nodePinFindErase_Connections (g : ImNodeGraphData) (ni : Nat) (dir : Bool)
    (pinId connId : ImGuiID) :
    (nodePinFindErase g ni dir pinId connId).Connections = g.Connections := by
  simp only [nodePinFindErase]

theorem nodePinFindErase_live {g : ImNodeGraphData} {x : ImPinPtr} {nx px : Nat}
    (hx : PinLiveAt g x nx px) (connId : ImGuiID) :
    nodePinFindErase g nx x.Direction x.Pin connId =
      modifyPin g ⟨nx, x.Direction, px⟩
        (fun p => { p with Connections := p.Connections.erase connId }) := by
  simp only [nodePinFindErase, modifyPin]
  rw [getById_live hx.2]

theorem isActive_erase_self {T : Type} [Inhabited T] (l : ImObjectList T) (id : ImGuiID) :
    (l.Erase id).isActive id = false := by
  simp only [ImObjectList.isActive, ImObjectList.Erase]
  by_cases h : id < l.Active.length
  · exact getD_set_self _ _ _ _ h
  · rw [List.set_eq_of_length_le (Nat.le_of_not_lt h)]
    exact getD_eq_default_of_le _ _ _ (Nat.le_of_not_lt h)

/-- `CleanupConnection` when endpoint `A`'s node is gone and `B`'s pin is
live: erase the record and drop the id from `B`'s list only. -/
theorem CleanupConnection_A_gone {g : ImNodeGraphData} {x y : ImPinPtr} {ny py : Nat}
    (id : ImGuiID) (hxgone : g.Nodes.contains x.Node = false) (hy : PinLiveAt g y ny py) :
    (CleanupConnection g id ⟨x, y⟩).Connections = g.Connections.Erase id ∧
    PinLiveAt (CleanupConnection g id ⟨x, y⟩) y ny py ∧
    (readPin (CleanupConnection g id ⟨x, y⟩) ⟨ny, y.Direction, py⟩).Connections =
      (readPin g ⟨ny, y.Direction, py⟩).Connections.erase id := by
  have heta : ({ g with Nodes := g.Nodes } : ImNodeGraphData) = g := rfl
  have hmod := nodePinFindErase_live hy id
  simp only [CleanupConnection]
  rw [hxgone, if_neg Bool.false_ne_true]
  try dsimp only
  rw [contains_of_live hy.1, if_pos rfl, getById_live hy.1]
  try dsimp only
  rw [heta]
  rw [if_neg Bool.false_ne_true]
  rw [if_pos rfl]
  rw [hmod]
  refine ⟨?_, ?_, ?_⟩
  · dsimp only
    rw [modifyPin_Connections]
  · exact PinLiveAt_modifyPin hy ⟨ny, y.Direction, py⟩
      (fun p => { p with Connections := p.Connections.erase id })
  · rw [readPin_setConnections]
    rw [readPin_modifyPin_self _ (AddrLive_of_PinLiveAt hy)]

/-- `CleanupConnection` when endpoint `B`'s node is gone and `A`'s pin is
live: erase the record and drop the id from `A`'s list only. -/
theorem CleanupConnection_B_gone {g : ImNodeGraphData} {x y : ImPinPtr} {nx px : Nat}
    (id : ImGuiID) (hx : PinLiveAt g x nx px) (hygone : g.Nodes.contains y.Node = false) :
    (CleanupConnection g id ⟨x, y⟩).Connections = g.Connections.Erase id ∧
    PinLiveAt (CleanupConnection g id ⟨x, y⟩) x nx px ∧
    (readPin (CleanupConnection g id ⟨x, y⟩) ⟨nx, x.Direction, px⟩).Connections =
      (readPin g ⟨nx, x.Direction, px⟩).Connections.erase id := by
  have heta : ({ g with Nodes := g.Nodes } : ImNodeGraphData) = g := rfl
  have hmod := nodePinFindErase_live hx id
  simp only [CleanupConnection]
  rw [contains_of_live hx.1, if_pos rfl, getById_live hx.1]
  try dsimp only
  rw [heta]
  rw [hygone, if_neg Bool.false_ne_true]
  try dsimp only
  rw [if_pos rfl]
  rw [if_neg Bool.false_ne_true]
  rw [hmod]
  refine ⟨?_, ?_, ?_⟩
  · dsimp only
    rw [modifyPin_Connections]
  · exact PinLiveAt_modifyPin hx ⟨nx, x.Direction, px⟩
      (fun p => { p with Connections := p.Connections.erase id })
  · rw [readPin_setConnections]
    rw [readPin_modifyPin_self _ (AddrLive_of_PinLiveAt hx)]

/-- `CheckConnectionValidity` reports stale and cleans up when endpoint
`A`'s node is no longer in the pool. -/
theorem CheckConnectionValidity_A_gone {g : ImNodeGraphData} {x y : ImPinPtr} {ny py : Nat}
    (id : ImGuiID) (hxgone : g.Nodes.contains x.Node = false) (hy : PinLiveAt g y ny py) :
    CheckConnectionValidity g id ⟨x, y⟩ = (CleanupConnection g id ⟨x, y⟩, true) := by
  have heta : ({ g with Nodes := g.Nodes } : ImNodeGraphData) = g := rfl
  simp only [CheckConnectionValidity]
  rw [hxgone, if_neg Bool.false_ne_true]
  try dsimp only
  rw [contains_of_live hy.1, if_pos rfl, getById_live hy.1]
  try dsimp only
  rw [heta]
  rw [if_pos Bool.false_ne_true]

/-- `CheckConnectionValidity` reports stale and cleans up when endpoint
`B`'s node is no longer in the pool. -/
theorem CheckConnectionValidity_B_gone {g : ImNodeGraphData} {x y : ImPinPtr} {nx px : Nat}
    (id : ImGuiID) (hx : PinLiveAt g x nx px) (hygone : g.Nodes.contains y.Node = false) :
    CheckConnectionValidity g id ⟨x, y⟩ = (CleanupConnection g id ⟨x, y⟩, true) := by
  have heta : ({ g with Nodes := g.Nodes } : ImNodeGraphData) = g := rfl
  simp only [CheckConnectionValidity]
  rw [contains_of_live hx.1, if_pos rfl, getById_live hx.1]
  try dsimp only
  rw [heta]
  rw [hygone, if_neg Bool.false_ne_true]
  try dsimp only
  rw [if_neg (not_not_intro rfl)]
  rw [if_pos Bool.false_ne_true]

/-- `CleanupConnection` with both endpoint nodes present and `B`'s pin
live at a different node slot: erase the record and drop the id from
`B`'s list; the `A`-side `find_erase` touches only `A`'s node slot. -/
theorem CleanupConnection_both_alive_B {g : ImNodeGraphData} {x y : ImPinPtr}
    {nx ny py : Nat} (id : ImGuiID) (hxn : PoolLiveAt g.Nodes x.Node nx)
    (hy : PinLiveAt g y ny py) (hnn : nx ≠ ny) :
    (CleanupConnection g id ⟨x, y⟩).Connections = g.Connections.Erase id ∧
    PinLiveAt (CleanupConnection g id ⟨x, y⟩) y ny py ∧
    (readPin (CleanupConnection g id ⟨x, y⟩) ⟨ny, y.Direction, py⟩).Connections =
      (readPin g ⟨ny, y.Direction, py⟩).Connections.erase id := by
  have heta : ({ g with Nodes := g.Nodes } : ImNodeGraphData) = g := rfl
  obtain ⟨hlc, hrc⟩ := nodePinFindErase_other hy hnn x.Direction x.Pin id
  have hmod := nodePinFindErase_live hlc id
  simp only [CleanupConnection]
  try dsimp only
  rw [contains_of_live hxn, if_pos rfl, getById_live hxn]
  try dsimp only
  rw [heta]
  rw [contains_of_live hy.1, if_pos rfl, getById_live hy.1]
  try dsimp only
  rw [heta]
  rw [if_pos rfl]
  rw [if_pos rfl]
  rw [hmod]
  refine ⟨?_, ?_, ?_⟩
  · dsimp only
    rw [modifyPin_Connections, nodePinFindErase_Connections]
  · exact PinLiveAt_modifyPin hlc ⟨ny, y.Direction, py⟩
      (fun p => { p with Connections := p.Connections.erase id })
  · rw [readPin_setConnections]
    rw [readPin_modifyPin_self _ (AddrLive_of_PinLiveAt hlc)]
    dsimp only
    rw [hrc]

/-- `CleanupConnection` with both endpoint nodes present and `A`'s pin
live at a different node slot: erase the record and drop the id from
`A`'s list; the `B`-side `find_erase` touches only `B`'s node slot. -/
theorem CleanupConnection_both_alive_A {g : ImNodeGraphData} {x y : ImPinPtr}
    {nx px ny : Nat} (id : ImGuiID) (hx : PinLiveAt g x nx px)
    (hyn : PoolLiveAt g.Nodes y.Node ny) (hnn : ny ≠ nx) :
    (CleanupConnection g id ⟨x, y⟩).Connections = g.Connections.Erase id ∧
    PinLiveAt (CleanupConnection g id ⟨x, y⟩) x nx px ∧
    (readPin (CleanupConnection g id ⟨x, y⟩) ⟨nx, x.Direction, px⟩).Connections =
      (readPin g ⟨nx, x.Direction, px⟩).Connections.erase id := by
  have heta : ({ g with Nodes := g.Nodes } : ImNodeGraphData) = g := rfl
  have hmod := nodePinFindErase_live hx id
  have hcx : PinLiveAt (modifyPin g ⟨nx, x.Direction, px⟩
      (fun p => { p with Connections := p.Connections.erase id })) x nx px :=
    PinLiveAt_modifyPin hx _ _
  simp only [CleanupConnection]
  try dsimp only
  rw [contains_of_live hx.1, if_pos rfl, getById_live hx.1]
  try dsimp only
  rw [heta]
  rw [contains_of_live hyn, if_pos rfl, getById_live hyn]
  try dsimp only
  rw [heta]
  rw [if_pos rfl]
  rw [if_pos rfl]
  rw [hmod]
  refine ⟨?_, ?_, ?_⟩
  · dsimp only
    rw [nodePinFindErase_Connections, modifyPin_Connections]
  · exact (nodePinFindErase_other hcx hnn y.Direction y.Pin id).1
  · rw [readPin_setConnections]
    rw [(nodePinFindErase_other hcx hnn y.Direction y.Pin id).2]
    rw [readPin_modifyPin_self _ (AddrLive_of_PinLiveAt hx)]

/-- `CheckConnectionValidity` reports stale and cleans up when `A`'s pin
id is no longer in its (present) node's matching pin pool. -/
theorem CheckConnectionValidity_pinA_gone {g : ImNodeGraphData} {x y : ImPinPtr}
    {nx ny py : Nat} (id : ImGuiID) (hxn : PoolLiveAt g.Nodes x.Node nx)
    (hy : PinLiveAt g y ny py)
    (hpx : (pinPoolOf (g.Nodes.Data.getD nx default) x.Direction).contains x.Pin = false) :
    CheckConnectionValidity g id ⟨x, y⟩ = (CleanupConnection g id ⟨x, y⟩, true) := by
  have heta : ({ g with Nodes := g.Nodes } : ImNodeGraphData) = g := rfl
  simp only [CheckConnectionValidity]
  try dsimp only
  rw [contains_of_live hxn, if_pos rfl, getById_live hxn]
  try dsimp only
  rw [heta]
  rw [contains_of_live hy.1, if_pos rfl, getById_live hy.1]
  try dsimp only
  rw [heta]
  rw [if_neg (not_not_intro rfl)]
  rw [if_neg (not_not_intro rfl)]
  cases hdx : x.Direction with
  | true =>
    have hpx' : (g.Nodes.Data.getD nx default).OutputPins.contains x.Pin = false := by
      rw [hdx] at hpx
      exact hpx
    rw [if_pos ⟨rfl, hpx'⟩]
  | false =>
    have hpx' : (g.Nodes.Data.getD nx default).InputPins.contains x.Pin = false := by
      rw [hdx] at hpx
      exact hpx
    rw [if_neg (fun h => Bool.false_ne_true h.1)]
    rw [if_pos ⟨rfl, hpx'⟩]

/-- `CheckConnectionValidity` reports stale and cleans up when `A`'s pin
is present but `B`'s pin id is no longer in its (present) node's matching
pin pool. -/
theorem CheckConnectionValidity_pinB_gone {g : ImNodeGraphData} {x y : ImPinPtr}
    {nx px ny : Nat} (id : ImGuiID) (hx : PinLiveAt g x nx px)
    (hyn : PoolLiveAt g.Nodes y.Node ny)
    (hpy : (pinPoolOf (g.Nodes.Data.getD ny default) y.Direction).contains y.Pin = false) :
    CheckConnectionValidity g id ⟨x, y⟩ = (CleanupConnection g id ⟨x, y⟩, true) := by
  have heta : ({ g with Nodes := g.Nodes } : ImNodeGraphData) = g := rfl
  have hpxT := contains_of_live hx.2
  simp only [CheckConnectionValidity]
  try dsimp only
  rw [contains_of_live hx.1, if_pos rfl, getById_live hx.1]
  try dsimp only
  rw [heta]
  rw [contains_of_live hyn, if_pos rfl, getById_live hyn]
  try dsimp only
  rw [heta]
  rw [if_neg (not_not_intro rfl)]
  rw [if_neg (not_not_intro rfl)]
  cases hdx : x.Direction with
  | true =>
    have hpxT' : (g.Nodes.Data.getD nx default).OutputPins.contains x.Pin = true := by
      rw [hdx] at hpxT
      exact hpxT
    rw [if_neg (fun h => Bool.false_ne_true (hpxT'.symm.trans h.2).symm)]
    rw [if_neg (fun h => Bool.false_ne_true h.1.symm)]
    cases hdy : y.Direction with
    | true =>
      have hpy' : (g.Nodes.Data.getD ny default).OutputPins.contains y.Pin = false := by
        rw [hdy] at hpy
        exact hpy
      rw [if_pos ⟨rfl, hpy'⟩]
    | false =>
      have hpy' : (g.Nodes.Data.getD ny default).InputPins.contains y.Pin = false := by
        rw [hdy] at hpy
        exact hpy
      rw [if_neg (fun h => Bool.false_ne_true h.1)]
      rw [if_pos ⟨rfl, hpy'⟩]
  | false =>
    have hpxT' : (g.Nodes.Data.getD nx default).InputPins.contains x.Pin = true := by
      rw [hdx] at hpxT
      exact hpxT
    rw [if_neg (fun h => Bool.false_ne_true h.1)]
    rw [if_neg (fun h => Bool.false_ne_true (hpxT'.symm.trans h.2).symm)]
    cases hdy : y.Direction with
    | true =>
      have hpy' : (g.Nodes.Data.getD ny default).OutputPins.contains y.Pin = false := by
        rw [hdy] at hpy
        exact hpy
      rw [if_pos ⟨rfl, hpy'⟩]
    | false =>
      have hpy' : (g.Nodes.Data.getD ny default).InputPins.contains y.Pin = false := by
        rw [hdy] at hpy
        exact hpy
      rw [if_neg (fun h => Bool.false_ne_true h.1)]
      rw [if_pos ⟨rfl, hpy'⟩]

/-- **C8**: the draw pass's per-connection validity check detects a stale
endpoint — its node id gone from the node pool, or its pin id gone from
that node's direction-matching pin pool — reports it (`true`) without
surfacing any error (the function is total and returns only a flag),
deactivates the stored record, and erases the connection id from the
back-reference list of every endpoint pin that still exists. -/
theorem stale_connection_pruning :
    (∀ (g : ImNodeGraphData) (x y : ImPinPtr) (ny py : Nat) (id : ImGuiID),
      g.Nodes.contains x.Node = false → PinLiveAt g y ny py →
      (readPin g ⟨ny, y.Direction, py⟩).Connections.count id ≤ 1 →
      ((CheckConnectionValidity g id ⟨x, y⟩).2 = true ∧
       (CheckConnectionValidity g id ⟨x, y⟩).1.Connections.isActive id = false ∧
       id ∉ (readPin (CheckConnectionValidity g id ⟨x, y⟩).1
         ⟨ny, y.Direction, py⟩).Connections)) ∧
    (∀ (g : ImNodeGraphData) (x y : ImPinPtr) (nx px : Nat) (id : ImGuiID),
      PinLiveAt g x nx px → g.Nodes.contains y.Node = false →
      (readPin g ⟨nx, x.Direction, px⟩).Connections.count id ≤ 1 →
      ((CheckConnectionValidity g id ⟨x, y⟩).2 = true ∧
       (CheckConnectionValidity g id ⟨x, y⟩).1.Connections.isActive id = false ∧
       id ∉ (readPin (CheckConnectionValidity g id ⟨x, y⟩).1
         ⟨nx, x.Direction, px⟩).Connections)) ∧
    (∀ (g : ImNodeGraphData) (x y : ImPinPtr) (nx ny py : Nat) (id : ImGuiID),
      PoolLiveAt g.Nodes x.Node nx → PinLiveAt g y ny py → nx ≠ ny →
      (pinPoolOf (g.Nodes.Data.getD nx default) x.Direction).contains x.Pin = false →
      (readPin g ⟨ny, y.Direction, py⟩).Connections.count id ≤ 1 →
      ((CheckConnectionValidity g id ⟨x, y⟩).2 = true ∧
       (CheckConnectionValidity g id ⟨x, y⟩).1.Connections.isActive id = false ∧
       id ∉ (readPin (CheckConnectionValidity g id ⟨x, y⟩).1
         ⟨ny, y.Direction, py⟩).Connections)) ∧
    (∀ (g : ImNodeGraphData) (x y : ImPinPtr) (nx px ny : Nat) (id : ImGuiID),
      PinLiveAt g x nx px → PoolLiveAt g.Nodes y.Node ny → ny ≠ nx →
      (pinPoolOf (g.Nodes.Data.getD ny default) y.Direction).contains y.Pin = false →
      (readPin g ⟨nx, x.Direction, px⟩).Connections.count id ≤ 1 →
      ((CheckConnectionValidity g id ⟨x, y⟩).2 = true ∧
       (CheckConnectionValidity g id ⟨x, y⟩).1.Connections.isActive id = false ∧
       id ∉ (readPin (CheckConnectionValidity g id ⟨x, y⟩).1
         ⟨nx, x.Direction, px⟩).Connections)) := by
  refine ⟨?_, ?_, ?_, ?_⟩
  · intro g x y ny py id hxgone hy hcnt
    obtain ⟨hc1, hc2, hc3⟩ := CleanupConnection_A_gone id hxgone hy
    rw [CheckConnectionValidity_A_gone id hxgone hy]
    refine ⟨rfl, ?_, ?_⟩
    · dsimp only
      rw [hc1]
      exact isActive_erase_self _ _
    · dsimp only
      rw [hc3]
      refine List.count_eq_zero.mp ?_
      rw [List.count_erase_self]
      omega
  · intro g x y nx px id hx hygone hcnt
    obtain ⟨hc1, hc2, hc3⟩ := CleanupConnection_B_gone id hx hygone
    rw [CheckConnectionValidity_B_gone id hx hygone]
    refine ⟨rfl, ?_, ?_⟩
    · dsimp only
      rw [hc1]
      exact isActive_erase_self _ _
    · dsimp only
      rw [hc3]
      refine List.count_eq_zero.mp ?_
      rw [List.count_erase_self]
      omega
  · intro g x y nx ny py id hxn hy hnn hpx hcnt
    obtain ⟨hc1, hc2, hc3⟩ := CleanupConnection_both_alive_B id hxn hy hnn
    rw [CheckConnectionValidity_pinA_gone id hxn hy hpx]
    refine ⟨rfl, ?_, ?_⟩
    · dsimp only
      rw [hc1]
      exact isActive_erase_self _ _
    · dsimp only
      rw [hc3]
      refine List.count_eq_zero.mp ?_
      rw [List.count_erase_self]
      omega
  · intro g x y nx px ny id hx hyn hnn hpy hcnt
    obtain ⟨hc1, hc2, hc3⟩ := CleanupConnection_both_alive_A id hx hyn hnn
    rw [CheckConnectionValidity_pinB_gone id hx hyn hpy]
    refine ⟨rfl, ?_, ?_⟩
    · dsimp only
      rw [hc1]
      exact isActive_erase_self _ _
    · dsimp only
      rw [hc3]
      refine List.count_eq_zero.mp ?_
      rw [List.count_erase_self]
      omega

/-- Witness for **C8**: in the stale fixture the stored connection
references node id 9, which is absent, so the check prunes it: it reports
stale, deactivates record 0 and removes id 0 from the surviving input
pin's back-reference list. -/
theorem stale_connection_pruning_witness :
    (CheckConnectionValidity gStale 0 ⟨⟨9, 99, ImPinDirection_Output⟩, bPtr⟩).2 = true ∧
    (CheckConnectionValidity gStale 0
      ⟨⟨9, 99, ImPinDirection_Output⟩, bPtr⟩).1.Connections.isActive 0 = false ∧
    0 ∉ (readPin (CheckConnectionValidity gStale 0
      ⟨⟨9, 99, ImPinDirection_Output⟩, bPtr⟩).1 ⟨0, bPtr.Direction, 0⟩).Connections :=
  stale_connection_pruning.1 gStale ⟨9, 99, ImPinDirection_Output⟩ bPtr 0 0 0
    (by decide) (by decide) (by decide)

end ImNodeGraphModel
